import Mathlib

/-!
# audio_capture: the Windows microphone capture plugin

A shallow embedding of `src/windows/mic_capture_plugin.cpp` and the properties
proved about it.

Conventions of the embedding

* An `int16_t` sample is an `Int`; buffers are lists.
* A floating-point value is an `FVal`: a finite rational, an infinity or NaN.
  Every finite `float` and `double` is a rational number, so the finite values
  are represented exactly.  An arithmetic operation of the source is the exact
  rational operation followed by the rounding `rnd : ℚ → ℚ` of the format,
  which the definitions take as a parameter; `binary32` and `binary64` are the two
  formats with their round-to-nearest-even rounding `roundNE`.
* `std::min (a, b)` is `b < a ? b : a` and `std::max (a, b)` is `a < b ? b : a`,
  with the IEEE comparison, which is false as soon as an operand is NaN.
* A conversion whose behaviour is undefined in C++ (a float outside the range
  of the target integer type, a read outside a buffer) yields `none`.
-/

namespace AudioCapture

/-! ## Definitions -/

/-! ### Floating-point values -/

/-- A floating-point value: a finite number, plus or minus infinity, or NaN. -/
inductive FVal where
  | fin (q : ℚ)
  | pinf
  | ninf
  | nan
  deriving DecidableEq

/-- The IEEE comparison `a < b`: false when an operand is NaN. -/
def FVal.lt : FVal → FVal → Bool
  | .fin a, .fin b => decide (a < b)
  | .fin _, .pinf => true
  | .ninf, .fin _ => true
  | .ninf, .pinf => true
  | _, _ => false

/-- The IEEE comparison `a <= b`: false when an operand is NaN. -/
def FVal.le : FVal → FVal → Bool
  | .fin a, .fin b => decide (a ≤ b)
  | .fin _, .pinf => true
  | .ninf, .fin _ => true
  | .ninf, .pinf => true
  | .pinf, .pinf => true
  | .ninf, .ninf => true
  | _, _ => false

/-- `(std::min)(a, b)`, that is `(b < a) ? b : a`. -/
def stdMin (a b : FVal) : FVal := if FVal.lt b a then b else a

/-- `(std::max)(a, b)`, that is `(a < b) ? b : a`. -/
def stdMax (a b : FVal) : FVal := if FVal.lt a b then b else a

/-- Rounding of a rational to the nearest integer, ties to the even one. -/
def roundEven (y : ℚ) : ℤ :=
  let f := ⌊y⌋
  if y - f < 1 / 2 then f
  else if 1 / 2 < y - f then f + 1
  else if f % 2 = 0 then f else f + 1

/-- Round-to-nearest-even onto the binary floating-point numbers with a
significand of `p` bits and least normal exponent `emin` (`p = 24`,
`emin = -126` for `float`; `p = 53`, `emin = -1022` for `double`): the
nearest multiple of the unit in the last place of the binade of `x`, the
binades below `2 ^ emin` sharing the unit of the subnormal numbers. An
overflow is dealt with by `FloatFormat.ofExact`. -/
def roundNE (p : ℕ) (emin : ℤ) (x : ℚ) : ℚ :=
  if x = 0 then 0
  else
    let e : ℤ := max (Int.log 2 |x|) emin
    let u : ℚ := (2 : ℚ) ^ (e - ((p : ℤ) - 1))
    (roundEven (x / u) : ℚ) * u

/-- The properties of a rounding function `rnd` of precision `p` and least
exponent `emin` that the proofs rely on: it is monotone, and it leaves every
number `m * 2 ^ j` with `|m| < 2 ^ p` and `emin - (p - 1) ≤ j` (a number of
the format) unchanged. -/
structure IsRounding (p : ℕ) (emin : ℤ) (rnd : ℚ → ℚ) : Prop where
  mono : ∀ x y : ℚ, x ≤ y → rnd x ≤ rnd y
  fix : ∀ (m j : ℤ), |m| < 2 ^ p → emin - ((p : ℤ) - 1) ≤ j →
    rnd ((m : ℚ) * (2 : ℚ) ^ j) = (m : ℚ) * (2 : ℚ) ^ j

/-- Truncation toward zero of a rational, the integer part a C++
float-to-integer conversion keeps. -/
def truncQ (q : ℚ) : Int := if 0 ≤ q then ⌊q⌋ else ⌈q⌉

/-- The conversion `static_cast<int16_t>(x)` of a floating-point value: the value
truncated toward zero when that fits in `int16_t`; undefined (`none`)
otherwise, in particular for an infinity or NaN. -/
def floatToInt16 : FVal → Option Int
  | .fin q => if -32768 ≤ truncQ q ∧ truncQ q ≤ 32767 then some (truncQ q) else none
  | _ => none

/-- A binary floating-point format as far as the arithmetic of the plugin
needs it: the rounding of an exact result to the format, and the largest
finite number of the format, beyond which a rounded result is an infinity. -/
structure FloatFormat where
  rnd : ℚ → ℚ
  maxFinite : ℚ

/-- The value of the format for the exact finite result `q` of an operation. -/
def FloatFormat.ofExact (F : FloatFormat) (q : ℚ) : FVal :=
  if F.maxFinite < F.rnd q then .pinf
  else if F.rnd q < -F.maxFinite then .ninf
  else .fin (F.rnd q)

/-- The infinity of the sign of `q`, for `q ≠ 0`; NaN for `q = 0`: the IEEE
product of an infinity by the finite number `q`. -/
def infTimes (positive : Bool) (q : ℚ) : FVal :=
  if q = 0 then .nan
  else if (decide (0 < q)) = positive then .pinf else .ninf

/-- The IEEE product `a * b` in the format `F`. -/
def FloatFormat.mul (F : FloatFormat) : FVal → FVal → FVal
  | .fin a, .fin b => F.ofExact (a * b)
  | .fin a, .pinf => infTimes true a
  | .fin a, .ninf => infTimes false a
  | .pinf, .fin b => infTimes true b
  | .ninf, .fin b => infTimes false b
  | .pinf, .pinf => .pinf
  | .ninf, .ninf => .pinf
  | .pinf, .ninf => .ninf
  | .ninf, .pinf => .ninf
  | _, _ => .nan

/-- The format `float` (IEEE binary32) with round-to-nearest-even. -/
def binary32 : FloatFormat :=
  { rnd := roundNE 24 (-126), maxFinite := (2 ^ 24 - 1) * 2 ^ 104 }

/-- The format `double` (IEEE binary64) with round-to-nearest-even. -/
def binary64 : FloatFormat :=
  { rnd := roundNE 53 (-1022), maxFinite := (2 ^ 53 - 1) * 2 ^ 971 }

/-- The `float` whose IEEE binary32 encoding is the 32-bit word `w`. -/
def decodeFloat32 (w : Nat) : FVal :=
  let sign : Nat := w / 2 ^ 31 % 2
  let e : Nat := w / 2 ^ 23 % 256
  let m : Nat := w % 2 ^ 23
  if e = 255 then
    if m = 0 then (if sign = 0 then .pinf else .ninf) else .nan
  else
    let mag : ℚ :=
      if e = 0 then (m : ℚ) * (2 : ℚ) ^ (-149 : ℤ)
      else (((2 ^ 23 + m : ℕ) : ℤ) : ℚ) * (2 : ℚ) ^ ((e : ℤ) - 150)
    .fin (if sign = 0 then mag else -mag)

/-! ### Format converter -/

/-- The conversion `static_cast<int16_t> (n)` of an integer: `n` reduced modulo
`2 ^ 16` into `[-32768, 32767]`. -/
def toInt16 (n : Int) : Int := (n + 32768) % 65536 - 32768

/-- The conversion `static_cast<int32_t> (n)` of an integer: `n` reduced modulo
`2 ^ 32` into `[-2 ^ 31, 2 ^ 31 - 1]`. -/
def toInt32 (n : Int) : Int := (n + 2147483648) % 4294967296 - 2147483648

/-- Byte `i` of the raw buffer (bytes are naturals below 256; a position
outside the list reads as 0). -/
def byteAt (raw : List Nat) (i : Nat) : Nat := raw.getD i 0

/-- Element `i` of the raw buffer read as an array of `int16_t`
(`reinterpret_cast<const int16_t*>`, little-endian two's complement). -/
def int16At (raw : List Nat) (i : Nat) : Int :=
  toInt16 ((byteAt raw (2 * i) : Int) + 256 * (byteAt raw (2 * i + 1) : Int))

/-- Element `i` of the raw buffer read as an array of 32-bit words. -/
def uint32At (raw : List Nat) (i : Nat) : Nat :=
  byteAt raw (4 * i) + 256 * byteAt raw (4 * i + 1) + 65536 * byteAt raw (4 * i + 2) +
    16777216 * byteAt raw (4 * i + 3)

/-- Element `i` of the raw buffer read as an array of `int32_t`
(`reinterpret_cast<const int32_t*>`). -/
def int32At (raw : List Nat) (i : Nat) : Int := toInt32 (uint32At raw i : Int)

/-- The PCM16 branch: `converted_samples.assign (raw_samples, raw_samples + total_samples)`. -/
def convertPcm16 (raw : List Nat) (total_samples : Nat) : List Int :=
  (List.range total_samples).map (fun i => int16At raw i)

/-- The body of the PCM24 loop for the three bytes of one sample: assemble the
24-bit value, sign-extend it to `int32_t`, shift right by 8, convert to
`int16_t`. -/
def pcm24Sample (b0 b1 b2 : Nat) : Int :=
  let sample24 : Nat := b0 ||| (b1 <<< 8) ||| (b2 <<< 16)
  let sample24 : Int :=
    if sample24 &&& 0x800000 ≠ 0 then toInt32 ((sample24 ||| 0xFF000000 : Nat) : Int)
    else (sample24 : Int)
  toInt16 (sample24 >>> (8 : Nat))

/-- The PCM24 branch of the format conversion. -/
def convertPcm24 (raw : List Nat) (total_samples : Nat) : List Int :=
  (List.range total_samples).map (fun i =>
    let byte_offset := i * 3
    pcm24Sample (byteAt raw byte_offset) (byteAt raw (byte_offset + 1))
      (byteAt raw (byte_offset + 2)))

/-- The PCM32 branch of the format conversion:
`static_cast<int16_t> (int32_samples[i] >> 16)`. -/
def convertPcm32 (raw : List Nat) (total_samples : Nat) : List Int :=
  (List.range total_samples).map (fun i => toInt16 (int32At raw i >>> (16 : Nat)))

/-- The body of the float loop for one sample `x`:
`sample = min (1.0f, max (-1.0f, x))`, then
`static_cast<int16_t> (sample * 32767.0f)`. -/
def convertFloatSample (F : FloatFormat) (x : FVal) : Option Int :=
  let sample := stdMin (.fin 1) (stdMax (.fin (-1)) x)
  floatToInt16 (F.mul sample (.fin 32767))

/-- The IEEE float branch of the format conversion. -/
def convertFloat32 (F : FloatFormat) (raw : List Nat) (total_samples : Nat) :
    List (Option Int) :=
  (List.range total_samples).map (fun i =>
    convertFloatSample F (decodeFloat32 (uint32At raw i)))

/-- The format conversion of the capture loop (the chain of `if`s on
`is_pcm_format`, `is_float_format` and `actual_bits_per_sample`): the
converted samples, or `none` when `conversion_success` stays false. A sample
is `none` when its conversion is undefined. `F` is the format `float`. -/
def convertSamples (F : FloatFormat) (is_pcm_format is_float_format : Bool)
    (actual_bits_per_sample : Nat) (raw : List Nat) (total_samples : Nat) :
    Option (List (Option Int)) :=
  if is_pcm_format = true ∧ actual_bits_per_sample = 16 then
    some ((convertPcm16 raw total_samples).map some)
  else if is_float_format = true ∧ actual_bits_per_sample = 32 then
    some (convertFloat32 F raw total_samples)
  else if is_pcm_format = true ∧ actual_bits_per_sample = 24 then
    some ((convertPcm24 raw total_samples).map some)
  else if is_pcm_format = true ∧ actual_bits_per_sample = 32 then
    some ((convertPcm32 raw total_samples).map some)
  else none

/-- The unsigned little-endian value of a group of bytes. -/
def unsignedLE : List Nat → Nat
  | [] => 0
  | b :: bs => b + 256 * unsignedLE bs

/-- The signed (two's complement) little-endian value of a group of bytes, of
width eight bits per byte. -/
def signedLE (bytes : List Nat) : Int :=
  if unsignedLE bytes < 2 ^ (8 * bytes.length - 1) then (unsignedLE bytes : Int)
  else (unsignedLE bytes : Int) - 2 ^ (8 * bytes.length)

/-- The `n` bytes of sample `i` in a raw buffer of `n`-byte samples. -/
def sampleBytes (raw : List Nat) (n i : Nat) : List Nat :=
  (List.range n).map (fun k => byteAt raw (i * n + k))

/-! ### Downmixer -/

/-- `MicCapturePlugin::ApplyGainBoostAndConvertToMono (input, output,
frame_count, input_channels, gain_boost)`: the values written to
`output[0 .. frame_count)`. A value is `none` when the source reads outside
`input` or converts a float that `int16_t` cannot hold. `F` is the format
`float`; the conversion of an `int16_t` to `float` is exact. -/
def ApplyGainBoostAndConvertToMono (F : FloatFormat) (input : List Int)
    (frame_count : Nat) (input_channels : Int) (gain_boost : FVal) : List (Option Int) :=
  let max_value : FVal := .fin 32767
  let min_value : FVal := .fin (-32768)
  if input_channels = 1 then
    (List.range frame_count).map (fun i =>
      match (input[i]? : Option Int) with
      | some x =>
        let sample := F.mul (.fin (x : ℚ)) gain_boost
        let clamped_sample := stdMin max_value sample
        let sample := stdMax min_value clamped_sample
        floatToInt16 sample
      | none => none)
  else
    (List.range frame_count).map (fun i =>
      match (input[i * 2]? : Option Int), (input[i * 2 + 1]? : Option Int) with
      | some l, some r =>
        let left : ℚ := (l : ℚ)
        let right : ℚ := (r : ℚ)
        let mono := F.mul (.fin (F.rnd (F.rnd (left + right) / 2))) gain_boost
        let clamped_mono := stdMin max_value mono
        let mono := stdMax min_value clamped_mono
        floatToInt16 mono
      | _, _ => none)

/-- The clamp of the downmixer, `max (min_value, min (max_value, x))` with
`max_value = 32767.0f` and `min_value = -32768.0f`. -/
def clampInt16 (x : FVal) : FVal := stdMax (.fin (-32768)) (stdMin (.fin 32767) x)

/-! ### Resampler -/

/-- The body of the interpolation loop of `ResampleAudio` for the output index
`i`: the value written to `output[i]`. `rnd` is the rounding of `double` and
`ratio` the quotient of the rates; the source position is not negative when
the rates are positive. -/
def resampleSample (rnd : ℚ → ℚ) (input : List Int) (ratio : ℚ) (i : Nat) : Int :=
  let src_pos : ℚ := rnd (rnd (i : ℚ) * ratio)
  let src_index : Nat := (truncQ src_pos).toNat
  let fraction : ℚ := rnd (src_pos - rnd (src_index : ℚ))
  if src_index + 1 < input.length then
    let sample0 : ℚ := (input.getD src_index 0 : ℚ)
    let sample1 : ℚ := (input.getD (src_index + 1) 0 : ℚ)
    let interpolated : ℚ := rnd (sample0 + rnd (rnd (sample1 - sample0) * fraction))
    truncQ (max (-32768) (min 32767 interpolated))
  else if src_index < input.length then input.getD src_index 0
  else input.getD (input.length - 1) 0

/-- `MicCapturePlugin::ResampleAudio (input, input_frames, output,
output_frames, input_sample_rate, output_sample_rate)`: the contents of the
output buffer on return, `output` being its contents on entry and
`input_frames` the length of `input`. The source writes `output[i]` for
`i < output_frames` only, which must not exceed the size of the buffer. -/
def ResampleAudio (rnd : ℚ → ℚ) (input : List Int) (output : List Int)
    (output_frames : Nat) (input_sample_rate output_sample_rate : Int) : List Int :=
  let input_frames := input.length
  if input_frames = 0 ∨ output_frames = 0 then output
  else if input_sample_rate = output_sample_rate then
    let copy_frames := min input_frames output_frames
    List.ofFn (fun i : Fin output.length =>
      if i.val < copy_frames then input.getD i.val 0 else output.get i)
  else
    let ratio : ℚ := rnd ((input_sample_rate : ℚ) / (output_sample_rate : ℚ))
    List.ofFn (fun i : Fin output.length =>
      if i.val < output_frames then resampleSample rnd input ratio i.val else output.get i)

/-- The source position of the output index `i`, in the words of the
specification: `p = i * (inputRate / outputRate)`, evaluated in `double`. -/
def srcPos (rnd : ℚ → ℚ) (inRate outRate i : ℕ) : ℚ :=
  rnd ((i : ℚ) * rnd ((inRate : ℚ) / (outRate : ℚ)))

/-- The source index `k = floor (p)` of the output index `i`. -/
def srcIndex (rnd : ℚ → ℚ) (inRate outRate i : ℕ) : ℕ :=
  (⌊srcPos rnd inRate outRate i⌋).toNat

/-- The fractional part `f = p - k` of the source position, evaluated in `double`. -/
def srcFraction (rnd : ℚ → ℚ) (inRate outRate i : ℕ) : ℚ :=
  rnd (srcPos rnd inRate outRate i - (srcIndex rnd inRate outRate i : ℚ))

/-- The value the specification gives an output sample of source index `k` and
fraction `f`: `input[k] + (input[k + 1] - input[k]) * f` evaluated in `double`
and truncated toward zero when `k + 1 < n`, `input[k]` when `k = n - 1`, the
last input sample when `k ≥ n`. -/
def interpolate (rnd : ℚ → ℚ) (input : List Int) (k : ℕ) (f : ℚ) : Int :=
  if k + 1 < input.length then
    truncQ (rnd ((input.getD k 0 : ℚ) +
      rnd (((input.getD (k + 1) 0 : ℚ) - (input.getD k 0 : ℚ)) * f)))
  else if k < input.length then input.getD k 0
  else input.getD (input.length - 1) 0

/-- The number `output_frames` of frames the capture loop produces from
`input_frames` mono frames: scaled by the ratio of the rates in `double` and
capped by `output_frame_count` when the rates differ, `input_frames` capped
otherwise. `actual_sample_rate` is the `UINT32` rate of the device and
`sample_rate_` the `int` target rate. -/
def outputFrames (rnd : ℚ → ℚ) (input_frames : Nat) (actual_sample_rate : Nat)
    (sample_rate_ : Int) (output_frame_count : Nat) : Nat :=
  if (actual_sample_rate : Int) ≠ sample_rate_ % 4294967296 then
    let output_frames : Nat :=
      (truncQ (rnd (rnd (rnd (input_frames : ℚ) * rnd (sample_rate_ : ℚ)) /
        rnd (actual_sample_rate : ℚ)))).toNat
    min output_frames output_frame_count
  else
    min input_frames output_frame_count

/-! ### Decibel estimator -/

/-- The product `20.0 * d` of `CalculateDecibel`, rounded to `double`. -/
def times20 (rnd : ℚ → ℚ) : FVal → FVal
  | .fin q => .fin (rnd (20 * q))
  | .pinf => .pinf
  | .ninf => .ninf
  | .nan => .nan

/-- The accumulation loop of `CalculateDecibel`:
`sum_of_squares += value * value` over the samples, in `double`. -/
def sumOfSquares (rnd : ℚ → ℚ) (samples : List Int) : ℚ :=
  samples.foldl (fun (acc : ℚ) (s : Int) => rnd (acc + rnd ((s : ℚ) * (s : ℚ)))) 0

/-- `MicCapturePlugin::CalculateDecibel (samples, sample_count)`.
`rnd` is the rounding of `double`, `sqrt` and `log10` are the functions of the
C library (`log10` may return an infinity or NaN). -/
def CalculateDecibel (rnd : ℚ → ℚ) (sqrt : ℚ → ℚ) (log10 : ℚ → FVal)
    (samples : List Int) : FVal :=
  if samples.length = 0 then .fin (-120)
  else
    let sum_of_squares := sumOfSquares rnd samples
    let mean_square := rnd (sum_of_squares / rnd (samples.length : ℚ))
    let rms := sqrt mean_square
    let max_value : ℚ := 32767
    if rms ≤ 0 then .fin (-120)
    else
      let decibel := times20 rnd (log10 (rnd (rms / max_value)))
      let clamped_decibel := stdMin (.fin 0) decibel
      stdMax (.fin (-120)) clamped_decibel

/-- A square root on the rationals, exact on the squares of the multiples of
`2 ^ (-20)` and rounded down elsewhere; it stands for the C `sqrt` where a
concrete function is wanted. -/
def sqrtQ (x : ℚ) : ℚ := (Nat.sqrt ⌊x * 2 ^ 40⌋₊ : ℚ) / 2 ^ 20

/-- A base-10 logarithm on the rationals rounded down to an integer, with the
IEEE special cases of `log10`; it stands for the C `log10` where a
concrete function is wanted. -/
def log10Q (x : ℚ) : FVal :=
  if x < 0 then .nan else if x = 0 then .ninf else .fin (Int.log 10 x)

/-! ### Delivery queue -/

/-- The `AudioDataPacket` of the plugin: the PCM bytes of one chunk, its
loudness, and the `steady_clock` time at which it was queued. -/
structure AudioDataPacket where
  data : List Nat
  decibel : FVal
  timestamp : Nat
  deriving DecidableEq

/-- `MicCapturePlugin::QueueAudioData (data, decibel)` on the queue
`audio_queue_`, oldest packet first. `kMaxQueueSize` is declared in the header
of the plugin and is a parameter here; `now` is the reading of the clock.
The `Send` that asks the platform thread to run `ProcessQueue` does not touch
the queue. -/
def QueueAudioData (kMaxQueueSize : Nat) (audio_queue_ : List AudioDataPacket)
    (data : List Nat) (decibel : FVal) (now : Nat) : List AudioDataPacket :=
  let q := if audio_queue_.length ≥ kMaxQueueSize then audio_queue_.tail else audio_queue_
  let packet : AudioDataPacket := { data := data, decibel := decibel, timestamp := now }
  q ++ [packet]

/-- The two event sinks `ProcessQueue` writes to. A sink is `none` while no
listener is attached; otherwise it holds the values passed to `Success` so far,
oldest first (of the decibel map the `"decibel"` entry is kept, the
`"timestamp"` entry, read from the system clock, is left out). -/
structure Sinks where
  event_sink_ : Option (List (List Nat))
  decibel_event_sink_ : Option (List FVal)
  deriving DecidableEq

/-- `MicCapturePlugin::ProcessQueue ()`: the loop `while (!audio_queue_.empty ())`,
which hands the front packet to each attached sink and pops it. Returns the
queue and the sinks after the loop. -/
def ProcessQueue : List AudioDataPacket → Sinks → List AudioDataPacket × Sinks
  | [], sinks => ([], sinks)
  | packet :: rest, sinks =>
    let s1 : Sinks :=
      { sinks with event_sink_ := sinks.event_sink_.map (fun l => l ++ [packet.data]) }
    let s2 : Sinks :=
      { s1 with decibel_event_sink_ :=
          s1.decibel_event_sink_.map (fun l => l ++ [packet.decibel]) }
    ProcessQueue rest s2

/-- A packet to be queued: the arguments of one `QueueAudioData` call together
with the clock reading of that call. -/
structure PushArgs where
  data : List Nat
  decibel : FVal
  now : Nat
  deriving DecidableEq

/-- The packet a `QueueAudioData` call builds from its arguments. -/
def PushArgs.packet (a : PushArgs) : AudioDataPacket :=
  { data := a.data, decibel := a.decibel, timestamp := a.now }

/-- The queue after the successive calls `QueueAudioData` for `pushes`, in
order, starting from the queue `q`, with no drain in between. -/
def pushAll (kMaxQueueSize : Nat) (q : List AudioDataPacket) (pushes : List PushArgs) :
    List AudioDataPacket :=
  pushes.foldl (fun acc a => QueueAudioData kMaxQueueSize acc a.data a.decibel a.now) q

/-! ### Capture loop -/

/-- The constants of one run of `CaptureThread`: the arithmetic of the
platform (`F32` the format `float`; `rnd64`, `sqrt` and `log10` for `double`),
the fields read from `mix_format_` and the format detected from them, and the
configuration fields `sample_rate_`, `gain_boost_` and `input_volume_`. -/
structure CaptureEnv where
  F32 : FloatFormat
  rnd64 : ℚ → ℚ
  sqrt : ℚ → ℚ
  log10 : ℚ → FVal
  frame_size : Nat
  actual_sample_rate : Nat
  actual_channels : Nat
  actual_bits_per_sample : Nat
  is_float_format : Bool
  is_pcm_format : Bool
  sample_rate_ : Int
  gain_boost_ : FVal
  input_volume_ : FVal

/-- `chunk_frames = actual_sample_rate * effective_chunk_ms / 1000` with
`effective_chunk_ms = 30`, in 32-bit unsigned arithmetic. -/
def chunkFrames (actual_sample_rate : Nat) : Nat :=
  actual_sample_rate * 30 % 4294967296 / 1000

/-- `chunk_size_bytes = chunk_frames * frame_size`, in `size_t`. -/
def chunkSizeBytes (env : CaptureEnv) : Nat :=
  chunkFrames env.actual_sample_rate * env.frame_size % 18446744073709551616

/-- `output_frame_count = sample_rate_ * effective_chunk_ms / 1000`, the
configured output chunk size, in `int` arithmetic (truncating division;
`sample_rate_` is at least 8000 when the thread runs). -/
def outputFrameCount (sample_rate_ : Int) : Nat :=
  (Int.tdiv (sample_rate_ * 30) 1000).toNat

/-- The samples of a buffer whose conversions are all defined; a conversion
that is not defined reads as 0 (`convertFloatSample_defined`,
`applyInputVolume_defined` and `floatToInt16_clampInt16` show that the
conversions of the pipeline are defined). -/
def definedSamples (l : List (Option Int)) : List Int := l.map (fun o => o.getD 0)

/-- The input-volume step: when `0 < input_volume_ < 1`, each sample becomes
`static_cast<int16_t> (static_cast<float> (sample) * input_volume_)`;
otherwise the samples are left as they are. -/
def applyInputVolume (F : FloatFormat) (input_volume_ : FVal) (converted_samples : List Int) :
    List (Option Int) :=
  if FVal.lt (.fin 0) input_volume_ = true ∧ FVal.lt input_volume_ (.fin 1) = true then
    converted_samples.map (fun (s : Int) => floatToInt16 (F.mul (.fin (s : ℚ)) input_volume_))
  else converted_samples.map some

/-- The bytes of a buffer of `int16_t` samples, two per sample, low byte first. -/
def samplesToBytes (samples : List Int) : List Nat :=
  samples.flatMap (fun s => [(s % 65536).toNat % 256, (s % 65536).toNat / 256])

/-- The processing of one chunk, from the format conversion to the arguments
of `QueueAudioData`: `none` when the format is not supported
(`conversion_success` stays false); otherwise the contents of `output_buffer`
after the chunk, the bytes `audio_data` of the packet and its loudness. -/
def processChunk (env : CaptureEnv) (raw_buffer : List Nat) (output_buffer : List Int) :
    Option (List Int × List Nat × FVal) :=
  let chunk_size_bytes := chunkSizeBytes env
  let output_frame_count := outputFrameCount env.sample_rate_
  let input_frame_count := chunk_size_bytes / env.frame_size
  let total_samples := input_frame_count * env.actual_channels
  match convertSamples env.F32 env.is_pcm_format env.is_float_format
      env.actual_bits_per_sample raw_buffer total_samples with
  | none => none
  | some converted =>
    let converted_samples := definedSamples converted
    let converted_samples :=
      definedSamples (applyInputVolume env.F32 env.input_volume_ converted_samples)
    let input_frames := converted_samples.length / env.actual_channels
    let mono_buffer := definedSamples (ApplyGainBoostAndConvertToMono env.F32
      converted_samples input_frames (env.actual_channels : Int) env.gain_boost_)
    let output_frames := outputFrames env.rnd64 input_frames env.actual_sample_rate
      env.sample_rate_ output_frame_count
    let new_output_buffer :=
      if (env.actual_sample_rate : Int) ≠ env.sample_rate_ % 4294967296 then
        ResampleAudio env.rnd64 mono_buffer output_buffer output_frames
          (toInt32 (env.actual_sample_rate : Int)) env.sample_rate_
      else mono_buffer.take output_frames ++ output_buffer.drop output_frames
    let decibel := CalculateDecibel env.rnd64 env.sqrt env.log10
      (new_output_buffer.take output_frames)
    let audio_data := samplesToBytes (new_output_buffer.take output_frames)
    some (new_output_buffer, audio_data, decibel)

/-- Whether the format conversion handles the format of the device: one of
PCM16, IEEE float32, PCM24, PCM32. -/
def formatSupported (env : CaptureEnv) : Bool :=
  (env.is_pcm_format && env.actual_bits_per_sample == 16) ||
  (env.is_float_format && env.actual_bits_per_sample == 32) ||
  (env.is_pcm_format && env.actual_bits_per_sample == 24) ||
  (env.is_pcm_format && env.actual_bits_per_sample == 32)

/-- The state of the capture loop between two steps: the carry-over buffer
`raw_buffer` with its fill position, `output_buffer`, and two histories, the
calls of `QueueAudioData` so far (bytes and loudness, oldest first) and the
chunks handed to the conversion pipeline so far (the first
`chunk_size_bytes` bytes of `raw_buffer` at each processing). -/
structure CaptureState where
  raw_buffer : List Nat
  raw_buffer_pos : Nat
  output_buffer : List Int
  queued : List (List Nat × FVal)
  chunks : List (List Nat)

/-- The bytes waiting in the carry-over buffer. -/
def CaptureState.carried (st : CaptureState) : List Nat :=
  st.raw_buffer.take st.raw_buffer_pos

/-- The state of the capture loop when `CaptureThread` enters its outer loop:
`raw_buffer` of two chunks and `output_buffer` of `output_frame_count`
samples, both zero-initialised, `raw_buffer_pos = 0`, nothing queued. -/
def initialCaptureState (env : CaptureEnv) : CaptureState :=
  { raw_buffer := List.replicate (chunkSizeBytes env * 2) 0
    raw_buffer_pos := 0
    output_buffer := List.replicate (outputFrameCount env.sample_rate_) 0
    queued := []
    chunks := [] }

/-- The buffer `buf` after `memcpy (buf + pos, src, src.length)`. -/
def writeAt (buf : List Nat) (pos : Nat) (src : List Nat) : List Nat :=
  buf.take pos ++ src ++ buf.drop (pos + src.length)

/-- The loop `while (data_offset < data_size && !should_stop_)` of the capture
thread over one device buffer `data` of `data_size` bytes. `fuel` bounds the
number of iterations; the result is `none` when it runs out. -/
def copyLoop (env : CaptureEnv) (should_stop_ : Bool) (data : List Nat) (data_size : Nat) :
    Nat → Nat → CaptureState → Option CaptureState
  | 0, data_offset, st =>
    if data_offset < data_size ∧ should_stop_ = false then none else some st
  | fuel + 1, data_offset, st =>
    if data_offset < data_size ∧ should_stop_ = false then
      let chunk_size_bytes := chunkSizeBytes env
      let space_available := st.raw_buffer.length - st.raw_buffer_pos
      let data_remaining := data_size - data_offset
      let copy_size := min space_available data_remaining
      let st1 : CaptureState :=
        if copy_size > 0 then
          { st with
            raw_buffer := writeAt st.raw_buffer st.raw_buffer_pos
              ((data.drop data_offset).take copy_size)
            raw_buffer_pos := st.raw_buffer_pos + copy_size }
        else st
      let data_offset1 := if copy_size > 0 then data_offset + copy_size else data_offset
      if st1.raw_buffer_pos ≥ chunk_size_bytes then
        match processChunk env st1.raw_buffer st1.output_buffer with
        | none => copyLoop env should_stop_ data data_size fuel data_offset1
            { st1 with raw_buffer_pos := 0 }
        | some (new_output_buffer, audio_data, decibel) =>
          let st2 : CaptureState :=
            { st1 with
              output_buffer := new_output_buffer
              queued := st1.queued ++ [(audio_data, decibel)]
              chunks := st1.chunks ++ [st1.raw_buffer.take chunk_size_bytes] }
          if st2.raw_buffer_pos > chunk_size_bytes then
            let remaining := st2.raw_buffer_pos - chunk_size_bytes
            copyLoop env should_stop_ data data_size fuel data_offset1
              { st2 with
                raw_buffer := writeAt st2.raw_buffer 0
                  ((st2.raw_buffer.drop chunk_size_bytes).take remaining)
                raw_buffer_pos := remaining }
          else
            copyLoop env should_stop_ data data_size fuel data_offset1
              { st2 with raw_buffer_pos := 0 }
      else copyLoop env should_stop_ data data_size fuel data_offset1 st1
    else some st

/-- The handling of one device buffer returned by `GetBuffer`: `data` is `none`
for a null pointer, `is_silent` the flag `AUDCLNT_BUFFERFLAGS_SILENT`. A
buffer that is silent, null or empty is skipped; otherwise its
`num_frames * frame_size` bytes go through `copyLoop`, with as many
iterations allowed as the buffer has bytes. -/
def handleDeviceBuffer (env : CaptureEnv) (should_stop_ : Bool) (is_silent : Bool)
    (data : Option (List Nat)) (num_frames : Nat) (st : CaptureState) :
    Option CaptureState :=
  match data with
  | none => some st
  | some bytes =>
    if is_silent = false ∧ num_frames > 0 then
      let data_size := num_frames * env.frame_size
      copyLoop env should_stop_ bytes data_size data_size 0 st
    else some st

/-- A capture environment for the examples: a mono PCM16 device at the rate
`native` (two bytes per frame), the target rate 16000 Hz, the gain 2.5 and
the input volume 1.0 (the defaults of the plugin), in binary32 and binary64
arithmetic. -/
def exampleEnv (native : Nat) : CaptureEnv :=
  { F32 := binary32
    rnd64 := binary64.rnd
    sqrt := sqrtQ
    log10 := log10Q
    frame_size := 2
    actual_sample_rate := native
    actual_channels := 1
    actual_bits_per_sample := 16
    is_float_format := false
    is_pcm_format := true
    sample_rate_ := 16000
    gain_boost_ := .fin (5 / 2)
    input_volume_ := .fin 1 }

/-! ### Device session -/

/-- The negotiated format `mix_format_` as far as the plugin reads it. -/
structure WaveFormat where
  wFormatTag : Nat
  nChannels : Nat
  nSamplesPerSec : Nat
  nBlockAlign : Nat
  wBitsPerSample : Nat
  deriving DecidableEq

/-- The fields of `MicCapturePlugin` that the session operations read and
write. A COM interface pointer is `none` when null and otherwise the identity
of the object; `thread_joinable` is `capture_thread_.joinable ()`. -/
structure Plugin where
  is_capturing_ : Bool
  should_stop_ : Bool
  sample_rate_ : Int
  channels_ : Int
  bits_per_sample_ : Int
  gain_boost_ : FVal
  input_volume_ : FVal
  audio_client_ : Option Nat
  capture_client_ : Option Nat
  device_ : Option Nat
  mix_format_ : Option WaveFormat
  buffer_frame_count_ : Nat
  com_initialized_ : Bool
  current_device_name_ : String
  thread_joinable : Bool
  deriving DecidableEq

/-- The state the constructor leaves: the defaults `kDefaultSampleRate` etc.,
null handles, no thread. -/
def Plugin.init : Plugin :=
  { is_capturing_ := false
    should_stop_ := false
    sample_rate_ := 16000
    channels_ := 1
    bits_per_sample_ := 16
    gain_boost_ := .fin (5 / 2)
    input_volume_ := .fin 1
    audio_client_ := none
    capture_client_ := none
    device_ := none
    mix_format_ := none
    buffer_frame_count_ := 0
    com_initialized_ := false
    current_device_name_ := ""
    thread_joinable := false }

/-- The calls of one open attempt, in the order `OpenWASAPIStreamWithRetry`
makes them. -/
inductive OpenStage where
  | coInitialize
  | createEnumerator
  | getDefaultEndpoint
  | activate
  | getMixFormat
  | initializeClient
  | getBufferSize
  | getService
  | start
  deriving DecidableEq

/-- What the platform does in one open attempt: whether `CoInitializeEx`
returns `S_OK`, the first call that fails (none when all succeed), and the
objects the calls hand out when they succeed. -/
structure Attempt where
  com_s_ok : Bool
  failure : Option OpenStage
  device : Nat
  client : Nat
  format : WaveFormat
  frames : Nat
  capture : Nat

/-- The platform as the session operations see it: the friendly name of a
device (`none` when the property store or the name cannot be read) and the
outcome of the open attempt number `n`, counted from 1. -/
structure Platform where
  friendlyName : Nat → Option String
  attempts : Nat → Attempt

/-- `MicCapturePlugin::GetCurrentDeviceName ()`. -/
def GetCurrentDeviceName (P : Platform) (p : Plugin) : String :=
  match p.device_ with
  | none => "Default Microphone"
  | some d =>
    match P.friendlyName d with
    | none => "Default Microphone"
    | some name => name

/-- The keywords of `IsBluetoothDevice`. -/
def bluetooth_keywords : List String :=
  ["bluetooth", "airpods", "beats", "jabra", "sony", "bose", "jbl"]

/-- The name with every character passed through `tolower` (of the C locale,
which changes the letters `A` to `Z` only). -/
def lowercased (device_name : String) : List Char :=
  device_name.toList.map Char.toLower

/-- The body of `IsBluetoothDevice` for the device name `device_name`:
lowercase it, then look for each keyword with `find`. -/
def isBluetoothName (device_name : String) : Bool :=
  bluetooth_keywords.any (fun kw => decide (kw.toList <:+: lowercased device_name))

/-- `MicCapturePlugin::IsBluetoothDevice ()`. -/
def IsBluetoothDevice (P : Platform) (p : Plugin) : Bool :=
  isBluetoothName (GetCurrentDeviceName P p)

/-- The array `retry_delays` of `OpenWASAPIStreamWithRetry`, in milliseconds
(each `static_cast<int> (delay * 1000)` of the source is the exact product). -/
def retry_delays (is_bluetooth : Bool) : List Nat :=
  if is_bluetooth then [500, 1000, 1500, 2000, 2500] else [300, 600, 1000, 0, 0]

/-- The constant `max_retries`. -/
def max_retries (is_bluetooth : Bool) : Nat := if is_bluetooth then 5 else 3

/-- The constant `initial_wait`, in milliseconds. -/
def initial_wait (is_bluetooth : Bool) : Nat := if is_bluetooth then 1500 else 300

/-- The fields of the plugin after one open attempt, and whether it succeeded.
A call that fails leaves its output pointer null, and the failure path of the
source resets the handles acquired before it. -/
def attemptOpen (a : Attempt) (p : Plugin) : Bool × Plugin × String :=
  match a.failure with
  | some .coInitialize => (false, p, "Failed to initialize COM")
  | some .createEnumerator => (false, p, "Failed to create device enumerator")
  | some .getDefaultEndpoint =>
    (false, { p with device_ := none }, "Failed to get default audio endpoint")
  | some .activate =>
    (false, { p with device_ := none, audio_client_ := none },
      "Failed to activate IAudioClient")
  | some .getMixFormat =>
    (false, { p with device_ := none, audio_client_ := none }, "Failed to get mix format")
  | some .initializeClient =>
    (false, { p with device_ := none, audio_client_ := none, mix_format_ := none },
      "Failed to initialize audio client")
  | some .getBufferSize =>
    (false, { p with device_ := none, audio_client_ := none, mix_format_ := none },
      "Failed to get buffer size")
  | some .getService =>
    (false, { p with device_ := none, audio_client_ := none, mix_format_ := none,
                     buffer_frame_count_ := a.frames, capture_client_ := none },
      "Failed to get IAudioCaptureClient")
  | some .start =>
    (false, { p with device_ := none, audio_client_ := none, mix_format_ := none,
                     buffer_frame_count_ := a.frames, capture_client_ := none },
      "Failed to start audio client")
  | none =>
    (true, { p with device_ := some a.device, audio_client_ := some a.client,
                    mix_format_ := some a.format, buffer_frame_count_ := a.frames,
                    capture_client_ := some a.capture, com_initialized_ := a.com_s_ok }, "")

/-- The result of `OpenWASAPIStreamWithRetry`: the return value, the plugin,
the error message, the sleeps made in order (milliseconds) and the number
of open attempts made. -/
structure OpenResult where
  ok : Bool
  plugin : Plugin
  error_message : String
  waits : List Nat
  attempts_made : Nat

/-- The loop `for (attempt = 1; attempt <= max_retries; ++attempt)` of
`OpenWASAPIStreamWithRetry` from the attempt number `attempt` on, `remaining`
being `max_retries - attempt + 1`. -/
def openLoop (P : Platform) (is_bluetooth : Bool) :
    Nat → Nat → Plugin → List Nat → OpenResult
  | 0, attempt, p, waits =>
    { ok := false, plugin := p, error_message := "Failed to open WASAPI stream after retries",
      waits := waits, attempts_made := attempt - 1 }
  | remaining + 1, attempt, p, waits =>
    match attemptOpen (P.attempts attempt) p with
    | (true, p1, _) =>
      { ok := true, plugin := p1, error_message := "", waits := waits,
        attempts_made := attempt }
    | (false, p1, msg) =>
      if attempt < max_retries is_bluetooth ∧
          (retry_delays is_bluetooth).getD (attempt - 1) 0 > 0 then
        openLoop P is_bluetooth remaining (attempt + 1) p1
          (waits ++ [(retry_delays is_bluetooth).getD (attempt - 1) 0])
      else
        { ok := false, plugin := p1, error_message := msg, waits := waits,
          attempts_made := attempt }

/-- `MicCapturePlugin::OpenWASAPIStreamWithRetry (..., is_bluetooth, ...)`: the
initial wait, then the attempts. -/
def OpenWASAPIStreamWithRetry (P : Platform) (is_bluetooth : Bool) (p : Plugin) : OpenResult :=
  openLoop P is_bluetooth (max_retries is_bluetooth) 1 p [initial_wait is_bluetooth]

/-- `MicCapturePlugin::CleanupExistingCapture ()`: stop and join a running
capture thread, clear the device name. -/
def CleanupExistingCapture (p : Plugin) : Plugin :=
  let p1 : Plugin :=
    if p.is_capturing_ = true ∧ p.thread_joinable = true then
      { p with should_stop_ := true, thread_joinable := false, is_capturing_ := false }
    else p
  { p1 with current_device_name_ := "" }

/-- The entries of the argument map of `startCapture` that have the type the
plugin looks for: `int32_t` for the first three, `double` for the last two. -/
structure StartArgs where
  sampleRate : Option Int
  channels : Option Int
  bitDepth : Option Int
  gainBoost : Option FVal
  inputVolume : Option FVal

/-- The conversion `static_cast<float> (x)` of a `double`. -/
def FloatFormat.ofDouble (F : FloatFormat) : FVal → FVal
  | .fin q => F.ofExact q
  | .pinf => .pinf
  | .ninf => .ninf
  | .nan => .nan

/-- The argument parsing of `StartCapture`. -/
def parseArgs (F : FloatFormat) (args : Option StartArgs) (p : Plugin) : Plugin :=
  match args with
  | none => p
  | some a =>
    { p with
      sample_rate_ := a.sampleRate.getD p.sample_rate_
      channels_ := a.channels.getD p.channels_
      bits_per_sample_ := a.bitDepth.getD p.bits_per_sample_
      gain_boost_ := (a.gainBoost.map F.ofDouble).getD p.gain_boost_
      input_volume_ := (a.inputVolume.map F.ofDouble).getD p.input_volume_ }

/-- The block `// Clamp values` of `StartCapture`; `0.1f` is the `float`
nearest to one tenth. -/
def clampConfig (F : FloatFormat) (p : Plugin) : Plugin :=
  let min_channels := min p.channels_ 2
  let min_gain := stdMin (.fin 10) p.gain_boost_
  let min_volume := stdMin (.fin 1) p.input_volume_
  { p with
    sample_rate_ := max p.sample_rate_ 8000
    channels_ := max 1 min_channels
    bits_per_sample_ := 16
    gain_boost_ := stdMax (.fin (F.rnd (1 / 10))) min_gain
    input_volume_ := stdMax (.fin 0) min_volume }

/-- The result of `StartCapture`: the return value and the plugin, with the
configuration as it was when the stream open was called, the Bluetooth
classification that was passed to it, and what the open did. -/
structure StartResult where
  ok : Bool
  plugin : Plugin
  at_open : Plugin
  is_bluetooth : Bool
  opened : OpenResult

/-- `MicCapturePlugin::StartCapture (args)`. -/
def StartCapture (F : FloatFormat) (P : Platform) (args : Option StartArgs) (p : Plugin) :
    StartResult :=
  let p1 := CleanupExistingCapture p
  let p2 := clampConfig F (parseArgs F args p1)
  let is_bluetooth := IsBluetoothDevice P p2
  let r := OpenWASAPIStreamWithRetry P is_bluetooth p2
  if r.ok = false then
    { ok := false, plugin := r.plugin, at_open := p2, is_bluetooth := is_bluetooth, opened := r }
  else
    let p3 : Plugin :=
      { r.plugin with current_device_name_ := GetCurrentDeviceName P r.plugin }
    if p3.is_capturing_ = true then
      { ok := false, plugin := p3, at_open := p2, is_bluetooth := is_bluetooth, opened := r }
    else
      { ok := true
        plugin := { p3 with should_stop_ := false, is_capturing_ := true,
                            thread_joinable := true }
        at_open := p2, is_bluetooth := is_bluetooth, opened := r }

/-- `MicCapturePlugin::StopCapture ()`: the return value and the plugin. -/
def StopCapture (p : Plugin) : Bool × Plugin :=
  if p.is_capturing_ = false then (false, p)
  else
    (true,
      { p with
        should_stop_ := true
        thread_joinable := false
        is_capturing_ := false
        current_device_name_ := ""
        capture_client_ := none
        mix_format_ := none
        audio_client_ := none
        device_ := none
        com_initialized_ := false })

/-- The handler `catch (...)` of `CaptureThread`: an exception in the capture
thread resets `is_capturing_`. -/
def captureThreadException (p : Plugin) : Plugin := { p with is_capturing_ := false }

/-- A platform for the examples: every device is called `name`, and the open
attempts from number `good` on succeed, the earlier ones failing at `stage`. -/
def examplePlatform (name : String) (good : Nat) (stage : OpenStage) : Platform :=
  { friendlyName := fun _ => some name
    attempts := fun n =>
      { com_s_ok := true
        failure := if n < good then some stage else none
        device := 100 + n
        client := 200 + n
        format := { wFormatTag := 1, nChannels := 1, nSamplesPerSec := 48000,
                    nBlockAlign := 2, wBitsPerSample := 16 }
        frames := 4800
        capture := 300 + n } }

/-- The fields an open attempt never writes: the two flags, the thread, the
device name and the configuration are the same in `q` as in `p`. -/
def Plugin.sameControl (p q : Plugin) : Prop :=
  q.is_capturing_ = p.is_capturing_ ∧ q.should_stop_ = p.should_stop_ ∧
  q.thread_joinable = p.thread_joinable ∧
  q.current_device_name_ = p.current_device_name_ ∧
  q.sample_rate_ = p.sample_rate_ ∧ q.channels_ = p.channels_ ∧
  q.bits_per_sample_ = p.bits_per_sample_ ∧ q.gain_boost_ = p.gain_boost_ ∧
  q.input_volume_ = p.input_volume_

/-- A plugin with a capture running on the device 7, for the examples. -/
def activeExample : Plugin :=
  { Plugin.init with
    is_capturing_ := true
    thread_joinable := true
    device_ := some 7
    audio_client_ := some 8
    capture_client_ := some 9
    mix_format_ := some { wFormatTag := 1, nChannels := 1, nSamplesPerSec := 48000,
                          nBlockAlign := 2, wBitsPerSample := 16 }
    buffer_frame_count_ := 4800
    com_initialized_ := true
    current_device_name_ := "USB Microphone" }

/-- What one iteration of the loop
`while (data_offset < data_size && !should_stop_)` does: the number of bytes
it copies, the state after the copy, `data_offset` after the copy, whether
the branch `if (raw_buffer_pos >= chunk_size_bytes)` is taken, and the state
at the end of the iteration. -/
structure CopyIteration where
  copy_size : Nat
  after_copy : CaptureState
  data_offset : Nat
  processed : Bool
  at_end : CaptureState

/-- The body of the loop `while (data_offset < data_size && !should_stop_)` of
the capture thread, entered with the offset `data_offset` and the state `st`. -/
def copyStep (env : CaptureEnv) (data : List Nat) (data_size data_offset : Nat)
    (st : CaptureState) : CopyIteration :=
  let chunk_size_bytes := chunkSizeBytes env
  let space_available := st.raw_buffer.length - st.raw_buffer_pos
  let data_remaining := data_size - data_offset
  let copy_size := min space_available data_remaining
  let st1 : CaptureState :=
    if copy_size > 0 then
      { st with
        raw_buffer := writeAt st.raw_buffer st.raw_buffer_pos
          ((data.drop data_offset).take copy_size)
        raw_buffer_pos := st.raw_buffer_pos + copy_size }
    else st
  let data_offset1 := if copy_size > 0 then data_offset + copy_size else data_offset
  if st1.raw_buffer_pos ≥ chunk_size_bytes then
    match processChunk env st1.raw_buffer st1.output_buffer with
    | none =>
      { copy_size := copy_size, after_copy := st1, data_offset := data_offset1,
        processed := true, at_end := { st1 with raw_buffer_pos := 0 } }
    | some (new_output_buffer, audio_data, decibel) =>
      let st2 : CaptureState :=
        { st1 with
          output_buffer := new_output_buffer
          queued := st1.queued ++ [(audio_data, decibel)]
          chunks := st1.chunks ++ [st1.raw_buffer.take chunk_size_bytes] }
      if st2.raw_buffer_pos > chunk_size_bytes then
        let remaining := st2.raw_buffer_pos - chunk_size_bytes
        { copy_size := copy_size, after_copy := st1, data_offset := data_offset1,
          processed := true,
          at_end :=
            { st2 with
              raw_buffer := writeAt st2.raw_buffer 0
                ((st2.raw_buffer.drop chunk_size_bytes).take remaining)
              raw_buffer_pos := remaining } }
      else
        { copy_size := copy_size, after_copy := st1, data_offset := data_offset1,
          processed := true, at_end := { st2 with raw_buffer_pos := 0 } }
  else
    { copy_size := copy_size, after_copy := st1, data_offset := data_offset1,
      processed := false, at_end := st1 }

/-- The iterations the loop `while (data_offset < data_size && !should_stop_)`
makes, in order, at most `fuel` of them: for each one the offset and the state
it is entered with, and what it does. -/
def copyTrace (env : CaptureEnv) (should_stop_ : Bool) (data : List Nat) (data_size : Nat) :
    Nat → Nat → CaptureState → List (Nat × CaptureState × CopyIteration)
  | 0, _, _ => []
  | fuel + 1, data_offset, st =>
    if data_offset < data_size ∧ should_stop_ = false then
      (data_offset, st, copyStep env data data_size data_offset st) ::
        copyTrace env should_stop_ data data_size fuel
          (copyStep env data data_size data_offset st).data_offset
          (copyStep env data data_size data_offset st).at_end
    else []

/-! ## Theorems -/

/-! ### Rounding to nearest even -/

theorem roundEven_cases (y : ℚ) : roundEven y = ⌊y⌋ ∨ roundEven y = ⌊y⌋ + 1 := by
  unfold roundEven
  dsimp only
  split_ifs <;> simp

theorem roundEven_intCast (n : ℤ) : roundEven (n : ℚ) = n := by
  unfold roundEven
  simp

theorem roundEven_mono {x y : ℚ} (h : x ≤ y) : roundEven x ≤ roundEven y := by
  have hf : ⌊x⌋ ≤ ⌊y⌋ := Int.floor_mono h
  rcases lt_or_eq_of_le hf with hlt | heq
  · rcases roundEven_cases x with hx | hx <;> rcases roundEven_cases y with hy | hy <;> omega
  · unfold roundEven
    dsimp only
    rw [← heq]
    have hxy : x - (⌊x⌋ : ℚ) ≤ y - (⌊x⌋ : ℚ) := by linarith
    split_ifs <;> first | omega | (exfalso; linarith)

theorem roundEven_neg (y : ℚ) : roundEven (-y) = -roundEven y := by
  by_cases hint : (⌊y⌋ : ℚ) = y
  · rw [← hint, ← Int.cast_neg, roundEven_intCast, roundEven_intCast]
  · have hlt : (⌊y⌋ : ℚ) < y := lt_of_le_of_ne (Int.floor_le y) hint
    have hlt2 : y < (⌊y⌋ : ℚ) + 1 := Int.lt_floor_add_one y
    have hfl : ⌊-y⌋ = -⌊y⌋ - 1 := by
      rw [Int.floor_eq_iff]
      push_cast
      constructor <;> linarith
    unfold roundEven
    dsimp only
    rw [hfl]
    push_cast
    split_ifs <;> first | omega | (exfalso; linarith)

theorem roundNE_neg (p : ℕ) (emin : ℤ) (x : ℚ) : roundNE p emin (-x) = -roundNE p emin x := by
  unfold roundNE
  by_cases hx : x = 0
  · simp [hx]
  · have hx2 : -x ≠ 0 := neg_ne_zero.mpr hx
    rw [if_neg hx, if_neg hx2]
    dsimp only
    rw [abs_neg, neg_div, roundEven_neg]
    push_cast
    ring

theorem two_zpow_pos (e : ℤ) : (0 : ℚ) < (2 : ℚ) ^ e := zpow_pos (by norm_num) e

theorem log_lt_succ {x : ℚ} : |x| < (2 : ℚ) ^ (Int.log 2 |x| + 1) := by
  have := Int.lt_zpow_succ_log_self (R := ℚ) (b := 2) (by norm_num) |x|
  simpa using this

theorem log_le {x : ℚ} (hx : x ≠ 0) : (2 : ℚ) ^ (Int.log 2 |x|) ≤ |x| := by
  have := Int.zpow_log_le_self (R := ℚ) (b := 2) (r := |x|) (by norm_num) (abs_pos.mpr hx)
  simpa using this

theorem roundNE_le_top (p : ℕ) (emin : ℤ) {x : ℚ} (hx : 0 < x) :
    roundNE p emin x ≤ (2 : ℚ) ^ (max (Int.log 2 |x|) emin + 1) := by
  unfold roundNE
  rw [if_neg (ne_of_gt hx)]
  dsimp only
  set e : ℤ := max (Int.log 2 |x|) emin with he
  have hu : (0 : ℚ) < (2 : ℚ) ^ (e - ((p : ℤ) - 1)) := two_zpow_pos _
  have hxlt : x ≤ (2 : ℚ) ^ (e + 1) := by
    have h1 : |x| < (2 : ℚ) ^ (Int.log 2 |x| + 1) := log_lt_succ
    rw [abs_of_pos hx] at h1
    have h2 : (2 : ℚ) ^ (Int.log 2 x + 1) ≤ (2 : ℚ) ^ (e + 1) := by
      apply zpow_le_zpow_right₀ (by norm_num)
      have : Int.log 2 x ≤ e := by rw [he, abs_of_pos hx]; exact le_max_left _ _
      omega
    linarith
  have hq : x / (2 : ℚ) ^ (e - ((p : ℤ) - 1)) ≤ (((2 : ℤ) ^ p : ℤ) : ℚ) := by
    rw [div_le_iff₀ hu]
    have : (((2 : ℤ) ^ p : ℤ) : ℚ) * (2 : ℚ) ^ (e - ((p : ℤ) - 1)) = (2 : ℚ) ^ (e + 1) := by
      push_cast
      rw [← zpow_natCast, ← zpow_add₀ (by norm_num : (2 : ℚ) ≠ 0)]
      congr 1
      ring
    rw [this]; exact hxlt
  have hr := roundEven_mono hq
  rw [roundEven_intCast] at hr
  have hr2 : ((roundEven (x / (2 : ℚ) ^ (e - ((p : ℤ) - 1))) : ℤ) : ℚ) ≤ (((2 : ℤ) ^ p : ℤ) : ℚ) := by
    exact_mod_cast hr
  calc ((roundEven (x / (2 : ℚ) ^ (e - ((p : ℤ) - 1))) : ℤ) : ℚ) * (2 : ℚ) ^ (e - ((p : ℤ) - 1))
      ≤ (((2 : ℤ) ^ p : ℤ) : ℚ) * (2 : ℚ) ^ (e - ((p : ℤ) - 1)) :=
        mul_le_mul_of_nonneg_right hr2 hu.le
    _ = (2 : ℚ) ^ (e + 1) := by
      push_cast
      rw [← zpow_natCast, ← zpow_add₀ (by norm_num : (2 : ℚ) ≠ 0)]
      congr 1
      ring

theorem roundNE_nonneg (p : ℕ) (emin : ℤ) {x : ℚ} (hx : 0 ≤ x) : 0 ≤ roundNE p emin x := by
  unfold roundNE
  split_ifs with h0
  · exact le_refl _
  · dsimp only
    have hu : (0 : ℚ) < (2 : ℚ) ^ (max (Int.log 2 |x|) emin - ((p : ℤ) - 1)) := two_zpow_pos _
    have hq : ((0 : ℤ) : ℚ) ≤ x / (2 : ℚ) ^ (max (Int.log 2 |x|) emin - ((p : ℤ) - 1)) := by
      simp only [Int.cast_zero]
      exact div_nonneg hx hu.le
    have hr := roundEven_mono hq
    rw [roundEven_intCast] at hr
    have : (0 : ℚ) ≤ (roundEven (x / (2 : ℚ) ^ (max (Int.log 2 |x|) emin - ((p : ℤ) - 1))) : ℤ) := by
      exact_mod_cast hr
    exact mul_nonneg this hu.le

theorem roundNE_ge_bot (p : ℕ) (hp : 1 ≤ p) (emin : ℤ) {x : ℚ} (hx : 0 < x)
    (hn : emin ≤ Int.log 2 |x|) :
    (2 : ℚ) ^ (Int.log 2 |x|) ≤ roundNE p emin x := by
  unfold roundNE
  rw [if_neg (ne_of_gt hx)]
  dsimp only
  rw [max_eq_left hn]
  set e : ℤ := Int.log 2 |x| with he
  have hu : (0 : ℚ) < (2 : ℚ) ^ (e - ((p : ℤ) - 1)) := two_zpow_pos _
  have hxge : (2 : ℚ) ^ e ≤ x :=
    le_trans (log_le (ne_of_gt hx)) (le_of_eq (abs_of_pos hx))
  have hpow : (((2 : ℤ) ^ (p - 1) : ℤ) : ℚ) * (2 : ℚ) ^ (e - ((p : ℤ) - 1)) = (2 : ℚ) ^ e := by
    push_cast
    rw [← zpow_natCast, ← zpow_add₀ (by norm_num : (2 : ℚ) ≠ 0)]
    congr 1
    have : ((p - 1 : ℕ) : ℤ) = (p : ℤ) - 1 := by omega
    rw [this]; ring
  have hq : (((2 : ℤ) ^ (p - 1) : ℤ) : ℚ) ≤ x / (2 : ℚ) ^ (e - ((p : ℤ) - 1)) := by
    rw [le_div_iff₀ hu, hpow]; exact hxge
  have hr := roundEven_mono hq
  rw [roundEven_intCast] at hr
  have hr2 : (((2 : ℤ) ^ (p - 1) : ℤ) : ℚ) ≤ ((roundEven (x / (2 : ℚ) ^ (e - ((p : ℤ) - 1))) : ℤ) : ℚ) := by
    exact_mod_cast hr
  calc (2 : ℚ) ^ e = (((2 : ℤ) ^ (p - 1) : ℤ) : ℚ) * (2 : ℚ) ^ (e - ((p : ℤ) - 1)) := hpow.symm
    _ ≤ _ := mul_le_mul_of_nonneg_right hr2 hu.le

theorem roundNE_mono_pos (p : ℕ) (hp : 1 ≤ p) (emin : ℤ) {x y : ℚ} (hx : 0 < x) (h : x ≤ y) :
    roundNE p emin x ≤ roundNE p emin y := by
  have hy : 0 < y := lt_of_lt_of_le hx h
  have hlog : Int.log 2 |x| ≤ Int.log 2 |y| := by
    rw [abs_of_pos hx, abs_of_pos hy]
    exact Int.log_mono_right hx h
  have hE : max (Int.log 2 |x|) emin ≤ max (Int.log 2 |y|) emin := max_le_max hlog (le_refl _)
  rcases lt_or_eq_of_le hE with hlt | heq
  · have hn : emin ≤ Int.log 2 |y| := by
      by_contra hc
      push_neg at hc
      rw [max_eq_right hc.le] at hlt
      have := le_max_right (Int.log 2 |x|) emin
      omega
    have hEy : max (Int.log 2 |y|) emin = Int.log 2 |y| := max_eq_left hn
    calc roundNE p emin x ≤ (2 : ℚ) ^ (max (Int.log 2 |x|) emin + 1) := roundNE_le_top p emin hx
      _ ≤ (2 : ℚ) ^ (Int.log 2 |y|) := by
        apply zpow_le_zpow_right₀ (by norm_num)
        omega
      _ ≤ roundNE p emin y := roundNE_ge_bot p hp emin hy hn
  · unfold roundNE
    rw [if_neg (ne_of_gt hx), if_neg (ne_of_gt hy)]
    dsimp only
    rw [heq]
    have hu : (0 : ℚ) < (2 : ℚ) ^ (max (Int.log 2 |y|) emin - ((p : ℤ) - 1)) := two_zpow_pos _
    have hq : x / (2 : ℚ) ^ (max (Int.log 2 |y|) emin - ((p : ℤ) - 1)) ≤
        y / (2 : ℚ) ^ (max (Int.log 2 |y|) emin - ((p : ℤ) - 1)) :=
      div_le_div_of_nonneg_right h hu.le
    have hr := roundEven_mono hq
    have hr2 : ((roundEven (x / (2 : ℚ) ^ (max (Int.log 2 |y|) emin - ((p : ℤ) - 1))) : ℤ) : ℚ) ≤
        ((roundEven (y / (2 : ℚ) ^ (max (Int.log 2 |y|) emin - ((p : ℤ) - 1))) : ℤ) : ℚ) := by
      exact_mod_cast hr
    exact mul_le_mul_of_nonneg_right hr2 hu.le

theorem roundNE_mono (p : ℕ) (hp : 1 ≤ p) (emin : ℤ) {x y : ℚ} (h : x ≤ y) :
    roundNE p emin x ≤ roundNE p emin y := by
  rcases lt_trichotomy 0 x with hx | hx | hx
  · exact roundNE_mono_pos p hp emin hx h
  · subst hx
    have : roundNE p emin 0 = 0 := by simp [roundNE]
    rw [this]; exact roundNE_nonneg p emin h
  · rcases lt_or_le y 0 with hy | hy
    · have h1 := roundNE_mono_pos p hp emin (neg_pos.mpr hy) (neg_le_neg h)
      rw [roundNE_neg, roundNE_neg] at h1
      linarith
    · have h1 := roundNE_nonneg p emin (neg_pos.mpr hx).le
      rw [roundNE_neg] at h1
      have h2 := roundNE_nonneg p emin hy
      linarith

theorem roundNE_fix (p : ℕ) (emin : ℤ) (m j : ℤ) (hm : |m| < 2 ^ p)
    (hj : emin - ((p : ℤ) - 1) ≤ j) :
    roundNE p emin ((m : ℚ) * (2 : ℚ) ^ j) = (m : ℚ) * (2 : ℚ) ^ j := by
  by_cases hm0 : m = 0
  · simp [hm0, roundNE]
  have hx0 : (m : ℚ) * (2 : ℚ) ^ j ≠ 0 :=
    mul_ne_zero (by exact_mod_cast hm0) (ne_of_gt (two_zpow_pos j))
  unfold roundNE
  rw [if_neg hx0]
  dsimp only
  set x : ℚ := (m : ℚ) * (2 : ℚ) ^ j with hx
  set e : ℤ := max (Int.log 2 |x|) emin with he
  have habs : |x| < (2 : ℚ) ^ ((p : ℤ) + j) := by
    rw [hx, abs_mul, abs_of_pos (two_zpow_pos j), zpow_add₀ (by norm_num : (2 : ℚ) ≠ 0)]
    apply mul_lt_mul_of_pos_right _ (two_zpow_pos j)
    rw [zpow_natCast]
    have : ((|m| : ℤ) : ℚ) < (((2 : ℤ) ^ p : ℤ) : ℚ) := by exact_mod_cast hm
    simpa using this
  have hlog : Int.log 2 |x| < (p : ℤ) + j := by
    have := (Int.lt_zpow_iff_log_lt (R := ℚ) (b := 2) (by norm_num) (x := (p : ℤ) + j)
      (abs_pos.mpr hx0)).mp (by simpa using habs)
    exact this
  have hek : e - ((p : ℤ) - 1) ≤ j := by
    have : e ≤ (p : ℤ) + j - 1 := by
      rw [he]; apply max_le <;> omega
    omega
  obtain ⟨k, hk⟩ : ∃ k : ℕ, (k : ℤ) = j - (e - ((p : ℤ) - 1)) :=
    ⟨(j - (e - ((p : ℤ) - 1))).toNat, by omega⟩
  have hdiv : x / (2 : ℚ) ^ (e - ((p : ℤ) - 1)) = ((m * 2 ^ k : ℤ) : ℚ) := by
    rw [hx, mul_div_assoc, ← zpow_sub₀ (by norm_num : (2 : ℚ) ≠ 0), ← hk]
    push_cast
    rw [zpow_natCast]
  rw [hdiv, roundEven_intCast]
  push_cast
  rw [mul_assoc, ← zpow_natCast, ← zpow_add₀ (by norm_num : (2 : ℚ) ≠ 0), hk]
  congr 2
  ring

theorem roundNE_isRounding (p : ℕ) (hp : 1 ≤ p) (emin : ℤ) : IsRounding p emin (roundNE p emin) :=
  ⟨fun _ _ h => roundNE_mono p hp emin h, roundNE_fix p emin⟩

/-! ### Format converter -/

theorem signedLE_two (b0 b1 : Nat) :
    signedLE [b0, b1] = if b0 + 256 * b1 < 32768 then ((b0 + 256 * b1 : Nat) : Int)
      else ((b0 + 256 * b1 : Nat) : Int) - 65536 := by
  have hl : ([b0, b1] : List Nat).length = 2 := rfl
  unfold signedLE
  rw [hl]
  simp only [unsignedLE]
  norm_num

theorem signedLE_three (b0 b1 b2 : Nat) :
    signedLE [b0, b1, b2] =
      if b0 + 256 * (b1 + 256 * b2) < 8388608 then ((b0 + 256 * (b1 + 256 * b2) : Nat) : Int)
      else ((b0 + 256 * (b1 + 256 * b2) : Nat) : Int) - 16777216 := by
  have hl : ([b0, b1, b2] : List Nat).length = 3 := rfl
  unfold signedLE
  rw [hl]
  simp only [unsignedLE]
  norm_num

theorem signedLE_four (b0 b1 b2 b3 : Nat) :
    signedLE [b0, b1, b2, b3] =
      if b0 + 256 * (b1 + 256 * (b2 + 256 * b3)) < 2147483648 then
        ((b0 + 256 * (b1 + 256 * (b2 + 256 * b3)) : Nat) : Int)
      else ((b0 + 256 * (b1 + 256 * (b2 + 256 * b3)) : Nat) : Int) - 4294967296 := by
  have hl : ([b0, b1, b2, b3] : List Nat).length = 4 := rfl
  unfold signedLE
  rw [hl]
  simp only [unsignedLE]
  norm_num

theorem pcm16_value (b0 b1 : Nat) (h0 : b0 < 256) (h1 : b1 < 256) :
    toInt16 ((b0 : Int) + 256 * (b1 : Int)) = signedLE [b0, b1] := by
  rw [signedLE_two]
  unfold toInt16
  split_ifs <;> omega

theorem or_bytes3 (b0 b1 b2 : Nat) (h0 : b0 < 256) (h1 : b1 < 256) :
    b0 ||| (b1 <<< 8) ||| (b2 <<< 16) = b0 + 256 * b1 + 65536 * b2 := by
  have e1 : b0 ||| (b1 <<< 8) = b0 + 256 * b1 := by
    rw [Nat.shiftLeft_eq, Nat.lor_comm, Nat.mul_comm b1]
    have := Nat.mul_add_lt_is_or (i := 8) (b := b0) (by omega) b1
    rw [← this]; omega
  rw [e1, Nat.shiftLeft_eq, Nat.lor_comm, Nat.mul_comm b2]
  have := Nat.mul_add_lt_is_or (i := 16) (b := b0 + 256 * b1) (by omega) b2
  rw [← this]; omega

theorem and_sign24 (x : Nat) : x &&& 0x800000 = (x / 8388608 % 2) * 8388608 := by
  have h : (0x800000 : Nat) = 2 ^ 23 := by norm_num
  rw [h, Nat.and_two_pow, Nat.toNat_testBit]

theorem or_ext24 (x : Nat) (hx : x < 16777216) : x ||| 0xFF000000 = x + 4278190080 := by
  have h : (0xFF000000 : Nat) = 2 ^ 24 * 255 := by norm_num
  rw [h, Nat.lor_comm]
  have := Nat.mul_add_lt_is_or (i := 24) (b := x) (by omega) 255
  rw [← this]; omega

theorem pcm24_value (b0 b1 b2 : Nat) (h0 : b0 < 256) (h1 : b1 < 256) (h2 : b2 < 256) :
    pcm24Sample b0 b1 b2 = signedLE [b0, b1, b2] / 256 ∧
    pcm24Sample b0 b1 b2 = signedLE [b1, b2] := by
  rw [signedLE_three, signedLE_two]
  unfold pcm24Sample
  dsimp only
  rw [or_bytes3 b0 b1 b2 h0 h1, and_sign24, or_ext24 _ (by omega)]
  simp only [Int.shiftRight_eq_div_pow]
  unfold toInt16 toInt32
  norm_num
  constructor <;> split_ifs <;> omega

theorem pcm32_value (u : Nat) (hu : u < 4294967296) :
    toInt16 (toInt32 (u : Int) >>> (16 : Nat)) =
      (if u < 2147483648 then (u : Int) else (u : Int) - 4294967296) / 65536 := by
  simp only [Int.shiftRight_eq_div_pow]
  unfold toInt16 toInt32
  norm_num
  split_ifs <;> omega

theorem toInt16_range (n : Int) : -32768 ≤ toInt16 n ∧ toInt16 n ≤ 32767 := by
  unfold toInt16
  constructor <;> omega

theorem byteAt_lt (raw : List Nat) (hbytes : ∀ b ∈ raw, b < 256) (k : Nat) :
    byteAt raw k < 256 := by
  unfold byteAt
  by_cases hk : k < raw.length
  · rw [List.getD_eq_getElem _ _ hk]
    exact hbytes _ (List.getElem_mem hk)
  · rw [List.getD_eq_default _ _ (by omega)]
    omega

theorem sampleBytes_two (raw : List Nat) (i : Nat) :
    sampleBytes raw 2 i = [byteAt raw (i * 2), byteAt raw (i * 2 + 1)] := rfl

theorem sampleBytes_three (raw : List Nat) (i : Nat) :
    sampleBytes raw 3 i =
      [byteAt raw (i * 3), byteAt raw (i * 3 + 1), byteAt raw (i * 3 + 2)] := rfl

theorem sampleBytes_four (raw : List Nat) (i : Nat) :
    sampleBytes raw 4 i =
      [byteAt raw (i * 4), byteAt raw (i * 4 + 1), byteAt raw (i * 4 + 2),
        byteAt raw (i * 4 + 3)] := rfl

theorem signedLE_two_range (b0 b1 : Nat) (h0 : b0 < 256) (h1 : b1 < 256) :
    -32768 ≤ signedLE [b0, b1] ∧ signedLE [b0, b1] ≤ 32767 := by
  rw [signedLE_two]
  split_ifs <;> omega

/-- C5. For integer PCM input of width `w` in {16, 24, 32} bits, the format
conversion succeeds and each converted sample equals `floor (v / 2 ^ (w - 16))`,
`v` being the signed little-endian `w`-bit value of the bytes of the sample: a
PCM16 sample is returned unchanged, a PCM24 sample is the signed 16-bit value
formed by bytes 1 and 2 of its 3-byte group, and every sample lies in
`[-32768, 32767]`. -/
theorem C5_pcm_conversion (F : FloatFormat) (w : Nat) (hw : w = 16 ∨ w = 24 ∨ w = 32)
    (raw : List Nat) (hbytes : ∀ b ∈ raw, b < 256) (total_samples : Nat)
    (hlen : total_samples * (w / 8) ≤ raw.length) :
    ∃ out : List (Option Int),
      convertSamples F true false w raw total_samples = some out ∧
      out.length = total_samples ∧
      ∀ i, i < total_samples →
        ∃ v : Int, out[i]? = some (some v) ∧
          v = signedLE (sampleBytes raw (w / 8) i) / 2 ^ (w - 16) ∧
          -32768 ≤ v ∧ v ≤ 32767 ∧
          (w = 16 → v = signedLE (sampleBytes raw 2 i)) ∧
          (w = 24 → v = signedLE [byteAt raw (i * 3 + 1), byteAt raw (i * 3 + 2)]) := by
  have hb := byteAt_lt raw hbytes
  rcases hw with h | h | h
  · subst h
    refine ⟨(convertPcm16 raw total_samples).map some, by simp [convertSamples],
      by simp [convertPcm16], ?_⟩
    intro i hi
    have hv : int16At raw i = signedLE (sampleBytes raw 2 i) := by
      rw [sampleBytes_two, ← pcm16_value _ _ (hb _) (hb _)]
      unfold int16At
      rw [Nat.mul_comm 2 i]
    refine ⟨int16At raw i, by simp [convertPcm16, hi], ?_, ?_, ?_, fun _ => hv, ?_⟩
    · rw [hv]; norm_num
    · rw [hv, sampleBytes_two]; exact (signedLE_two_range _ _ (hb _) (hb _)).1
    · rw [hv, sampleBytes_two]; exact (signedLE_two_range _ _ (hb _) (hb _)).2
    · intro h; omega
  · subst h
    refine ⟨(convertPcm24 raw total_samples).map some, by simp [convertSamples],
      by simp [convertPcm24], ?_⟩
    intro i hi
    have hv := pcm24_value (byteAt raw (i * 3)) (byteAt raw (i * 3 + 1))
      (byteAt raw (i * 3 + 2)) (hb _) (hb _) (hb _)
    refine ⟨pcm24Sample (byteAt raw (i * 3)) (byteAt raw (i * 3 + 1))
      (byteAt raw (i * 3 + 2)), by simp [convertPcm24, hi], ?_, ?_, ?_, ?_, fun _ => hv.2⟩
    · rw [hv.1]; norm_num [sampleBytes_three]
    · rw [hv.2]; exact (signedLE_two_range _ _ (hb _) (hb _)).1
    · rw [hv.2]; exact (signedLE_two_range _ _ (hb _) (hb _)).2
    · intro h; omega
  · subst h
    refine ⟨(convertPcm32 raw total_samples).map some, by simp [convertSamples],
      by simp [convertPcm32], ?_⟩
    intro i hi
    have h0 := hb (4 * i)
    have h1 := hb (4 * i + 1)
    have h2 := hb (4 * i + 2)
    have h3 := hb (4 * i + 3)
    have hu : uint32At raw i < 4294967296 := by unfold uint32At; omega
    have hv := pcm32_value (uint32At raw i) hu
    have hs : signedLE (sampleBytes raw 4 i) =
        if uint32At raw i < 2147483648 then (uint32At raw i : Int)
        else (uint32At raw i : Int) - 4294967296 := by
      rw [sampleBytes_four, signedLE_four, Nat.mul_comm i 4]
      have e : byteAt raw (4 * i) + 256 * (byteAt raw (4 * i + 1) + 256 *
          (byteAt raw (4 * i + 2) + 256 * byteAt raw (4 * i + 3))) = uint32At raw i := by
        unfold uint32At; ring
      rw [e]
    refine ⟨toInt16 (int32At raw i >>> (16 : Nat)), by simp [convertPcm32, hi], ?_, ?_, ?_,
      ?_, ?_⟩
    · unfold int32At
      rw [hv, hs]; norm_num
    · exact (toInt16_range _).1
    · exact (toInt16_range _).2
    · intro h; omega
    · intro h; omega

/-- Witness of C5: two PCM24 samples, `0x800000` (the least value) and
`0x7FFFFF` (the greatest), convert to `-32768` and `32767`. -/
theorem C5_pcm_conversion_witness :
    (∀ b ∈ [0, 0, 128, 255, 255, 127], b < 256) ∧ 2 * (24 / 8) ≤ 6 ∧
    convertSamples binary32 true false 24 [0, 0, 128, 255, 255, 127] 2 =
      some [some (-32768), some 32767] ∧
    ∃ out : List (Option Int),
      convertSamples binary32 true false 24 [0, 0, 128, 255, 255, 127] 2 = some out ∧
      out.length = 2 ∧
      ∀ i, i < 2 →
        ∃ v : Int, out[i]? = some (some v) ∧
          v = signedLE (sampleBytes [0, 0, 128, 255, 255, 127] (24 / 8) i) / 2 ^ (24 - 16) ∧
          -32768 ≤ v ∧ v ≤ 32767 ∧
          (24 = 16 → v = signedLE (sampleBytes [0, 0, 128, 255, 255, 127] 2 i)) ∧
          (24 = 24 → v = signedLE [byteAt [0, 0, 128, 255, 255, 127] (i * 3 + 1),
            byteAt [0, 0, 128, 255, 255, 127] (i * 3 + 2)]) :=
  ⟨by decide, by decide, by decide,
    C5_pcm_conversion binary32 24 (Or.inr (Or.inl rfl)) [0, 0, 128, 255, 255, 127]
      (by decide) 2 (by decide)⟩

theorem IsRounding.fix_int {p : ℕ} {emin : ℤ} {rnd : ℚ → ℚ} (h : IsRounding p emin rnd)
    (m : ℤ) (hm : |m| < 2 ^ p) (he : emin - ((p : ℤ) - 1) ≤ 0) : rnd (m : ℚ) = (m : ℚ) := by
  have := h.fix m 0 hm he
  simpa using this

theorem binary32_isRounding : IsRounding 24 (-126) binary32.rnd :=
  roundNE_isRounding 24 (by norm_num) (-126)

theorem binary64_isRounding : IsRounding 53 (-1022) binary64.rnd :=
  roundNE_isRounding 53 (by norm_num) (-1022)

theorem truncQ_intCast (n : ℤ) : truncQ (n : ℚ) = n := by
  unfold truncQ
  split_ifs <;> simp

theorem floatToInt16_int (n : ℤ) (h1 : -32768 ≤ n) (h2 : n ≤ 32767) :
    floatToInt16 (.fin (n : ℚ)) = some n := by
  simp only [floatToInt16, truncQ_intCast]
  rw [if_pos ⟨h1, h2⟩]

theorem ofExact_int (F : FloatFormat) (hF : IsRounding 24 (-126) F.rnd)
    (hmax : 32767 ≤ F.maxFinite) (n : ℤ) (h1 : -32767 ≤ n) (h2 : n ≤ 32767) :
    F.ofExact (n : ℚ) = .fin (n : ℚ) := by
  have hn : |n| < 2 ^ 24 := by rw [abs_lt]; constructor <;> omega
  have hr : F.rnd (n : ℚ) = (n : ℚ) := hF.fix_int n hn (by norm_num)
  have hq1 : (-32767 : ℚ) ≤ (n : ℚ) := by exact_mod_cast h1
  have hq2 : (n : ℚ) ≤ 32767 := by exact_mod_cast h2
  unfold FloatFormat.ofExact
  rw [hr, if_neg (by linarith), if_neg (by linarith)]

theorem clamp_unit_of_ge (x : FVal) (h : FVal.le (.fin 1) x = true) :
    stdMin (.fin 1) (stdMax (.fin (-1)) x) = .fin 1 := by
  cases x with
  | fin q =>
    have hq : (1 : ℚ) ≤ q := by simpa [FVal.le] using h
    have h1 : (-1 : ℚ) < q := by linarith
    have h2 : ¬ q < 1 := by linarith
    simp [stdMin, stdMax, FVal.lt, h1, h2]
  | pinf => simp [stdMin, stdMax, FVal.lt]
  | ninf => simp [FVal.le] at h
  | nan => simp [FVal.le] at h

theorem clamp_unit_of_le (x : FVal) (h : FVal.le x (.fin (-1)) = true) :
    stdMin (.fin 1) (stdMax (.fin (-1)) x) = .fin (-1) := by
  cases x with
  | fin q =>
    have hq : q ≤ (-1 : ℚ) := by simpa [FVal.le] using h
    have h1 : ¬ (-1 : ℚ) < q := by linarith
    simp [stdMin, stdMax, FVal.lt, h1]
  | pinf => simp [FVal.le] at h
  | ninf => simp [stdMin, stdMax, FVal.lt]
  | nan => simp [FVal.le] at h

theorem convertFloatSample_of_ge (F : FloatFormat) (hF : IsRounding 24 (-126) F.rnd)
    (hmax : 32767 ≤ F.maxFinite) (x : FVal) (h : FVal.le (.fin 1) x = true) :
    convertFloatSample F x = some 32767 := by
  unfold convertFloatSample
  dsimp only
  rw [clamp_unit_of_ge x h]
  have := ofExact_int F hF hmax 32767 (by norm_num) (by norm_num)
  have h2 := floatToInt16_int 32767 (by norm_num) (by norm_num)
  simp only [FloatFormat.mul, one_mul]
  push_cast at this h2
  rw [this, h2]

theorem convertFloatSample_of_le (F : FloatFormat) (hF : IsRounding 24 (-126) F.rnd)
    (hmax : 32767 ≤ F.maxFinite) (x : FVal) (h : FVal.le x (.fin (-1)) = true) :
    convertFloatSample F x = some (-32767) := by
  unfold convertFloatSample
  dsimp only
  rw [clamp_unit_of_le x h]
  have := ofExact_int F hF hmax (-32767) (by norm_num) (by norm_num)
  have h2 := floatToInt16_int (-32767) (by norm_num) (by norm_num)
  simp only [FloatFormat.mul, neg_mul, one_mul]
  push_cast at this h2
  rw [this, h2]

theorem binary32_maxFinite : (32767 : ℚ) ≤ binary32.maxFinite := by
  unfold binary32
  norm_num

theorem decodeFloat32_one : decodeFloat32 0x3F800000 = .fin 1 := by
  unfold decodeFloat32
  norm_num

theorem decodeFloat32_neg_one : decodeFloat32 0xBF800000 = .fin (-1) := by
  unfold decodeFloat32
  norm_num

/-- C6, as the code has it. For IEEE float32 input, a sample of 1.0, and any
sample above 1.0 (plus infinity included), converts to 32767; a sample of
-1.0, and any sample below -1.0 (minus infinity included), converts to
-32767, the product `-1.0f * 32767.0f` truncated. -/
theorem C6_float_conversion (F : FloatFormat) (hF : IsRounding 24 (-126) F.rnd)
    (hmax : 32767 ≤ F.maxFinite) (x : FVal) :
    (FVal.le (.fin 1) x = true → convertFloatSample F x = some 32767) ∧
    (FVal.le x (.fin (-1)) = true → convertFloatSample F x = some (-32767)) :=
  ⟨convertFloatSample_of_ge F hF hmax x, convertFloatSample_of_le F hF hmax x⟩

/-- Witness of C6 in binary32, at the sample 1.5. -/
theorem C6_float_conversion_witness :
    IsRounding 24 (-126) binary32.rnd ∧ 32767 ≤ binary32.maxFinite ∧
    (FVal.le (.fin 1) (.fin (3 / 2)) = true →
      convertFloatSample binary32 (.fin (3 / 2)) = some 32767) ∧
    (FVal.le (.fin (3 / 2)) (.fin (-1)) = true →
      convertFloatSample binary32 (.fin (3 / 2)) = some (-32767)) :=
  ⟨binary32_isRounding, binary32_maxFinite,
    C6_float_conversion binary32 binary32_isRounding binary32_maxFinite (.fin (3 / 2))⟩

/-- Counterexample to C6 as stated: the float -1.0, stored as the bytes
`00 00 80 BF`, converts to -32767 and not to -32768. -/
theorem C6_counterexample :
    convertSamples binary32 false true 32 [0x00, 0x00, 0x80, 0xBF] 1 = some [some (-32767)] ∧
    convertFloatSample binary32 (.fin (-1)) ≠ some (-32768) := by
  have h := convertFloatSample_of_le binary32 binary32_isRounding binary32_maxFinite
    (.fin (-1)) (by simp [FVal.le])
  constructor
  · have hu : uint32At [0x00, 0x00, 0x80, 0xBF] 0 = 0xBF800000 := by decide
    simp only [convertSamples, convertFloat32, List.range_succ, List.range_zero,
      List.nil_append, List.map_cons, List.map_nil, hu, decodeFloat32_neg_one, h]
    simp
  · rw [h]; decide

/-! ### Downmixer -/

theorem truncQ_range (q : ℚ) (h1 : -32768 ≤ q) (h2 : q ≤ 32767) :
    -32768 ≤ truncQ q ∧ truncQ q ≤ 32767 := by
  unfold truncQ
  split_ifs with h0
  · constructor
    · have : (0 : ℤ) ≤ ⌊q⌋ := Int.floor_nonneg.mpr h0
      omega
    · have : ⌊q⌋ ≤ ⌊(32767 : ℚ)⌋ := Int.floor_mono h2
      have e : ⌊(32767 : ℚ)⌋ = 32767 := by
        have := Int.floor_intCast (α := ℚ) 32767
        exact_mod_cast this
      omega
  · push_neg at h0
    constructor
    · have : ⌈(-32768 : ℚ)⌉ ≤ ⌈q⌉ := Int.ceil_mono h1
      have e : ⌈(-32768 : ℚ)⌉ = -32768 := by
        have := Int.ceil_intCast (α := ℚ) (-32768)
        simpa using this
      omega
    · have : ⌈q⌉ ≤ 0 := Int.ceil_le.mpr (by simpa using h0.le)
      omega

theorem clampInt16_cases (y : FVal) :
    ∃ q : ℚ, clampInt16 y = .fin q ∧ -32768 ≤ q ∧ q ≤ 32767 := by
  cases y with
  | fin q =>
    by_cases h1 : q < 32767
    · by_cases h2 : (-32768 : ℚ) < q
      · exact ⟨q, by simp [clampInt16, stdMax, stdMin, FVal.lt, h1, h2], h2.le, h1.le⟩
      · exact ⟨-32768, by simp [clampInt16, stdMax, stdMin, FVal.lt, h1, h2], le_refl _,
          by norm_num⟩
    · exact ⟨32767, by norm_num [clampInt16, stdMax, stdMin, FVal.lt, h1], by norm_num,
        le_refl _⟩
  | pinf =>
    exact ⟨32767, by norm_num [clampInt16, stdMax, stdMin, FVal.lt], by norm_num, le_refl _⟩
  | ninf =>
    exact ⟨-32768, by norm_num [clampInt16, stdMax, stdMin, FVal.lt], le_refl _, by norm_num⟩
  | nan =>
    exact ⟨32767, by norm_num [clampInt16, stdMax, stdMin, FVal.lt], by norm_num, le_refl _⟩

theorem floatToInt16_clampInt16 (y : FVal) :
    ∃ v : Int, floatToInt16 (clampInt16 y) = some v ∧ -32768 ≤ v ∧ v ≤ 32767 := by
  obtain ⟨q, hq, h1, h2⟩ := clampInt16_cases y
  have hr := truncQ_range q h1 h2
  refine ⟨truncQ q, ?_, hr.1, hr.2⟩
  rw [hq]
  simp only [floatToInt16]
  rw [if_pos hr]

theorem stereo_average_exact (F : FloatFormat) (hF : IsRounding 24 (-126) F.rnd)
    (l r : Int) (hl : -32768 ≤ l ∧ l ≤ 32767) (hr : -32768 ≤ r ∧ r ≤ 32767) :
    F.rnd (F.rnd ((l : ℚ) + (r : ℚ)) / 2) = ((l : ℚ) + (r : ℚ)) / 2 := by
  have hm : |l + r| < 2 ^ 24 := by rw [abs_lt]; constructor <;> omega
  have h1 : F.rnd ((l : ℚ) + (r : ℚ)) = (l : ℚ) + (r : ℚ) := by
    have := hF.fix_int (l + r) hm (by norm_num)
    push_cast at this
    exact this
  rw [h1]
  have h2 := hF.fix (l + r) (-1) hm (by norm_num)
  have e : (((l + r : ℤ) : ℚ)) * (2 : ℚ) ^ (-1 : ℤ) = ((l : ℚ) + (r : ℚ)) / 2 := by
    push_cast
    rw [zpow_neg_one]
    ring
  rw [e] at h2
  exact h2

theorem stereo_frame (F : FloatFormat) (input : List Int) (frame_count : Nat) (g : FVal)
    (i : Nat) (hi : i < frame_count) (l r : Int) (hl : input[i * 2]? = some l)
    (hr : input[i * 2 + 1]? = some r) :
    (ApplyGainBoostAndConvertToMono F input frame_count 2 g)[i]? =
      some (floatToInt16 (clampInt16
        (F.mul (.fin (F.rnd (F.rnd ((l : ℚ) + (r : ℚ)) / 2))) g))) := by
  unfold ApplyGainBoostAndConvertToMono
  simp only [show ¬ ((2 : Int) = 1) by decide, if_false]
  rw [List.getElem?_map, List.getElem?_range hi]
  simp only [Option.map_some', hl, hr, clampInt16]

/-- C7. For 2-channel input, every gain `g` (an infinity and NaN included) and
every frame index `i < frame_count`, `ApplyGainBoostAndConvertToMono` writes
`output[i] = clamp (((L + R) / 2) * g)` with `L = input[2 i]`,
`R = input[2 i + 1]`, the sum and the halving being exact in `float` and the
product being the `float` product; the clamp limits the value to
`[-32768, 32767]` before it is truncated toward zero, so the conversion to
`int16_t` is defined and the output is a valid int16 whatever the gain. -/
theorem C7_stereo_downmix (F : FloatFormat) (hF : IsRounding 24 (-126) F.rnd)
    (input : List Int) (hin : ∀ s ∈ input, -32768 ≤ s ∧ s ≤ 32767) (frame_count : Nat)
    (hlen : frame_count * 2 ≤ input.length) (g : FVal) (i : Nat) (hi : i < frame_count) :
    ∃ L R v : Int, input[i * 2]? = some L ∧ input[i * 2 + 1]? = some R ∧
      (ApplyGainBoostAndConvertToMono F input frame_count 2 g)[i]? = some (some v) ∧
      floatToInt16 (clampInt16 (F.mul (.fin (((L : ℚ) + (R : ℚ)) / 2)) g)) = some v ∧
      -32768 ≤ v ∧ v ≤ 32767 := by
  have h0 : i * 2 < input.length := by omega
  have h1 : i * 2 + 1 < input.length := by omega
  have hl : input[i * 2]? = some input[i * 2] := List.getElem?_eq_getElem h0
  have hr : input[i * 2 + 1]? = some input[i * 2 + 1] := List.getElem?_eq_getElem h1
  obtain ⟨v, hv, hv1, hv2⟩ := floatToInt16_clampInt16
    (F.mul (.fin (((input[i * 2] : ℚ) + (input[i * 2 + 1] : ℚ)) / 2)) g)
  refine ⟨input[i * 2], input[i * 2 + 1], v, hl, hr, ?_, hv, hv1, hv2⟩
  rw [stereo_frame F input frame_count g i hi _ _ hl hr,
    stereo_average_exact F hF _ _ (hin _ (List.getElem_mem h0)) (hin _ (List.getElem_mem h1)),
    hv]

/-- Witness of C7 in binary32: one stereo frame `[100, 200]` and the gain 2.5. -/
theorem C7_stereo_downmix_witness :
    IsRounding 24 (-126) binary32.rnd ∧
    (∀ s ∈ ([100, 200] : List Int), -32768 ≤ s ∧ s ≤ 32767) ∧
    ∃ L R v : Int, ([100, 200] : List Int)[0 * 2]? = some L ∧
      ([100, 200] : List Int)[0 * 2 + 1]? = some R ∧
      (ApplyGainBoostAndConvertToMono binary32 [100, 200] 1 2 (.fin (5 / 2)))[0]? =
        some (some v) ∧
      floatToInt16 (clampInt16 (binary32.mul (.fin (((L : ℚ) + (R : ℚ)) / 2))
        (.fin (5 / 2)))) = some v ∧
      -32768 ≤ v ∧ v ≤ 32767 :=
  ⟨binary32_isRounding, by decide,
    C7_stereo_downmix binary32 binary32_isRounding [100, 200] (by decide) 1 (by decide)
      (.fin (5 / 2)) 0 (by decide)⟩

/-! ### Resampler -/

theorem ResampleAudio_equal_rates (rnd : ℚ → ℚ) (input output : List Int)
    (output_frames : Nat) (rate : Int) (hn : 1 ≤ input.length) (hm : 1 ≤ output_frames) :
    ResampleAudio rnd input output output_frames rate rate =
      List.ofFn (fun i : Fin output.length =>
        if i.val < min input.length output_frames then input.getD i.val 0
        else output.get i) := by
  unfold ResampleAudio
  dsimp only
  rw [if_neg (by omega), if_pos rfl]

/-- C8, as the code has it. For equal input and output rates, every input `x`
of `n ≥ 1` frames and every requested output length `m ≥ 1` that the output
buffer can hold, `ResampleAudio` copies the first `min n m` samples of `x`
to the front of the output buffer, in order, and writes nothing else: every
position from `min n m` on, in particular the positions `n ≤ i < m` when
`m > n`, keeps the contents the buffer had on entry. -/
theorem C8_resample_equal_rates (rnd : ℚ → ℚ) (input output : List Int)
    (output_frames : Nat) (rate : Int) (hn : 1 ≤ input.length) (hm : 1 ≤ output_frames)
    (hbuf : output_frames ≤ output.length) :
    (ResampleAudio rnd input output output_frames rate rate).length = output.length ∧
    (∀ i, i < min input.length output_frames →
      (ResampleAudio rnd input output output_frames rate rate)[i]? = input[i]?) ∧
    (∀ i, min input.length output_frames ≤ i →
      (ResampleAudio rnd input output output_frames rate rate)[i]? = output[i]?) := by
  rw [ResampleAudio_equal_rates rnd input output output_frames rate hn hm]
  refine ⟨by simp, ?_, ?_⟩
  · intro i hi
    have hi2 : i < output.length := by omega
    have hi3 : i < input.length := by omega
    rw [List.getElem?_eq_getElem (by simpa using hi2), List.getElem_ofFn]
    simp only [hi, if_true]
    rw [List.getD_eq_getElem _ _ hi3, List.getElem?_eq_getElem hi3]
  · intro i hi
    by_cases hi2 : i < output.length
    · rw [List.getElem?_eq_getElem (by simpa using hi2), List.getElem_ofFn]
      simp only [show ¬ (i < min input.length output_frames) by omega, if_false]
      rw [List.getElem?_eq_getElem hi2]
      rfl
    · rw [List.getElem?_eq_none (by simpa using hi2), List.getElem?_eq_none (by omega)]


/-- Witness of C8: one input frame, two requested, the second keeps the old 9. -/
theorem C8_resample_equal_rates_witness :
    (1 ≤ ([5] : List Int).length ∧ 1 ≤ 2 ∧ 2 ≤ ([7, 9] : List Int).length) ∧
    (ResampleAudio binary64.rnd [5] [7, 9] 2 48000 48000).length = ([7, 9] : List Int).length ∧
    (∀ i, i < min ([5] : List Int).length 2 →
      (ResampleAudio binary64.rnd [5] [7, 9] 2 48000 48000)[i]? = ([5] : List Int)[i]?) ∧
    (∀ i, min ([5] : List Int).length 2 ≤ i →
      (ResampleAudio binary64.rnd [5] [7, 9] 2 48000 48000)[i]? = ([7, 9] : List Int)[i]?) :=
  ⟨by decide,
    C8_resample_equal_rates binary64.rnd [5] [7, 9] 2 48000 (by decide) (by decide)
      (by decide)⟩

/-- Counterexample to C8 as stated: with one input frame and two requested
(`m > n`), position 1 of the result is the value the output buffer held
before the call, 9 in one run and 3 in the other; no padding is written. -/
theorem C8_counterexample :
    ResampleAudio binary64.rnd [5] [7, 9] 2 48000 48000 = [5, 9] ∧
    ResampleAudio binary64.rnd [5] [7, 3] 2 48000 48000 = [5, 3] ∧
    (ResampleAudio binary64.rnd [5] [7, 9] 2 48000 48000)[1]? ≠
      (ResampleAudio binary64.rnd [5] [7, 3] 2 48000 48000)[1]? := by
  have h1 : ResampleAudio binary64.rnd [5] [7, 9] 2 48000 48000 = [5, 9] := by
    rw [ResampleAudio_equal_rates _ _ _ _ _ (by decide) (by decide)]
    rfl
  have h2 : ResampleAudio binary64.rnd [5] [7, 3] 2 48000 48000 = [5, 3] := by
    rw [ResampleAudio_equal_rates _ _ _ _ _ (by decide) (by decide)]
    rfl
  refine ⟨h1, h2, ?_⟩
  rw [h1, h2]
  decide

/-! ### Decibel estimator -/

theorem stdMax_stdMin_range (d : FVal) :
    ∃ q : ℚ, stdMax (.fin (-120)) (stdMin (.fin 0) d) = .fin q ∧ -120 ≤ q ∧ q ≤ 0 := by
  cases d with
  | fin q =>
    by_cases h1 : q < 0
    · by_cases h2 : (-120 : ℚ) < q
      · exact ⟨q, by simp [stdMax, stdMin, FVal.lt, h1, h2], h2.le, h1.le⟩
      · exact ⟨-120, by simp [stdMax, stdMin, FVal.lt, h1, h2], le_refl _, by norm_num⟩
    · exact ⟨0, by simp [stdMax, stdMin, FVal.lt, h1], by norm_num, le_refl _⟩
  | pinf => exact ⟨0, by simp [stdMax, stdMin, FVal.lt], by norm_num, le_refl _⟩
  | ninf => exact ⟨-120, by simp [stdMax, stdMin, FVal.lt], le_refl _, by norm_num⟩
  | nan => exact ⟨0, by simp [stdMax, stdMin, FVal.lt], by norm_num, le_refl _⟩

theorem sumOfSquares_zero (rnd : ℚ → ℚ) (h0 : rnd 0 = 0) (samples : List Int)
    (hz : ∀ s ∈ samples, s = 0) : sumOfSquares rnd samples = 0 := by
  unfold sumOfSquares
  induction samples with
  | nil => rfl
  | cons s rest ih =>
    have hs : s = 0 := hz s (List.mem_cons_self _ _)
    have hstep : rnd ((0 : ℚ) + rnd (((s : ℤ) : ℚ) * ((s : ℤ) : ℚ))) = 0 := by
      rw [hs]; simp [h0]
    rw [List.foldl_cons, hstep]
    exact ih (fun t ht => hz t (List.mem_cons_of_mem _ ht))

/-- C1. For every buffer of int16 samples, the empty one included, and whatever
the rounding and the `log10` of the platform return (an infinity or NaN
included), `CalculateDecibel` returns a finite value `d` with
`-120 ≤ d ≤ 0`; and it returns exactly `-120` when the buffer is empty or
every sample is zero. The second part uses that zero is a `double`
(`rnd 0 = 0`) and that `sqrt (0.0)` is `0.0`. -/
theorem C1_CalculateDecibel_range (rnd : ℚ → ℚ) (sqrt : ℚ → ℚ) (log10 : ℚ → FVal)
    (h0 : rnd 0 = 0) (hsqrt : sqrt 0 = 0) (samples : List Int) :
    (∃ d : ℚ, CalculateDecibel rnd sqrt log10 samples = .fin d ∧ -120 ≤ d ∧ d ≤ 0) ∧
    ((∀ s ∈ samples, s = 0) → CalculateDecibel rnd sqrt log10 samples = .fin (-120)) := by
  constructor
  · unfold CalculateDecibel
    by_cases hlen : samples.length = 0
    · exact ⟨-120, by simp [hlen], le_refl _, by norm_num⟩
    · rw [if_neg hlen]
      dsimp only
      split
      · exact ⟨-120, rfl, le_refl _, by norm_num⟩
      · exact stdMax_stdMin_range _
  · intro hz
    unfold CalculateDecibel
    by_cases hlen : samples.length = 0
    · simp [hlen]
    · simp [hlen, sumOfSquares_zero rnd h0 samples hz, h0, hsqrt]

/-- Witness of C1 at the buffer `[0, 0, 0]` with the binary64 rounding. -/
theorem C1_CalculateDecibel_range_witness :
    (∃ d : ℚ, CalculateDecibel (roundNE 53 (-1022)) sqrtQ log10Q [0, 0, 0] = .fin d ∧
      -120 ≤ d ∧ d ≤ 0) ∧
    ((∀ s ∈ ([0, 0, 0] : List Int), s = 0) →
      CalculateDecibel (roundNE 53 (-1022)) sqrtQ log10Q [0, 0, 0] = .fin (-120)) :=
  C1_CalculateDecibel_range (roundNE 53 (-1022)) sqrtQ log10Q (by simp [roundNE])
    (by simp [sqrtQ]) [0, 0, 0]

/-! ### Delivery queue -/

theorem QueueAudioData_eq (K : Nat) (q : List AudioDataPacket) (a : PushArgs) :
    QueueAudioData K q a.data a.decibel a.now =
      (if q.length ≥ K then q.tail else q) ++ [a.packet] := rfl

theorem pushAll_append (K : Nat) (q : List AudioDataPacket) (ps : List PushArgs)
    (a : PushArgs) :
    pushAll K q (ps ++ [a]) = QueueAudioData K (pushAll K q ps) a.data a.decibel a.now := by
  simp [pushAll, List.foldl_append]

theorem pushAll_eq_drop (K : Nat) (hK : 1 ≤ K) (ps : List PushArgs) :
    pushAll K [] ps = (ps.map PushArgs.packet).drop (ps.length - K) := by
  induction ps using List.reverseRecOn with
  | nil => simp [pushAll]
  | append_singleton ps a ih =>
    rw [pushAll_append, QueueAudioData_eq, ih]
    by_cases hlen : ps.length < K
    · have h1 : ps.length - K = 0 := by omega
      have h2 : (ps ++ [a]).length - K = 0 := by simp; omega
      rw [h1, h2]
      simp only [List.drop_zero, List.length_map, List.map_append, List.map_cons,
        List.map_nil]
      rw [if_neg (by omega)]
    · have hge : K ≤ ps.length := by omega
      have hl : ((ps.map PushArgs.packet).drop (ps.length - K)).length = K := by
        simp; omega
      rw [if_pos (by omega : ((ps.map PushArgs.packet).drop (ps.length - K)).length ≥ K)]
      have h2 : (ps ++ [a]).length - K = (ps.length - K) + 1 := by simp; omega
      rw [h2, List.map_append, List.tail_drop]
      rw [List.drop_append_of_le_length (by simp; omega)]
      simp

theorem ProcessQueue_spec (q : List AudioDataPacket) (sinks : Sinks) :
    ProcessQueue q sinks =
      ([], { event_sink_ := sinks.event_sink_.map (fun l => l ++ q.map AudioDataPacket.data),
             decibel_event_sink_ :=
               sinks.decibel_event_sink_.map (fun l => l ++ q.map AudioDataPacket.decibel) }) := by
  induction q generalizing sinks with
  | nil =>
    cases sinks with
    | mk e d => cases e <;> cases d <;> simp [ProcessQueue]
  | cons p rest ih =>
    rw [ProcessQueue, ih]
    cases sinks with
    | mk e d => cases e <;> cases d <;> simp

/-- C2. For every capacity `K ≥ 1` and every sequence of `n` packets pushed
with `QueueAudioData` onto an empty queue, the queue holds exactly the last
`min n K` pushed packets in push order, hence never more than `K` (and the
same at every earlier point of the sequence); `ProcessQueue` then leaves the
queue empty, and to each sink that is attached it hands exactly those
packets (their bytes, respectively their loudness) in that order. -/
theorem C2_queue_bounded_fifo (K : Nat) (hK : 1 ≤ K) (pushes : List PushArgs)
    (sinks : Sinks) :
    (∀ m, (pushAll K [] (pushes.take m)).length ≤ K) ∧
    (pushAll K [] pushes).length = min pushes.length K ∧
    pushAll K [] pushes =
      (pushes.map PushArgs.packet).drop (pushes.length - min pushes.length K) ∧
    (ProcessQueue (pushAll K [] pushes) sinks).1 = [] ∧
    (ProcessQueue (pushAll K [] pushes) sinks).2.event_sink_ =
      sinks.event_sink_.map (fun l => l ++
        ((pushes.map PushArgs.packet).drop (pushes.length - min pushes.length K)).map
          AudioDataPacket.data) ∧
    (ProcessQueue (pushAll K [] pushes) sinks).2.decibel_event_sink_ =
      sinks.decibel_event_sink_.map (fun l => l ++
        ((pushes.map PushArgs.packet).drop (pushes.length - min pushes.length K)).map
          AudioDataPacket.decibel) := by
  have hmin : pushes.length - min pushes.length K = pushes.length - K := by
    rcases Nat.le_total pushes.length K with h | h
    · rw [Nat.min_eq_left h]; omega
    · rw [Nat.min_eq_right h]
  rw [hmin, ProcessQueue_spec, pushAll_eq_drop K hK pushes]
  refine ⟨?_, ?_, rfl, rfl, rfl, rfl⟩
  · intro m
    rw [pushAll_eq_drop K hK]
    simp only [List.length_drop, List.length_map]
    omega
  · simp only [List.length_drop, List.length_map]
    omega

/-- Witness of C2: capacity 2 and three pushes, with an audio listener attached. -/
theorem C2_queue_bounded_fifo_witness :
    (1 ≤ 2) ∧
    pushAll 2 [] [⟨[1], .fin (-10), 0⟩, ⟨[2], .fin (-20), 1⟩, ⟨[3], .fin (-30), 2⟩] =
      [⟨[2], .fin (-20), 1⟩, ⟨[3], .fin (-30), 2⟩] ∧
    (ProcessQueue
      (pushAll 2 [] [⟨[1], .fin (-10), 0⟩, ⟨[2], .fin (-20), 1⟩, ⟨[3], .fin (-30), 2⟩])
      ⟨some [], none⟩).2.event_sink_ = some [[2], [3]] := by
  have h := C2_queue_bounded_fifo 2 (by decide)
    [⟨[1], .fin (-10), 0⟩, ⟨[2], .fin (-20), 1⟩, ⟨[3], .fin (-30), 2⟩] ⟨some [], none⟩
  refine ⟨by decide, ?_, ?_⟩
  · rw [h.2.2.1]; rfl
  · rw [h.2.2.2.2.1]; rfl

/-! ### Output length of the resampling step -/

theorem IsRounding.fix_nat {p : ℕ} {emin : ℤ} {rnd : ℚ → ℚ} (h : IsRounding p emin rnd)
    (k : ℕ) (hk : k < 2 ^ p) (he : emin - ((p : ℤ) - 1) ≤ 0) : rnd (k : ℚ) = (k : ℚ) := by
  have hm : |(k : ℤ)| < 2 ^ p := by
    rw [abs_of_nonneg (Int.natCast_nonneg k)]
    exact_mod_cast hk
  have := h.fix_int (k : ℤ) hm he
  exact_mod_cast this

theorem log_window (b : ℕ) (hb : 0 < b) :
    b < 2 ^ (Nat.log 2 b + 1) ∧ 2 ^ (Nat.log 2 b + 1) ≤ 2 * b := by
  constructor
  · exact Nat.lt_pow_succ_log_self (by norm_num) b
  · have := Nat.pow_log_le_self 2 (Nat.pos_iff_ne_zero.mp hb)
    rw [pow_succ]
    omega

theorem rnd_div_window_aux {rnd : ℚ → ℚ} (hR : IsRounding 53 (-1022) rnd) (a b k : ℕ)
    (hb : 0 < b) (hsz : a + b ≤ 2 ^ 52) (hkb : k * b ≤ a) (hlt : a + 1 ≤ b * (k + 1)) :
    (k : ℚ) ≤ rnd ((a : ℚ) / (b : ℚ)) ∧ rnd ((a : ℚ) / (b : ℚ)) < (k : ℚ) + 1 := by
  have hbq : (0 : ℚ) < (b : ℚ) := by exact_mod_cast hb
  have h5253 : (2 : ℕ) ^ 52 < 2 ^ 53 := by norm_num
  have hka : k ≤ a := le_trans (Nat.le_mul_of_pos_right k hb) hkb
  have hk53 : k < 2 ^ 53 := by omega
  constructor
  · have h1 : (k : ℚ) ≤ (a : ℚ) / (b : ℚ) := by
      rw [le_div_iff₀ hbq]
      exact_mod_cast hkb
    have h2 := hR.mono _ _ h1
    rwa [hR.fix_nat k hk53 (by norm_num)] at h2
  · obtain ⟨hj1, hj2⟩ := log_window b hb
    obtain ⟨j, hj⟩ : ∃ j : ℕ, j = Nat.log 2 b + 1 := ⟨_, rfl⟩
    rw [← hj] at hj1 hj2
    have hjle : j ≤ 53 := by
      have hb53 : b < 2 ^ 53 := by omega
      have := Nat.log_lt_of_lt_pow (Nat.pos_iff_ne_zero.mp hb) hb53
      omega
    have hpj : (0 : ℚ) < (2 : ℚ) ^ j := pow_pos (by norm_num) j
    have hbj : (b : ℚ) ≤ (2 : ℚ) ^ j := by exact_mod_cast hj1.le
    have hltq : (a : ℚ) + 1 ≤ (b : ℚ) * ((k : ℚ) + 1) := by exact_mod_cast hlt
    have hq : (a : ℚ) / (b : ℚ) ≤ (k : ℚ) + 1 - 1 / (b : ℚ) := by
      rw [div_le_iff₀ hbq]
      have : ((k : ℚ) + 1 - 1 / (b : ℚ)) * (b : ℚ) = (b : ℚ) * ((k : ℚ) + 1) - 1 := by
        field_simp
        ring
      rw [this]
      linarith
    have hone : (1 : ℚ) ≤ (2 : ℚ) ^ j / (b : ℚ) := by
      rw [le_div_iff₀ hbq]
      linarith
    have hqj : (a : ℚ) / (b : ℚ) * (2 : ℚ) ^ j ≤ ((k : ℚ) + 1) * (2 : ℚ) ^ j - 1 := by
      have h1 : (a : ℚ) / (b : ℚ) * (2 : ℚ) ^ j ≤
          ((k : ℚ) + 1 - 1 / (b : ℚ)) * (2 : ℚ) ^ j :=
        mul_le_mul_of_nonneg_right hq hpj.le
      have h2 : ((k : ℚ) + 1 - 1 / (b : ℚ)) * (2 : ℚ) ^ j =
          ((k : ℚ) + 1) * (2 : ℚ) ^ j - (2 : ℚ) ^ j / (b : ℚ) := by ring
      linarith
    obtain ⟨m, hm⟩ : ∃ m : ℤ, m = ⌈(a : ℚ) / (b : ℚ) * (2 : ℚ) ^ j⌉ := ⟨_, rfl⟩
    have hm_le : m ≤ ((k : ℤ) + 1) * 2 ^ j - 1 := by
      rw [hm, Int.ceil_le]
      push_cast
      exact hqj
    have hm_ge : 0 ≤ m := by
      rw [hm]
      exact Int.ceil_nonneg (by positivity)
    have hm53 : |m| < 2 ^ 53 := by
      rw [abs_of_nonneg hm_ge]
      have h1 : (k + 1) * 2 ^ j ≤ (k + 1) * (2 * b) := Nat.mul_le_mul_left _ hj2
      have h2 : (k + 1) * (2 * b) = 2 * (k * b + b) := by ring
      have h3 : (k + 1) * 2 ^ j ≤ 2 ^ 53 := by
        have h53 : (2 : ℕ) ^ 53 = 2 * 2 ^ 52 := by norm_num
        omega
      have h4 : ((k : ℤ) + 1) * 2 ^ j ≤ 2 ^ 53 := by exact_mod_cast h3
      omega
    have hfix := hR.fix m (-(j : ℤ)) hm53 (by push_cast; omega)
    have hzp : (2 : ℚ) ^ (-(j : ℤ)) = ((2 : ℚ) ^ j)⁻¹ := by
      rw [zpow_neg, zpow_natCast]
    have hq_le_d : (a : ℚ) / (b : ℚ) ≤ (m : ℚ) * (2 : ℚ) ^ (-(j : ℤ)) := by
      rw [hzp, ← div_eq_mul_inv, le_div_iff₀ hpj, hm]
      exact Int.le_ceil _
    have hd_lt : (m : ℚ) * (2 : ℚ) ^ (-(j : ℤ)) < (k : ℚ) + 1 := by
      rw [hzp, ← div_eq_mul_inv, div_lt_iff₀ hpj]
      have : (m : ℚ) ≤ ((k : ℚ) + 1) * (2 : ℚ) ^ j - 1 := by
        exact_mod_cast hm_le
      linarith
    have hmono := hR.mono _ _ hq_le_d
    rw [hfix] at hmono
    linarith

theorem rnd_div_window {rnd : ℚ → ℚ} (hR : IsRounding 53 (-1022) rnd) (a b : ℕ)
    (hb : 0 < b) (hsz : a + b ≤ 2 ^ 52) :
    ((a / b : ℕ) : ℚ) ≤ rnd ((a : ℚ) / (b : ℚ)) ∧
    rnd ((a : ℚ) / (b : ℚ)) < ((a / b : ℕ) : ℚ) + 1 :=
  rnd_div_window_aux hR a b (a / b) hb hsz (Nat.div_mul_le_self a b)
    (Nat.lt_mul_div_succ a hb)

theorem truncQ_rnd_div {rnd : ℚ → ℚ} (hR : IsRounding 53 (-1022) rnd) (a b : ℕ)
    (hb : 0 < b) (hsz : a + b ≤ 2 ^ 52) :
    truncQ (rnd ((a : ℚ) / (b : ℚ))) = ((a / b : ℕ) : ℤ) := by
  obtain ⟨h1, h2⟩ := rnd_div_window hR a b hb hsz
  have h0 : (0 : ℚ) ≤ rnd ((a : ℚ) / (b : ℚ)) := le_trans (by positivity) h1
  unfold truncQ
  rw [if_pos h0, Int.floor_eq_iff]
  constructor
  · exact_mod_cast h1
  · exact_mod_cast h2

theorem outputFrames_eq {rnd : ℚ → ℚ} (hR : IsRounding 53 (-1022) rnd)
    (n inRate outRate cap : ℕ) (hin : 0 < inRate) (hout0 : 0 < outRate)
    (hout : outRate < 2 ^ 31) (hne : inRate ≠ outRate)
    (hsz : n * outRate + inRate ≤ 2 ^ 52) :
    outputFrames rnd n inRate (outRate : ℤ) cap = min (n * outRate / inRate) cap := by
  have h52 : (2 : ℕ) ^ 52 < 2 ^ 53 := by norm_num
  have hcond : (inRate : ℤ) ≠ (outRate : ℤ) % 4294967296 := by
    rw [Int.emod_eq_of_lt (Int.natCast_nonneg _) (by omega)]
    exact_mod_cast hne
  have hnle : n ≤ n * outRate := Nat.le_mul_of_pos_right n hout0
  have e1 : rnd (n : ℚ) = (n : ℚ) := hR.fix_nat n (by omega) (by norm_num)
  have e2 : rnd (((outRate : ℤ)) : ℚ) = (outRate : ℚ) := by
    have := hR.fix_nat outRate (by omega) (by norm_num)
    exact_mod_cast this
  have e3 : rnd ((n : ℚ) * (outRate : ℚ)) = ((n * outRate : ℕ) : ℚ) := by
    have := hR.fix_nat (n * outRate) (by omega) (by norm_num)
    push_cast at this ⊢
    exact this
  have e4 : rnd (inRate : ℚ) = (inRate : ℚ) := hR.fix_nat inRate (by omega) (by norm_num)
  unfold outputFrames
  rw [if_pos hcond]
  dsimp only
  rw [e1, e2, e3, e4, truncQ_rnd_div hR (n * outRate) inRate hin hsz, Int.toNat_natCast]

/-- C9. For differing rates (positive, the target rate an `int`, and sizes for
which the product `n * outputRate` is exact in `double`), the number of output
frames the capture loop produces from `n` input frames is
`min (floor (n * outputRate / inputRate), cap)`: it never exceeds `cap`, and
when it is not capped it differs from `n * outputRate / inputRate` by less
than one frame. -/
theorem C9_output_frames (rnd : ℚ → ℚ) (hR : IsRounding 53 (-1022) rnd)
    (n inRate outRate cap : ℕ) (hin : 0 < inRate) (hout0 : 0 < outRate)
    (hout : outRate < 2 ^ 31) (hne : inRate ≠ outRate)
    (hsz : n * outRate + inRate ≤ 2 ^ 52) :
    outputFrames rnd n inRate (outRate : ℤ) cap = min (n * outRate / inRate) cap ∧
    outputFrames rnd n inRate (outRate : ℤ) cap ≤ cap ∧
    (n * outRate / inRate ≤ cap →
      |((outputFrames rnd n inRate (outRate : ℤ) cap : ℕ) : ℚ) -
        ((n : ℚ) * (outRate : ℚ)) / (inRate : ℚ)| < 1) := by
  rw [outputFrames_eq hR n inRate outRate cap hin hout0 hout hne hsz]
  refine ⟨rfl, Nat.min_le_right _ _, ?_⟩
  intro hcap
  rw [Nat.min_eq_left hcap]
  have hbq : (0 : ℚ) < (inRate : ℚ) := by exact_mod_cast hin
  have h1 : ((n * outRate / inRate : ℕ) : ℚ) ≤ ((n * outRate : ℕ) : ℚ) / (inRate : ℚ) :=
    Nat.cast_div_le
  have h2 : n * outRate + 1 ≤ inRate * (n * outRate / inRate + 1) :=
    Nat.lt_mul_div_succ _ hin
  have h2q : ((n * outRate : ℕ) : ℚ) + 1 ≤
      (inRate : ℚ) * (((n * outRate / inRate : ℕ) : ℚ) + 1) := by exact_mod_cast h2
  have h3 : ((n * outRate : ℕ) : ℚ) / (inRate : ℚ) <
      ((n * outRate / inRate : ℕ) : ℚ) + 1 := by
    rw [div_lt_iff₀ hbq]
    linarith
  push_cast at h1 h3
  rw [abs_lt]
  constructor <;> linarith

/-- Witness of C9 in binary64: 1440 frames at 48000 Hz give 480 frames at
16000 Hz, and 330 frames at 11025 Hz give 478. -/
theorem C9_output_frames_witness :
    IsRounding 53 (-1022) binary64.rnd ∧
    outputFrames binary64.rnd 1440 48000 16000 480 = 480 ∧
    outputFrames binary64.rnd 330 11025 16000 480 = 478 := by
  have h1 := (C9_output_frames binary64.rnd binary64_isRounding 1440 48000 16000 480
    (by norm_num) (by norm_num) (by norm_num) (by norm_num) (by norm_num)).1
  have h2 := (C9_output_frames binary64.rnd binary64_isRounding 330 11025 16000 480
    (by norm_num) (by norm_num) (by norm_num) (by norm_num) (by norm_num)).1
  refine ⟨binary64_isRounding, ?_, ?_⟩
  · rw [show ((16000 : ℤ)) = ((16000 : ℕ) : ℤ) by norm_num, h1]
    norm_num
  · rw [show ((16000 : ℤ)) = ((16000 : ℕ) : ℤ) by norm_num, h2]
    norm_num

/-! ### Linear interpolation -/

theorem IsRounding.zero {p : ℕ} {emin : ℤ} {rnd : ℚ → ℚ} (h : IsRounding p emin rnd)
    (he : emin - ((p : ℤ) - 1) ≤ 0) : rnd 0 = 0 := by
  have := h.fix_nat 0 (by positivity) he
  simpa using this

theorem IsRounding.between {p : ℕ} {emin : ℤ} {rnd : ℚ → ℚ} (h : IsRounding p emin rnd)
    (he : emin - ((p : ℤ) - 1) ≤ 0) (lo hi : ℤ) (hlo : |lo| < 2 ^ p) (hhi : |hi| < 2 ^ p)
    (x : ℚ) (h1 : (lo : ℚ) ≤ x) (h2 : x ≤ (hi : ℚ)) :
    (lo : ℚ) ≤ rnd x ∧ rnd x ≤ (hi : ℚ) := by
  have a := h.mono _ _ h1
  have b := h.mono _ _ h2
  rw [h.fix_int lo hlo he] at a
  rw [h.fix_int hi hhi he] at b
  exact ⟨a, b⟩

theorem interpolated_range {rnd : ℚ → ℚ} (hR : IsRounding 53 (-1022) rnd) (s0 s1 : ℤ)
    (h0 : -32768 ≤ s0 ∧ s0 ≤ 32767) (h1 : -32768 ≤ s1 ∧ s1 ≤ 32767) (fr : ℚ)
    (hf0 : 0 ≤ fr) (hf1 : fr ≤ 1) :
    (-32768 : ℚ) ≤ rnd ((s0 : ℚ) + rnd (rnd ((s1 : ℚ) - (s0 : ℚ)) * fr)) ∧
    rnd ((s0 : ℚ) + rnd (rnd ((s1 : ℚ) - (s0 : ℚ)) * fr)) ≤ 32767 := by
  have he : (-1022 : ℤ) - (((53 : ℕ) : ℤ) - 1) ≤ 0 := by norm_num
  have hd : rnd ((s1 : ℚ) - (s0 : ℚ)) = ((s1 - s0 : ℤ) : ℚ) := by
    have := hR.fix_int (s1 - s0) (by rw [abs_lt]; constructor <;> omega) he
    push_cast at this ⊢
    exact this
  rw [hd]
  have hq0l : (-32768 : ℚ) ≤ (s0 : ℚ) := by exact_mod_cast h0.1
  have hq0u : (s0 : ℚ) ≤ 32767 := by exact_mod_cast h0.2
  have hq1l : (-32768 : ℚ) ≤ (s1 : ℚ) := by exact_mod_cast h1.1
  have hq1u : (s1 : ℚ) ≤ 32767 := by exact_mod_cast h1.2
  rcases le_total s0 s1 with hle | hle
  · have hdq : (0 : ℚ) ≤ ((s1 - s0 : ℤ) : ℚ) := by exact_mod_cast (by omega : (0 : ℤ) ≤ s1 - s0)
    have hb := hR.between he 0 (s1 - s0) (by norm_num)
      (by rw [abs_lt]; constructor <;> omega) (((s1 - s0 : ℤ) : ℚ) * fr)
      (by push_cast; exact mul_nonneg (by exact_mod_cast hdq) hf0)
      (by nlinarith)
    have hb2 := hR.between he (-32768) 32767 (by norm_num) (by norm_num)
      ((s0 : ℚ) + rnd (((s1 - s0 : ℤ) : ℚ) * fr))
      (by push_cast at hb ⊢; linarith [hb.1]) (by push_cast at hb ⊢; linarith [hb.2])
    push_cast at hb2 ⊢
    exact hb2
  · have hdq : ((s1 - s0 : ℤ) : ℚ) ≤ 0 := by exact_mod_cast (by omega : s1 - s0 ≤ (0 : ℤ))
    have hb := hR.between he (s1 - s0) 0 (by rw [abs_lt]; constructor <;> omega)
      (by norm_num) (((s1 - s0 : ℤ) : ℚ) * fr)
      (by nlinarith)
      (by push_cast; exact mul_nonpos_of_nonpos_of_nonneg (by exact_mod_cast hdq) hf0)
    have hb2 := hR.between he (-32768) 32767 (by norm_num) (by norm_num)
      ((s0 : ℚ) + rnd (((s1 - s0 : ℤ) : ℚ) * fr))
      (by push_cast at hb ⊢; linarith [hb.1]) (by push_cast at hb ⊢; linarith [hb.2])
    push_cast at hb2 ⊢
    exact hb2

theorem srcPos_bounds {rnd : ℚ → ℚ} (hR : IsRounding 53 (-1022) rnd) (inRate outRate i : ℕ)
    (hout0 : 0 < outRate) (hB : i * inRate < 2 ^ 53) :
    0 ≤ srcPos rnd inRate outRate i ∧ srcPos rnd inRate outRate i ≤ ((i * inRate : ℕ) : ℚ) := by
  have he : (-1022 : ℤ) - (((53 : ℕ) : ℤ) - 1) ≤ 0 := by norm_num
  have hoq : (0 : ℚ) < (outRate : ℚ) := by exact_mod_cast hout0
  have hr1 : (outRate : ℚ) ≥ 1 := by exact_mod_cast hout0
  rcases Nat.eq_zero_or_pos i with hi0 | hipos
  · subst hi0
    unfold srcPos
    simp [hR.zero he]
  have hin53 : inRate < 2 ^ 53 := lt_of_le_of_lt (Nat.le_mul_of_pos_left inRate hipos) hB
  have hratio0 : 0 ≤ rnd ((inRate : ℚ) / (outRate : ℚ)) := by
    have := hR.mono 0 ((inRate : ℚ) / (outRate : ℚ)) (by positivity)
    rwa [hR.zero he] at this
  have hratio1 : rnd ((inRate : ℚ) / (outRate : ℚ)) ≤ (inRate : ℚ) := by
    have hle : (inRate : ℚ) / (outRate : ℚ) ≤ (inRate : ℚ) := by
      rw [div_le_iff₀ hoq]
      have : (0 : ℚ) ≤ (inRate : ℚ) := by positivity
      nlinarith
    have := hR.mono _ _ hle
    rwa [hR.fix_nat inRate hin53 he] at this
  unfold srcPos
  constructor
  · have := hR.mono 0 ((i : ℚ) * rnd ((inRate : ℚ) / (outRate : ℚ)))
      (mul_nonneg (by positivity) hratio0)
    rwa [hR.zero he] at this
  · have hle : (i : ℚ) * rnd ((inRate : ℚ) / (outRate : ℚ)) ≤ ((i * inRate : ℕ) : ℚ) := by
      push_cast
      exact mul_le_mul_of_nonneg_left hratio1 (by positivity)
    have := hR.mono _ _ hle
    rwa [hR.fix_nat (i * inRate) hB he] at this

theorem srcIndex_bounds {rnd : ℚ → ℚ} (hR : IsRounding 53 (-1022) rnd)
    (inRate outRate i : ℕ) (hout0 : 0 < outRate) (hB : i * inRate < 2 ^ 53) :
    (srcIndex rnd inRate outRate i : ℚ) ≤ srcPos rnd inRate outRate i ∧
    srcPos rnd inRate outRate i < (srcIndex rnd inRate outRate i : ℚ) + 1 ∧
    srcIndex rnd inRate outRate i < 2 ^ 53 := by
  obtain ⟨h0, h1⟩ := srcPos_bounds hR inRate outRate i hout0 hB
  have hfl : (0 : ℤ) ≤ ⌊srcPos rnd inRate outRate i⌋ := Int.floor_nonneg.mpr h0
  have hk : ((srcIndex rnd inRate outRate i : ℕ) : ℤ) = ⌊srcPos rnd inRate outRate i⌋ := by
    unfold srcIndex
    exact Int.toNat_of_nonneg hfl
  have hkq : (srcIndex rnd inRate outRate i : ℚ) = ((⌊srcPos rnd inRate outRate i⌋ : ℤ) : ℚ) := by
    exact_mod_cast congrArg (fun z : ℤ => (z : ℚ)) hk
  refine ⟨?_, ?_, ?_⟩
  · rw [hkq]; exact Int.floor_le _
  · rw [hkq]; exact Int.lt_floor_add_one _
  · have h2 : (srcIndex rnd inRate outRate i : ℚ) ≤ ((i * inRate : ℕ) : ℚ) := by
      rw [hkq]; exact le_trans (Int.floor_le _) h1
    have h3 : srcIndex rnd inRate outRate i ≤ i * inRate := by exact_mod_cast h2
    omega

theorem srcFraction_bounds {rnd : ℚ → ℚ} (hR : IsRounding 53 (-1022) rnd)
    (inRate outRate i : ℕ) (hout0 : 0 < outRate) (hB : i * inRate < 2 ^ 53) :
    0 ≤ srcFraction rnd inRate outRate i ∧ srcFraction rnd inRate outRate i ≤ 1 := by
  have he : (-1022 : ℤ) - (((53 : ℕ) : ℤ) - 1) ≤ 0 := by norm_num
  obtain ⟨h1, h2, _⟩ := srcIndex_bounds hR inRate outRate i hout0 hB
  have := hR.between he 0 1 (by norm_num) (by norm_num)
    (srcPos rnd inRate outRate i - (srcIndex rnd inRate outRate i : ℚ))
    (by push_cast; linarith) (by push_cast; linarith)
  unfold srcFraction
  push_cast at this
  exact this

theorem resampleSample_eq {rnd : ℚ → ℚ} (hR : IsRounding 53 (-1022) rnd) (input : List ℤ)
    (hin : ∀ s ∈ input, -32768 ≤ s ∧ s ≤ 32767) (inRate outRate i : ℕ)
    (hout0 : 0 < outRate) (hi : i < 2 ^ 53) (hB : i * inRate < 2 ^ 53) :
    resampleSample rnd input (rnd ((inRate : ℚ) / (outRate : ℚ))) i =
      interpolate rnd input (srcIndex rnd inRate outRate i) (srcFraction rnd inRate outRate i) ∧
    (srcIndex rnd inRate outRate i + 1 < input.length →
      -32768 ≤ interpolate rnd input (srcIndex rnd inRate outRate i)
        (srcFraction rnd inRate outRate i) ∧
      interpolate rnd input (srcIndex rnd inRate outRate i)
        (srcFraction rnd inRate outRate i) ≤ 32767) := by
  have he : (-1022 : ℤ) - (((53 : ℕ) : ℤ) - 1) ≤ 0 := by norm_num
  obtain ⟨hk1, hk2, hk53⟩ := srcIndex_bounds hR inRate outRate i hout0 hB
  obtain ⟨hf0, hf1⟩ := srcFraction_bounds hR inRate outRate i hout0 hB
  obtain ⟨hp0, _⟩ := srcPos_bounds hR inRate outRate i hout0 hB
  have hpos : rnd (rnd (i : ℚ) * rnd ((inRate : ℚ) / (outRate : ℚ))) =
      srcPos rnd inRate outRate i := by
    unfold srcPos
    rw [hR.fix_nat i hi he]
  have hidx : (truncQ (srcPos rnd inRate outRate i)).toNat = srcIndex rnd inRate outRate i := by
    unfold srcIndex truncQ
    rw [if_pos hp0]
  have hfr : rnd (srcPos rnd inRate outRate i - rnd (srcIndex rnd inRate outRate i : ℚ)) =
      srcFraction rnd inRate outRate i := by
    unfold srcFraction
    rw [hR.fix_nat _ hk53 he]
  have hrange : srcIndex rnd inRate outRate i + 1 < input.length →
      (-32768 : ℚ) ≤ rnd ((input.getD (srcIndex rnd inRate outRate i) 0 : ℚ) +
        rnd (rnd ((input.getD (srcIndex rnd inRate outRate i + 1) 0 : ℚ) -
          (input.getD (srcIndex rnd inRate outRate i) 0 : ℚ)) *
          srcFraction rnd inRate outRate i)) ∧
      rnd ((input.getD (srcIndex rnd inRate outRate i) 0 : ℚ) +
        rnd (rnd ((input.getD (srcIndex rnd inRate outRate i + 1) 0 : ℚ) -
          (input.getD (srcIndex rnd inRate outRate i) 0 : ℚ)) *
          srcFraction rnd inRate outRate i)) ≤ 32767 := by
    intro hlt
    have h0 : srcIndex rnd inRate outRate i < input.length := by omega
    apply interpolated_range hR _ _ _ _ _ hf0 hf1
    · rw [List.getD_eq_getElem _ _ h0]; exact hin _ (List.getElem_mem h0)
    · rw [List.getD_eq_getElem _ _ hlt]; exact hin _ (List.getElem_mem hlt)
  have hexact : srcIndex rnd inRate outRate i + 1 < input.length →
      rnd ((input.getD (srcIndex rnd inRate outRate i + 1) 0 : ℚ) -
          (input.getD (srcIndex rnd inRate outRate i) 0 : ℚ)) =
        (input.getD (srcIndex rnd inRate outRate i + 1) 0 : ℚ) -
          (input.getD (srcIndex rnd inRate outRate i) 0 : ℚ) := by
    intro hlt
    have h0 : srcIndex rnd inRate outRate i < input.length := by omega
    have r0 := hin _ (List.getElem_mem h0)
    have r1 := hin _ (List.getElem_mem hlt)
    rw [List.getD_eq_getElem _ _ h0, List.getD_eq_getElem _ _ hlt]
    have := hR.fix_int (input[srcIndex rnd inRate outRate i + 1] -
      input[srcIndex rnd inRate outRate i]) (by rw [abs_lt]; constructor <;> omega) he
    push_cast at this
    exact this
  constructor
  · unfold resampleSample interpolate
    dsimp only
    rw [hpos, hidx, hfr]
    by_cases hlt : srcIndex rnd inRate outRate i + 1 < input.length
    · rw [if_pos hlt, if_pos hlt]
      obtain ⟨ha, hb⟩ := hrange hlt
      rw [min_eq_right hb, max_eq_right ha, hexact hlt]
    · rw [if_neg hlt, if_neg hlt]
  · intro hlt
    obtain ⟨ha, hb⟩ := hrange hlt
    unfold interpolate
    rw [if_pos hlt, ← hexact hlt]
    exact truncQ_range _ ha hb

theorem ResampleAudio_differing (rnd : ℚ → ℚ) (input output : List ℤ) (output_frames : ℕ)
    (inRate outRate : ℕ) (hn : input ≠ []) (hne : inRate ≠ outRate) (i : ℕ)
    (hi : i < output_frames) (hbuf : output_frames ≤ output.length) :
    (ResampleAudio rnd input output output_frames (inRate : ℤ) (outRate : ℤ))[i]? =
      some (resampleSample rnd input (rnd ((inRate : ℚ) / (outRate : ℚ))) i) := by
  have hlen : input.length ≠ 0 := fun h => hn (List.length_eq_zero.mp h)
  have hrate : ¬ ((inRate : ℤ) = (outRate : ℤ)) := by exact_mod_cast hne
  have hio : i < output.length := by omega
  unfold ResampleAudio
  dsimp only
  rw [if_neg (by omega), if_neg hrate]
  rw [List.getElem?_eq_getElem (by simpa using hio), List.getElem_ofFn]
  simp only [hi, if_true, Int.cast_natCast]

theorem interpolate_zero {rnd : ℚ → ℚ} (hR : IsRounding 53 (-1022) rnd) (input : List ℤ)
    (hin : ∀ s ∈ input, -32768 ≤ s ∧ s ≤ 32767) (hn : input ≠ []) :
    some (interpolate rnd input 0 0) = input[0]? := by
  have he : (-1022 : ℤ) - (((53 : ℕ) : ℤ) - 1) ≤ 0 := by norm_num
  have hlen : 0 < input.length := List.length_pos.mpr hn
  have r0 := hin _ (List.getElem_mem hlen)
  rw [List.getElem?_eq_getElem hlen]
  unfold interpolate
  rw [List.getD_eq_getElem _ _ hlen]
  have hfix : rnd ((input[0] : ℤ) : ℚ) = ((input[0] : ℤ) : ℚ) :=
    hR.fix_int _ (by rw [abs_lt]; constructor <;> omega) he
  split_ifs with h1
  · rw [mul_zero, hR.zero he, add_zero, hfix, truncQ_intCast]
  · rfl

theorem srcIndex_zero {rnd : ℚ → ℚ} (hR : IsRounding 53 (-1022) rnd) (inRate outRate : ℕ) :
    srcIndex rnd inRate outRate 0 = 0 ∧ srcFraction rnd inRate outRate 0 = 0 := by
  have he : (-1022 : ℤ) - (((53 : ℕ) : ℤ) - 1) ≤ 0 := by norm_num
  have hp : srcPos rnd inRate outRate 0 = 0 := by
    unfold srcPos
    simp [hR.zero he]
  have hk : srcIndex rnd inRate outRate 0 = 0 := by
    unfold srcIndex
    rw [hp]
    simp
  refine ⟨hk, ?_⟩
  unfold srcFraction
  rw [hp, hk]
  simp [hR.zero he]

/-- C10. For differing positive rates, every non-empty input of `n` int16
frames and every output index `i < output_frames`, `ResampleAudio` computes
`p = i * (inputRate / outputRate)`, `k = floor (p)`, `f = p - k` (each
operation in `double`) and writes, as `interpolate` spells out,
`output[i] = input[k] + (input[k + 1] - input[k]) * f` truncated to int16 when
`k + 1 < n`, `input[k]` when `k = n - 1`, and the last input sample when
`k ≥ n`. The interpolated value is within `[-32768, 32767]`, so the clamp of
the source changes nothing; `k ≤ p < k + 1`, `0 ≤ f ≤ 1`, and
`output[0] = input[0]`. -/
theorem C10_resample_interpolation (rnd : ℚ → ℚ) (hR : IsRounding 53 (-1022) rnd)
    (input : List ℤ) (hin : ∀ s ∈ input, -32768 ≤ s ∧ s ≤ 32767) (hn : input ≠ [])
    (output : List ℤ) (output_frames : ℕ) (hbuf : output_frames ≤ output.length)
    (inRate outRate : ℕ) (hin0 : 0 < inRate) (hout0 : 0 < outRate) (hne : inRate ≠ outRate)
    (hsz : output_frames * inRate ≤ 2 ^ 53) (i : ℕ) (hi : i < output_frames) :
    (ResampleAudio rnd input output output_frames (inRate : ℤ) (outRate : ℤ))[i]? =
      some (interpolate rnd input (srcIndex rnd inRate outRate i)
        (srcFraction rnd inRate outRate i)) ∧
    (srcIndex rnd inRate outRate i + 1 < input.length →
      -32768 ≤ interpolate rnd input (srcIndex rnd inRate outRate i)
        (srcFraction rnd inRate outRate i) ∧
      interpolate rnd input (srcIndex rnd inRate outRate i)
        (srcFraction rnd inRate outRate i) ≤ 32767) ∧
    ((srcIndex rnd inRate outRate i : ℚ) ≤ srcPos rnd inRate outRate i ∧
      srcPos rnd inRate outRate i < (srcIndex rnd inRate outRate i : ℚ) + 1) ∧
    (0 ≤ srcFraction rnd inRate outRate i ∧ srcFraction rnd inRate outRate i ≤ 1) ∧
    (ResampleAudio rnd input output output_frames (inRate : ℤ) (outRate : ℤ))[0]? =
      input[0]? := by
  have hmul : i * inRate < output_frames * inRate := Nat.mul_lt_mul_of_pos_right hi hin0
  have hB : i * inRate < 2 ^ 53 := by omega
  have hi53 : i < 2 ^ 53 := lt_of_le_of_lt (Nat.le_mul_of_pos_right i hin0) hB
  obtain ⟨h1, h2⟩ := resampleSample_eq hR input hin inRate outRate i hout0 hi53 hB
  obtain ⟨a1, a2, _⟩ := srcIndex_bounds hR inRate outRate i hout0 hB
  refine ⟨?_, h2, ⟨a1, a2⟩, srcFraction_bounds hR inRate outRate i hout0 hB, ?_⟩
  · rw [ResampleAudio_differing rnd input output output_frames inRate outRate hn hne i hi hbuf,
      h1]
  · have h0 : 0 < output_frames := by omega
    obtain ⟨z1, _⟩ := resampleSample_eq hR input hin inRate outRate 0 hout0 (by positivity)
      (by rw [Nat.zero_mul]; positivity)
    obtain ⟨k0, f0⟩ := srcIndex_zero hR inRate outRate
    rw [ResampleAudio_differing rnd input output output_frames inRate outRate hn hne 0 h0 hbuf,
      z1, k0, f0]
    exact interpolate_zero hR input hin hn

/-- Witness of C10 in binary64: three frames at 48000 Hz resampled to 16000 Hz. -/
theorem C10_resample_interpolation_witness :
    (ResampleAudio binary64.rnd [10, 20, 30] [0] 1 ((48000 : ℕ) : ℤ) ((16000 : ℕ) : ℤ))[0]? =
      some 10 := by
  have h := (C10_resample_interpolation binary64.rnd binary64_isRounding [10, 20, 30]
    (by decide) (by decide) [0] 1 (by decide) 48000 16000 (by norm_num) (by norm_num)
    (by norm_num) (by norm_num) 0 (by norm_num)).2.2.2.2
  rw [h]
  rfl

/-! ### Processing of one chunk -/

theorem convertSamples_length (F : FloatFormat) (pcm flt : Bool) (bits : ℕ) (raw : List ℕ)
    (total : ℕ) (l : List (Option ℤ)) (h : convertSamples F pcm flt bits raw total = some l) :
    l.length = total := by
  unfold convertSamples at h
  split_ifs at h <;>
    (injection h with h; subst h
     simp [convertPcm16, convertPcm24, convertPcm32, convertFloat32])

theorem convertSamples_supported (env : CaptureEnv) (raw : List ℕ) (total : ℕ)
    (hs : formatSupported env = true) :
    ∃ l, convertSamples env.F32 env.is_pcm_format env.is_float_format
      env.actual_bits_per_sample raw total = some l := by
  unfold formatSupported at hs
  unfold convertSamples
  simp only [Bool.or_eq_true, Bool.and_eq_true, beq_iff_eq] at hs
  split_ifs with h1 h2 h3 h4
  · exact ⟨_, rfl⟩
  · exact ⟨_, rfl⟩
  · exact ⟨_, rfl⟩
  · exact ⟨_, rfl⟩
  · exfalso
    rcases hs with ((h | h) | h) | h
    · exact h1 h
    · exact h2 h
    · exact h3 h
    · exact h4 h

theorem convertSamples_unsupported (env : CaptureEnv) (raw : List ℕ) (total : ℕ)
    (hs : formatSupported env = false) :
    convertSamples env.F32 env.is_pcm_format env.is_float_format
      env.actual_bits_per_sample raw total = none := by
  unfold formatSupported at hs
  unfold convertSamples
  cases hp : env.is_pcm_format <;> cases hf : env.is_float_format <;>
    simp_all

theorem definedSamples_length (l : List (Option ℤ)) : (definedSamples l).length = l.length := by
  simp [definedSamples]

theorem applyInputVolume_length (F : FloatFormat) (v : FVal) (l : List ℤ) :
    (applyInputVolume F v l).length = l.length := by
  unfold applyInputVolume
  split_ifs <;> simp

theorem ApplyGainBoostAndConvertToMono_length (F : FloatFormat) (input : List ℤ) (n : ℕ)
    (c : ℤ) (g : FVal) : (ApplyGainBoostAndConvertToMono F input n c g).length = n := by
  unfold ApplyGainBoostAndConvertToMono
  dsimp only
  split_ifs <;> simp

theorem ResampleAudio_length (rnd : ℚ → ℚ) (input output : List ℤ) (m : ℕ) (a b : ℤ) :
    (ResampleAudio rnd input output m a b).length = output.length := by
  unfold ResampleAudio
  dsimp only
  split_ifs <;> simp

theorem samplesToBytes_length (l : List ℤ) : (samplesToBytes l).length = 2 * l.length := by
  unfold samplesToBytes
  induction l with
  | nil => rfl
  | cons a t ih =>
    rw [List.flatMap_cons, List.length_append, ih]
    simp only [List.length_cons, List.length_nil]
    omega

theorem outputFrames_le (rnd : ℚ → ℚ) (n a : ℕ) (s : ℤ) (cap : ℕ) :
    outputFrames rnd n a s cap ≤ cap := by
  unfold outputFrames
  split_ifs
  · exact Nat.min_le_right _ _
  · exact Nat.min_le_right _ _

theorem processChunk_packet (env : CaptureEnv) (raw : List ℕ) (out : List ℤ)
    (hs : formatSupported env = true) (hfs : 0 < env.frame_size)
    (hch : 0 < env.actual_channels)
    (hovf : chunkFrames env.actual_sample_rate * env.frame_size < 18446744073709551616)
    (hlen : out.length = outputFrameCount env.sample_rate_) :
    ∃ (new_out : List ℤ) (audio_data : List ℕ) (d : FVal),
      processChunk env raw out = some (new_out, audio_data, d) ∧
      new_out.length = out.length ∧
      audio_data.length = 2 * outputFrames env.rnd64 (chunkFrames env.actual_sample_rate)
        env.actual_sample_rate env.sample_rate_ (outputFrameCount env.sample_rate_) := by
  have hcsb : chunkSizeBytes env = chunkFrames env.actual_sample_rate * env.frame_size := by
    unfold chunkSizeBytes
    exact Nat.mod_eq_of_lt hovf
  have hifc : chunkSizeBytes env / env.frame_size = chunkFrames env.actual_sample_rate := by
    rw [hcsb]
    exact Nat.mul_div_cancel _ hfs
  obtain ⟨conv, hconv⟩ := convertSamples_supported env raw
    (chunkSizeBytes env / env.frame_size * env.actual_channels) hs
  have hcl := convertSamples_length _ _ _ _ _ _ _ hconv
  unfold processChunk
  dsimp only
  rw [hconv]
  dsimp only
  have hin : (definedSamples (applyInputVolume env.F32 env.input_volume_
      (definedSamples conv))).length / env.actual_channels =
      chunkFrames env.actual_sample_rate := by
    rw [definedSamples_length, applyInputVolume_length, definedSamples_length, hcl, hifc]
    exact Nat.mul_div_cancel _ hch
  rw [hin]
  have hle := outputFrames_le env.rnd64 (chunkFrames env.actual_sample_rate)
    env.actual_sample_rate env.sample_rate_ (outputFrameCount env.sample_rate_)
  refine ⟨_, _, _, rfl, ?_, ?_⟩
  · split_ifs with hc
    · exact ResampleAudio_length _ _ _ _ _ _
    · rw [List.length_append, List.length_take, List.length_drop, definedSamples_length,
        ApplyGainBoostAndConvertToMono_length]
      have : outputFrames env.rnd64 (chunkFrames env.actual_sample_rate)
          env.actual_sample_rate env.sample_rate_ (outputFrameCount env.sample_rate_) ≤
          chunkFrames env.actual_sample_rate := by
        unfold outputFrames
        rw [if_neg hc]
        exact Nat.min_le_left _ _
      omega
  · rw [samplesToBytes_length, List.length_take]
    congr 1
    apply Nat.min_eq_left
    split_ifs with hc
    · rw [ResampleAudio_length]; omega
    · rw [List.length_append, List.length_take, List.length_drop, definedSamples_length,
        ApplyGainBoostAndConvertToMono_length]
      have : outputFrames env.rnd64 (chunkFrames env.actual_sample_rate)
          env.actual_sample_rate env.sample_rate_ (outputFrameCount env.sample_rate_) ≤
          chunkFrames env.actual_sample_rate := by
        unfold outputFrames
        rw [if_neg hc]
        exact Nat.min_le_left _ _
      omega

theorem outputFrameCount_natCast (sr : ℕ) : outputFrameCount (sr : ℤ) = sr * 30 / 1000 := by
  unfold outputFrameCount
  have : ((sr : ℤ) * 30).tdiv 1000 = ((sr * 30 / 1000 : ℕ) : ℤ) := by
    rw [Int.tdiv_eq_ediv (by positivity) (by norm_num)]
    push_cast
    rfl
  rw [this, Int.toNat_natCast]

theorem chunkFrames_eq (native : ℕ) (h : native * 30 < 4294967296) :
    chunkFrames native = native * 30 / 1000 := by
  unfold chunkFrames
  rw [Nat.mod_eq_of_lt h]

theorem outputFrames_chunk {rnd : ℚ → ℚ} (hR : IsRounding 53 (-1022) rnd) (native sr : ℕ)
    (hnat0 : 0 < native) (hnat30 : native * 30 < 4294967296) (hsr0 : 0 < sr)
    (hsr30 : sr * 30 < 2147483648) :
    outputFrames rnd (chunkFrames native) native (sr : ℤ) (outputFrameCount (sr : ℤ)) =
      min (native * 30 / 1000 * sr / native) (sr * 30 / 1000) := by
  rw [chunkFrames_eq native hnat30, outputFrameCount_natCast]
  by_cases hne : native = sr
  · subst hne
    unfold outputFrames
    rw [if_neg (by
      rw [Int.emod_eq_of_lt (Int.natCast_nonneg _) (by omega)]
      exact not_not.mpr rfl)]
    rw [Nat.mul_div_cancel _ hnat0]
  · have hcf : native * 30 / 1000 ≤ 4294968 := by omega
    have hprod : native * 30 / 1000 * sr ≤ 4294968 * 71582789 :=
      Nat.mul_le_mul hcf (by omega)
    exact outputFrames_eq hR _ native sr _ hnat0 hsr0 (by omega) hne (by
      have : (4294968 : ℕ) * 71582789 + 143165577 ≤ 2 ^ 52 := by norm_num
      omega)

theorem exampleEnv_outputFrameCount (native : ℕ) :
    outputFrameCount (exampleEnv native).sample_rate_ = 480 := by
  have e : (exampleEnv native).sample_rate_ = ((16000 : ℕ) : ℤ) := rfl
  rw [e, outputFrameCount_natCast]

theorem exampleEnv_supported (native : ℕ) : formatSupported (exampleEnv native) = true := rfl

theorem replicate_length_480 : (List.replicate 480 (0 : ℤ)).length = 480 :=
  List.length_replicate _ _

/-- C11, as the code has it. With a supported format and sizes that do not
overflow, every packet the capture loop emits holds
`min (floor (chunk_frames * sampleRate / nativeRate), sampleRate * 30 / 1000)`
int16 samples, `chunk_frames = nativeRate * 30 / 1000` (integer divisions):
never more than the configured output chunk size `sampleRate * 30 / 1000`,
exactly that size when the native rate equals the target rate, and possibly
fewer otherwise. For native 48000 Hz and target 16000 Hz it is 480 samples. -/
theorem C11_packet_size (env : CaptureEnv) (raw : List ℕ) (out : List ℤ) (sr : ℕ)
    (hR : IsRounding 53 (-1022) env.rnd64) (hs : formatSupported env = true)
    (hfs : 0 < env.frame_size) (hch : 0 < env.actual_channels)
    (hovf : chunkFrames env.actual_sample_rate * env.frame_size < 18446744073709551616)
    (hsr : env.sample_rate_ = (sr : ℤ)) (h8000 : 8000 ≤ sr) (hsr30 : sr * 30 < 2147483648)
    (hnat0 : 0 < env.actual_sample_rate) (hnat30 : env.actual_sample_rate * 30 < 4294967296)
    (hlen : out.length = outputFrameCount env.sample_rate_) :
    ∃ (new_out : List ℤ) (audio_data : List ℕ) (d : FVal),
      processChunk env raw out = some (new_out, audio_data, d) ∧
      audio_data.length =
        2 * min (env.actual_sample_rate * 30 / 1000 * sr / env.actual_sample_rate)
          (sr * 30 / 1000) ∧
      min (env.actual_sample_rate * 30 / 1000 * sr / env.actual_sample_rate)
        (sr * 30 / 1000) ≤ sr * 30 / 1000 ∧
      (env.actual_sample_rate = sr → audio_data.length = 2 * (sr * 30 / 1000)) ∧
      (env.actual_sample_rate = 48000 → sr = 16000 → audio_data.length = 960) := by
  obtain ⟨new_out, audio, d, h1, _, h3⟩ := processChunk_packet env raw out hs hfs hch hovf hlen
  rw [hsr, outputFrames_chunk hR env.actual_sample_rate sr hnat0 hnat30 (by omega) hsr30] at h3
  refine ⟨new_out, audio, d, h1, h3, Nat.min_le_right _ _, ?_, ?_⟩
  · intro he
    rw [h3, he, Nat.mul_div_cancel _ (by omega : 0 < sr), Nat.min_self]
  · intro h48 h16
    rw [h3, h48, h16]
    norm_num

/-- Witness of C11: a mono PCM16 device at 48000 Hz, target 16000 Hz; the
packet has 960 bytes. -/
theorem C11_packet_size_witness :
    ∃ (new_out : List ℤ) (audio_data : List ℕ) (d : FVal),
      processChunk (exampleEnv 48000) (List.replicate 5760 0) (List.replicate 480 0) =
        some (new_out, audio_data, d) ∧ audio_data.length = 960 := by
  have hovf : chunkFrames (exampleEnv 48000).actual_sample_rate *
      (exampleEnv 48000).frame_size < 18446744073709551616 := by
    show chunkFrames 48000 * 2 < 18446744073709551616
    unfold chunkFrames
    norm_num
  obtain ⟨new_out, audio, d, h1, _, _, _, h5⟩ := C11_packet_size (exampleEnv 48000)
    (List.replicate 5760 0) (List.replicate 480 0) 16000 binary64_isRounding
    (exampleEnv_supported 48000) (by show 0 < 2; norm_num) (by show 0 < 1; norm_num) hovf
    rfl (by norm_num) (by norm_num) (by show 0 < 48000; norm_num)
    (by show 48000 * 30 < 4294967296; norm_num)
    (by rw [exampleEnv_outputFrameCount]; exact replicate_length_480)
  exact ⟨new_out, audio, d, h1, h5 rfl rfl⟩

/-- Counterexample to C11 as stated: for a mono PCM16 device at 22050 Hz and
the target rate 16000 Hz the chunk is 661 frames and the packet holds 479
samples (958 bytes), not the configured 480. -/
theorem C11_counterexample :
    outputFrameCount (exampleEnv 22050).sample_rate_ = 480 ∧
    ∃ (new_out : List ℤ) (audio_data : List ℕ) (d : FVal),
      processChunk (exampleEnv 22050) (List.replicate 2644 0) (List.replicate 480 0) =
        some (new_out, audio_data, d) ∧ audio_data.length = 958 := by
  refine ⟨exampleEnv_outputFrameCount 22050, ?_⟩
  have hovf : chunkFrames (exampleEnv 22050).actual_sample_rate *
      (exampleEnv 22050).frame_size < 18446744073709551616 := by
    show chunkFrames 22050 * 2 < 18446744073709551616
    unfold chunkFrames
    norm_num
  obtain ⟨new_out, audio, d, h1, _, h3⟩ := processChunk_packet (exampleEnv 22050)
    (List.replicate 2644 0) (List.replicate 480 0) (exampleEnv_supported 22050)
    (by show 0 < 2; norm_num) (by show 0 < 1; norm_num) hovf
    (by rw [exampleEnv_outputFrameCount]; exact replicate_length_480)
  have h4 := outputFrames_chunk binary64_isRounding 22050 16000 (by norm_num) (by norm_num)
    (by norm_num) (by norm_num)
  have e : (exampleEnv 22050).sample_rate_ = ((16000 : ℕ) : ℤ) := rfl
  have e2 : (exampleEnv 22050).actual_sample_rate = 22050 := rfl
  have e3 : (exampleEnv 22050).rnd64 = binary64.rnd := rfl
  rw [e, e2, e3, h4] at h3
  refine ⟨new_out, audio, d, h1, ?_⟩
  rw [h3]
  norm_num

/-! ### Carry-over loop -/

theorem processChunk_isSome (env : CaptureEnv) (raw : List ℕ) (out : List ℤ)
    (hs : formatSupported env = true) :
    ∃ (o : List ℤ) (a : List ℕ) (d : FVal), processChunk env raw out = some (o, a, d) := by
  obtain ⟨conv, hconv⟩ := convertSamples_supported env raw
    (chunkSizeBytes env / env.frame_size * env.actual_channels) hs
  unfold processChunk
  dsimp only
  rw [hconv]
  exact ⟨_, _, _, rfl⟩

theorem writeAt_length (buf : List ℕ) (pos : ℕ) (src : List ℕ)
    (h : pos + src.length ≤ buf.length) : (writeAt buf pos src).length = buf.length := by
  unfold writeAt
  simp only [List.length_append, List.length_take, List.length_drop]
  omega

theorem writeAt_take (buf : List ℕ) (pos : ℕ) (src : List ℕ) (h : pos ≤ buf.length) :
    (writeAt buf pos src).take (pos + src.length) = buf.take pos ++ src := by
  unfold writeAt
  have hl : (buf.take pos ++ src).length = pos + src.length := by
    simp only [List.length_append, List.length_take]
    omega
  rw [← hl, List.take_left]

/-- One iteration of the loop when the format is supported: the state after
the copy, after the processing of one chunk if one is complete, and the
chunk that was processed, if any. -/
theorem copyLoop_step (env : CaptureEnv) (data : List ℕ) (data_size fuel off : ℕ)
    (st : CaptureState) (hs : formatSupported env = true) (hC : 0 < chunkSizeBytes env)
    (hlen : st.raw_buffer.length = 2 * chunkSizeBytes env)
    (hpos : st.raw_buffer_pos ≤ chunkSizeBytes env) (hd : data.length = data_size)
    (hoff : off < data_size) :
    ∃ (st2 : CaptureState) (copy : ℕ) (news : List (List ℕ)),
      copyLoop env false data data_size (fuel + 1) off st =
        copyLoop env false data data_size fuel (off + copy) st2 ∧
      0 < copy ∧ off + copy ≤ data_size ∧
      st2.raw_buffer.length = 2 * chunkSizeBytes env ∧
      st2.raw_buffer_pos ≤ chunkSizeBytes env ∧
      st2.chunks = st.chunks ++ news ∧
      (∀ c ∈ news, c.length = chunkSizeBytes env) ∧
      st2.queued.length = st.queued.length + news.length ∧
      news.flatten ++ st2.carried = st.carried ++ (data.drop off).take copy ∧
      copy = min (st.raw_buffer.length - st.raw_buffer_pos) (data_size - off) ∧
      (chunkSizeBytes env ≤ st.raw_buffer_pos + copy →
        st2.raw_buffer_pos = st.raw_buffer_pos + copy - chunkSizeBytes env ∧
        news.length = 1) := by
  obtain ⟨C, hCdef⟩ : ∃ C, C = chunkSizeBytes env := ⟨_, rfl⟩
  rw [← hCdef] at hC hlen hpos ⊢
  obtain ⟨copy, hcopy⟩ : ∃ copy, copy = min (st.raw_buffer.length - st.raw_buffer_pos)
      (data_size - off) := ⟨_, rfl⟩
  have hcpos : 0 < copy := by
    rw [hcopy]
    apply lt_min <;> omega
  have hcle : off + copy ≤ data_size := by
    have := Nat.min_le_right (st.raw_buffer.length - st.raw_buffer_pos) (data_size - off)
    omega
  have hcsp : st.raw_buffer_pos + copy ≤ 2 * C := by
    have := Nat.min_le_left (st.raw_buffer.length - st.raw_buffer_pos) (data_size - off)
    omega
  obtain ⟨slice, hslice⟩ : ∃ slice, slice = (data.drop off).take copy := ⟨_, rfl⟩
  have hsl : slice.length = copy := by
    rw [hslice, List.length_take, List.length_drop]
    omega
  obtain ⟨raw1, hraw1⟩ : ∃ raw1, raw1 = writeAt st.raw_buffer st.raw_buffer_pos slice :=
    ⟨_, rfl⟩
  have hraw1len : raw1.length = 2 * C := by
    rw [hraw1, writeAt_length _ _ _ (by omega), hlen]
  have hcar1 : raw1.take (st.raw_buffer_pos + copy) = st.carried ++ slice := by
    rw [hraw1, ← hsl, writeAt_take _ _ _ (by omega)]
    rfl
  have hunf : copyLoop env false data data_size (fuel + 1) off st =
      (if st.raw_buffer_pos + copy ≥ C then
        match processChunk env raw1 st.output_buffer with
        | none => copyLoop env false data data_size fuel (off + copy)
            { st with raw_buffer := raw1, raw_buffer_pos := 0 }
        | some (new_output_buffer, audio_data, decibel) =>
          if st.raw_buffer_pos + copy > C then
            copyLoop env false data data_size fuel (off + copy)
              { raw_buffer := writeAt raw1 0
                  ((raw1.drop C).take (st.raw_buffer_pos + copy - C))
                raw_buffer_pos := st.raw_buffer_pos + copy - C
                output_buffer := new_output_buffer
                queued := st.queued ++ [(audio_data, decibel)]
                chunks := st.chunks ++ [raw1.take C] }
          else
            copyLoop env false data data_size fuel (off + copy)
              { raw_buffer := raw1
                raw_buffer_pos := 0
                output_buffer := new_output_buffer
                queued := st.queued ++ [(audio_data, decibel)]
                chunks := st.chunks ++ [raw1.take C] }
      else copyLoop env false data data_size fuel (off + copy)
        { st with raw_buffer := raw1, raw_buffer_pos := st.raw_buffer_pos + copy }) := by
    rw [copyLoop]
    rw [if_pos ⟨hoff, rfl⟩]
    simp only [← hcopy, ← hCdef, hcpos, if_true, ← hslice, ← hraw1, gt_iff_lt, ge_iff_le]
  rw [hunf]
  by_cases hge : st.raw_buffer_pos + copy ≥ C
  · rw [if_pos hge]
    obtain ⟨o, a, d, hp⟩ := processChunk_isSome env raw1 st.output_buffer hs
    rw [hp]
    dsimp only
    have hchunk : (raw1.take C).length = C := by
      rw [List.length_take]; omega
    by_cases hgt : st.raw_buffer_pos + copy > C
    · rw [if_pos hgt]
      refine ⟨_, copy, [raw1.take C], rfl, hcpos, hcle, ?_, ?_, rfl, ?_, ?_, ?_, ?_, ?_⟩
      · show (writeAt raw1 0 _).length = 2 * C
        rw [writeAt_length _ _ _ (by
          rw [List.length_take, List.length_drop]; omega), hraw1len]
      · show st.raw_buffer_pos + copy - C ≤ C
        omega
      · intro c hc
        rw [List.mem_singleton] at hc
        rw [hc, hchunk]
      · simp
      · show [raw1.take C].flatten ++ (writeAt raw1 0 _).take (st.raw_buffer_pos + copy - C) = _
        have hml : ((raw1.drop C).take (st.raw_buffer_pos + copy - C)).length =
            st.raw_buffer_pos + copy - C := by
          rw [List.length_take, List.length_drop]; omega
        have h1 := writeAt_take raw1 0 ((raw1.drop C).take (st.raw_buffer_pos + copy - C))
          (Nat.zero_le _)
        rw [hml, Nat.zero_add, List.take_zero, List.nil_append] at h1
        rw [h1, ← hslice, ← hcar1]
        simp only [List.flatten_cons, List.flatten_nil, List.append_nil]
        have h2 : (raw1.drop C).take (st.raw_buffer_pos + copy - C) =
            (raw1.take (st.raw_buffer_pos + copy)).drop C := by
          rw [List.drop_take]
        rw [h2]
        have h3 : raw1.take C = (raw1.take (st.raw_buffer_pos + copy)).take C := by
          rw [List.take_take, Nat.min_eq_left (by omega)]
        rw [h3, List.take_append_drop]
      · exact hcopy
      · intro _
        exact ⟨rfl, rfl⟩
    · rw [if_neg hgt]
      have heq : st.raw_buffer_pos + copy = C := by omega
      refine ⟨_, copy, [raw1.take C], rfl, hcpos, hcle, hraw1len, Nat.zero_le _, rfl, ?_, ?_,
        ?_, hcopy, ?_⟩
      · intro c hc
        rw [List.mem_singleton] at hc
        rw [hc, hchunk]
      · simp
      · show [raw1.take C].flatten ++ raw1.take 0 = _
        rw [← hslice, ← hcar1, heq]
        simp
      · intro _
        refine ⟨?_, rfl⟩
        show 0 = st.raw_buffer_pos + copy - C
        omega
  · rw [if_neg hge]
    refine ⟨_, copy, [], rfl, hcpos, hcle, hraw1len, ?_, ?_, ?_, ?_, ?_, hcopy, ?_⟩
    · show st.raw_buffer_pos + copy ≤ C
      omega
    · simp
    · intro c hc
      exact absurd hc (List.not_mem_nil c)
    · simp
    · show [].flatten ++ raw1.take (st.raw_buffer_pos + copy) = _
      rw [← hslice, ← hcar1]
      simp
    · intro h
      exact absurd h hge

/-- The loop over one device buffer, when the format is supported and no stop
is requested: with as much fuel as bytes are left it returns, and the chunks
it processed followed by the bytes it leaves in the carry-over buffer are the
bytes that were waiting followed by the rest of the device buffer. -/
theorem copyLoop_spec (env : CaptureEnv) (data : List ℕ) (data_size : ℕ)
    (hs : formatSupported env = true) (hC : 0 < chunkSizeBytes env)
    (hd : data.length = data_size) (fuel : ℕ) :
    ∀ (off : ℕ) (st : CaptureState), data_size - off ≤ fuel → off ≤ data_size →
      st.raw_buffer.length = 2 * chunkSizeBytes env →
      st.raw_buffer_pos ≤ chunkSizeBytes env →
      ∃ (st2 : CaptureState) (news : List (List ℕ)),
        copyLoop env false data data_size fuel off st = some st2 ∧
        st2.raw_buffer.length = 2 * chunkSizeBytes env ∧
        st2.raw_buffer_pos ≤ chunkSizeBytes env ∧
        st2.chunks = st.chunks ++ news ∧
        (∀ c ∈ news, c.length = chunkSizeBytes env) ∧
        st2.queued.length = st.queued.length + news.length ∧
        news.flatten ++ st2.carried = st.carried ++ data.drop off := by
  induction fuel with
  | zero =>
    intro off st hfuel hoff hlen hpos
    have hge : ¬ (off < data_size ∧ false = false) := by omega
    refine ⟨st, [], ?_, hlen, hpos, by simp, ?_, by simp, ?_⟩
    · rw [copyLoop, if_neg hge]
    · intro c hc
      exact absurd hc (List.not_mem_nil c)
    · rw [List.drop_eq_nil_of_le (by omega)]
      simp
  | succ fuel ih =>
    intro off st hfuel hoff hlen hpos
    by_cases hlt : off < data_size
    · obtain ⟨st1, copy, news1, hstep, hcpos, hcle, hlen1, hpos1, hch1, hcl1, hq1, hby1, _, _⟩ :=
        copyLoop_step env data data_size fuel off st hs hC hlen hpos hd hlt
      obtain ⟨st2, news2, hrun, hlen2, hpos2, hch2, hcl2, hq2, hby2⟩ :=
        ih (off + copy) st1 (by omega) hcle hlen1 hpos1
      refine ⟨st2, news1 ++ news2, ?_, hlen2, hpos2, ?_, ?_, ?_, ?_⟩
      · rw [hstep, hrun]
      · rw [hch2, hch1, List.append_assoc]
      · intro c hc
        rcases List.mem_append.mp hc with h | h
        · exact hcl1 c h
        · exact hcl2 c h
      · rw [hq2, hq1, List.length_append]
        omega
      · rw [List.flatten_append, List.append_assoc, hby2, ← List.append_assoc, hby1,
          List.append_assoc]
        congr 1
        rw [← List.drop_drop, List.take_append_drop]
    · have hge : ¬ (off < data_size ∧ false = false) := fun h => hlt h.1
      refine ⟨st, [], ?_, hlen, hpos, by simp, ?_, by simp, ?_⟩
      · rw [copyLoop, if_neg hge]
      · intro c hc
        exact absurd hc (List.not_mem_nil c)
      · rw [List.drop_eq_nil_of_le (by omega)]
        simp

/-- C15. For every device buffer flagged silent, whatever its frame count and
contents, and whether or not a stop is requested, the capture loop returns
the state it was given: no packet is queued, no chunk is processed, and
the carry-over buffer keeps its contents and its fill position. -/
theorem C15_silent_buffer_skipped (env : CaptureEnv) (should_stop_ : Bool)
    (data : Option (List ℕ)) (num_frames : ℕ) (st : CaptureState) :
    handleDeviceBuffer env should_stop_ true data num_frames st = some st := by
  unfold handleDeviceBuffer
  cases data with
  | none => rfl
  | some bytes =>
    dsimp only
    rw [if_neg (by simp)]

/-- C16. For a supported format, `chunk_size_bytes > 0` and no stop request,
handling one non-silent device buffer returns and loses and duplicates no
byte: the chunks handed to the conversion pipeline for it, each exactly
`chunk_size_bytes` long and each followed by one `QueueAudioData` call,
concatenated in order and followed by the new carry-over contents, equal
the old carry-over contents followed by the bytes of the buffer. (The state
is one the loop can be in between two device buffers: `raw_buffer` holds two
chunks and its fill position is at most one chunk.) -/
theorem C16_no_byte_lost (env : CaptureEnv) (bytes : List ℕ) (num_frames : ℕ)
    (st : CaptureState) (hs : formatSupported env = true) (hC : 0 < chunkSizeBytes env)
    (hd : bytes.length = num_frames * env.frame_size)
    (hlen : st.raw_buffer.length = 2 * chunkSizeBytes env)
    (hpos : st.raw_buffer_pos ≤ chunkSizeBytes env) :
    ∃ (st2 : CaptureState) (news : List (List ℕ)),
      handleDeviceBuffer env false false (some bytes) num_frames st = some st2 ∧
      st2.chunks = st.chunks ++ news ∧
      (∀ c ∈ news, c.length = chunkSizeBytes env) ∧
      st2.queued.length = st.queued.length + news.length ∧
      news.flatten ++ st2.carried = st.carried ++ bytes ∧
      st2.raw_buffer.length = 2 * chunkSizeBytes env ∧
      st2.raw_buffer_pos ≤ chunkSizeBytes env := by
  unfold handleDeviceBuffer
  dsimp only
  by_cases hn : num_frames > 0
  · rw [if_pos ⟨rfl, hn⟩]
    obtain ⟨st2, news, h1, h2, h3, h4, h5, h6, h7⟩ :=
      copyLoop_spec env bytes (num_frames * env.frame_size) hs hC hd
        (num_frames * env.frame_size) 0 st (by omega) (Nat.zero_le _) hlen hpos
    rw [List.drop_zero] at h7
    exact ⟨st2, news, h1, h4, h5, h6, h7, h2, h3⟩
  · rw [if_neg (fun h => hn h.2)]
    have hz : num_frames = 0 := by omega
    have hb : bytes = [] := by
      apply List.length_eq_zero.mp
      rw [hd, hz, Nat.zero_mul]
    refine ⟨st, [], rfl, by simp, ?_, by simp, by simp [hb], hlen, hpos⟩
    intro c hc
    exact absurd hc (List.not_mem_nil c)

theorem copyLoop_done (env : CaptureEnv) (stop : Bool) (data : List ℕ) (data_size fuel off : ℕ)
    (st : CaptureState) (h : data_size ≤ off) :
    copyLoop env stop data data_size fuel off st = some st := by
  have hge : ¬ (off < data_size ∧ stop = false) := fun hc => by omega
  cases fuel with
  | zero => rw [copyLoop, if_neg hge]
  | succ n => rw [copyLoop, if_neg hge]

/-- A device buffer of exactly two chunks arriving on an empty carry-over
buffer: one chunk is processed and the other stays in the carry-over buffer. -/
theorem two_chunks_pending (env : CaptureEnv) (bytes : List ℕ) (num_frames : ℕ)
    (st : CaptureState) (hs : formatSupported env = true) (hC : 0 < chunkSizeBytes env)
    (hd : bytes.length = num_frames * env.frame_size)
    (h2 : num_frames * env.frame_size = 2 * chunkSizeBytes env)
    (hlen : st.raw_buffer.length = 2 * chunkSizeBytes env) (hpos : st.raw_buffer_pos = 0) :
    ∃ st2 : CaptureState,
      handleDeviceBuffer env false false (some bytes) num_frames st = some st2 ∧
      st2.raw_buffer_pos = chunkSizeBytes env ∧
      st2.queued.length = st.queued.length + 1 := by
  have hn : num_frames > 0 := by
    rcases Nat.eq_zero_or_pos num_frames with h | h
    · rw [h, Nat.zero_mul] at h2; omega
    · exact h
  unfold handleDeviceBuffer
  dsimp only
  rw [if_pos ⟨rfl, hn⟩]
  obtain ⟨fuel, hfuel⟩ : ∃ fuel, num_frames * env.frame_size = fuel + 1 :=
    ⟨num_frames * env.frame_size - 1, by omega⟩
  obtain ⟨st1, copy, news1, hstep, _, _, _, _, _, _, hq1, _, hcopy, hproc⟩ :=
    copyLoop_step env bytes (num_frames * env.frame_size) fuel 0 st hs hC hlen (by omega) hd
      (by omega)
  have hc2 : copy = 2 * chunkSizeBytes env := by
    rw [hcopy, hlen, hpos, h2]
    simp
  obtain ⟨hp, hn1⟩ := hproc (by omega)
  refine ⟨st1, ?_, by omega, by omega⟩
  rw [show copyLoop env false bytes (num_frames * env.frame_size)
      (num_frames * env.frame_size) 0 st =
      copyLoop env false bytes (num_frames * env.frame_size) (fuel + 1) 0 st by rw [← hfuel]]
  rw [hstep]
  exact copyLoop_done _ _ _ _ _ _ _ (by omega)

theorem exampleEnv_chunkSizeBytes : chunkSizeBytes (exampleEnv 48000) = 2880 := by
  show chunkFrames 48000 * 2 % 18446744073709551616 = 2880
  unfold chunkFrames
  norm_num

theorem initialCaptureState_length (env : CaptureEnv) :
    (initialCaptureState env).raw_buffer.length = 2 * chunkSizeBytes env := by
  show (List.replicate (chunkSizeBytes env * 2) 0).length = 2 * chunkSizeBytes env
  rw [List.length_replicate, Nat.mul_comm]

/-- Witness of C16: a mono PCM16 device at 48000 Hz (chunks of 2880 bytes), the
initial state, and a device buffer of 480 frames (960 bytes). -/
theorem C16_no_byte_lost_witness :
    ∃ (st2 : CaptureState) (news : List (List ℕ)),
      handleDeviceBuffer (exampleEnv 48000) false false (some (List.replicate 960 7)) 480
        (initialCaptureState (exampleEnv 48000)) = some st2 ∧
      news.flatten ++ st2.carried =
        (initialCaptureState (exampleEnv 48000)).carried ++ List.replicate 960 7 := by
  obtain ⟨st2, news, h1, _, _, _, h5, _, _⟩ := C16_no_byte_lost (exampleEnv 48000)
    (List.replicate 960 7) 480 (initialCaptureState (exampleEnv 48000))
    (exampleEnv_supported 48000) (by rw [exampleEnv_chunkSizeBytes]; norm_num)
    (by rw [List.length_replicate]; rfl) (initialCaptureState_length _)
    (Nat.zero_le _)
  exact ⟨st2, news, h1, h5⟩

/-- C17, the behaviour of the code at the failing input. A mono PCM16 device at
48000 Hz has chunks of 2880 bytes; when a device buffer of 2880 frames (5760
bytes, two chunks) arrives on the empty carry-over buffer, one packet is
queued, not `floor (5760 / 2880) = 2`, and the carry-over buffer is left
holding 2880 bytes, a full chunk. -/
theorem C17_full_chunk_left_pending :
    chunkSizeBytes (exampleEnv 48000) = 2880 ∧
    ∃ st2 : CaptureState,
      handleDeviceBuffer (exampleEnv 48000) false false (some (List.replicate 5760 7)) 2880
        (initialCaptureState (exampleEnv 48000)) = some st2 ∧
      st2.raw_buffer_pos = 2880 ∧ st2.queued.length = 1 := by
  refine ⟨exampleEnv_chunkSizeBytes, ?_⟩
  obtain ⟨st2, h1, h2, h3⟩ := two_chunks_pending (exampleEnv 48000) (List.replicate 5760 7)
    2880 (initialCaptureState (exampleEnv 48000)) (exampleEnv_supported 48000)
    (by rw [exampleEnv_chunkSizeBytes]; norm_num)
    (by rw [List.length_replicate]; rfl)
    (by rw [exampleEnv_chunkSizeBytes]; rfl) (initialCaptureState_length _) rfl
  rw [exampleEnv_chunkSizeBytes] at h2
  exact ⟨st2, h1, h2, h3⟩

/-! ### Downmix of more than two channels, input volume -/

theorem downmix_channels_eq (F : FloatFormat) (input : List ℤ) (n : ℕ) (c : ℤ) (hc : c ≠ 1)
    (g : FVal) :
    ApplyGainBoostAndConvertToMono F input n c g =
      ApplyGainBoostAndConvertToMono F input n 2 g := by
  unfold ApplyGainBoostAndConvertToMono
  dsimp only
  rw [if_neg hc, if_neg (by decide)]

theorem ofExact_half (F : FloatFormat) (hF : IsRounding 24 (-126) F.rnd)
    (hmax : 32768 ≤ F.maxFinite) (k : ℤ) (h1 : -65536 ≤ k) (h2 : k ≤ 65536) :
    F.mul (.fin ((k : ℚ) / 2)) (.fin 1) = .fin ((k : ℚ) / 2) := by
  have hfix := hF.fix k (-1) (by rw [abs_lt]; constructor <;> omega) (by norm_num)
  have e : (k : ℚ) * (2 : ℚ) ^ (-1 : ℤ) = (k : ℚ) / 2 := by
    rw [zpow_neg_one]; ring
  rw [e] at hfix
  have hq1 : (-65536 : ℚ) ≤ (k : ℚ) := by exact_mod_cast h1
  have hq2 : (k : ℚ) ≤ 65536 := by exact_mod_cast h2
  simp only [FloatFormat.mul, mul_one, FloatFormat.ofExact, hfix]
  rw [if_neg (by linarith), if_neg (by linarith)]

theorem floatToInt16_half (k : ℤ) (h0 : 0 ≤ k) (h2 : k ≤ 65535) :
    floatToInt16 (clampInt16 (.fin ((k : ℚ) / 2))) = some (k / 2) := by
  have hq0 : (0 : ℚ) ≤ (k : ℚ) := by exact_mod_cast h0
  have hq2 : (k : ℚ) ≤ 65535 := by exact_mod_cast h2
  have hlt : (k : ℚ) / 2 < 32767 ∨ ¬ (k : ℚ) / 2 < 32767 := em _
  have hfloor : ⌊(k : ℚ) / 2⌋ = k / 2 := by
    have := Rat.floor_intCast_div_natCast k 2
    simpa using this
  have hcl : clampInt16 (.fin ((k : ℚ) / 2)) = .fin ((k : ℚ) / 2) ∨
      clampInt16 (.fin ((k : ℚ) / 2)) = .fin 32767 := by
    rcases hlt with h | h
    · left
      have h3 : (-32768 : ℚ) < (k : ℚ) / 2 := by linarith
      simp [clampInt16, stdMax, stdMin, FVal.lt, h, h3]
    · right
      norm_num [clampInt16, stdMax, stdMin, FVal.lt, h]
  rcases hcl with h | h
  · rw [h]
    have ht : truncQ ((k : ℚ) / 2) = k / 2 := by
      unfold truncQ
      rw [if_pos (by positivity), hfloor]
    simp only [floatToInt16, ht]
    rw [if_pos (by constructor <;> omega)]
  · have hk : k = 65535 ∨ k = 65534 := by
      by_contra hc
      push_neg at hc
      have hk3 : k ≤ 65533 := by omega
      have hq3 : (k : ℚ) ≤ 65533 := by exact_mod_cast hk3
      have hlt2 : (k : ℚ) / 2 < 32767 := by linarith
      have : clampInt16 (.fin ((k : ℚ) / 2)) = .fin ((k : ℚ) / 2) := by
        have h3 : (-32768 : ℚ) < (k : ℚ) / 2 := by linarith
        simp [clampInt16, stdMax, stdMin, FVal.lt, hlt2, h3]
      rw [this] at h
      injection h with h
      linarith
    rw [h]
    have e : (32767 : ℚ) = ((32767 : ℤ) : ℚ) := by norm_num
    rw [e, floatToInt16_int 32767 (by norm_num) (by norm_num)]
    rcases hk with hk | hk <;> subst hk <;> rfl

/-- C18, as the code has it. For every channel count `c > 1`, including
`c > 2`, and every frame index `i`, the downmix output for index `i` is the
clamped, gain-scaled average of the interleaved samples `input[2 i]` and
`input[2 i + 1]`, the same as for two channels; these are channels 0 and 1
of frame `i` when `c = 2`. -/
theorem C18_downmix_any_channel_count (F : FloatFormat) (hF : IsRounding 24 (-126) F.rnd)
    (input : List ℤ) (hin : ∀ s ∈ input, -32768 ≤ s ∧ s ≤ 32767) (frame_count : ℕ)
    (hlen : frame_count * 2 ≤ input.length) (c : ℤ) (hc : 1 < c) (g : FVal) (i : ℕ)
    (hi : i < frame_count) :
    ApplyGainBoostAndConvertToMono F input frame_count c g =
      ApplyGainBoostAndConvertToMono F input frame_count 2 g ∧
    ∃ L R v : ℤ, input[i * 2]? = some L ∧ input[i * 2 + 1]? = some R ∧
      (ApplyGainBoostAndConvertToMono F input frame_count c g)[i]? = some (some v) ∧
      floatToInt16 (clampInt16 (F.mul (.fin (((L : ℚ) + (R : ℚ)) / 2)) g)) = some v ∧
      -32768 ≤ v ∧ v ≤ 32767 := by
  have hne : c ≠ 1 := by omega
  have heq := downmix_channels_eq F input frame_count c hne g
  refine ⟨heq, ?_⟩
  rw [heq]
  have h0 : i * 2 < input.length := by omega
  have h1 : i * 2 + 1 < input.length := by omega
  have hl : input[i * 2]? = some input[i * 2] := List.getElem?_eq_getElem h0
  have hr : input[i * 2 + 1]? = some input[i * 2 + 1] := List.getElem?_eq_getElem h1
  obtain ⟨v, hv, hv1, hv2⟩ := floatToInt16_clampInt16
    (F.mul (.fin (((input[i * 2] : ℚ) + (input[i * 2 + 1] : ℚ)) / 2)) g)
  refine ⟨input[i * 2], input[i * 2 + 1], v, hl, hr, ?_, hv, hv1, hv2⟩
  rw [stereo_frame F input frame_count g i hi _ _ hl hr,
    stereo_average_exact F hF _ _ (hin _ (List.getElem_mem h0)) (hin _ (List.getElem_mem h1)),
    hv]

/-- Witness of C18 in binary32: three channels, two frames. -/
theorem C18_downmix_any_channel_count_witness :
    ApplyGainBoostAndConvertToMono binary32 [1, 2, 3, 4, 5, 6] 2 3 (.fin 1) =
      ApplyGainBoostAndConvertToMono binary32 [1, 2, 3, 4, 5, 6] 2 2 (.fin 1) :=
  (C18_downmix_any_channel_count binary32 binary32_isRounding [1, 2, 3, 4, 5, 6]
    (by decide) 2 (by decide) 3 (by decide) (.fin 1) 1 (by decide)).1

theorem binary32_maxFinite_32768 : (32768 : ℚ) ≤ binary32.maxFinite := by
  unfold binary32
  norm_num

/-- Counterexample to C18 as stated: with three channels and the frames
`(1, 2, 3)`, `(4, 5, 6)`, the output for frame 1 is 3, the truncated average
of `input[2] = 3` and `input[3] = 4`, whereas channels 0 and 1 of frame 1 are
`input[3] = 4` and `input[4] = 5`, whose clamped average is 4. -/
theorem C18_counterexample :
    (ApplyGainBoostAndConvertToMono binary32 [1, 2, 3, 4, 5, 6] 2 3 (.fin 1))[1]? =
      some (some 3) ∧
    ([1, 2, 3, 4, 5, 6] : List ℤ)[1 * 3]? = some 4 ∧
    ([1, 2, 3, 4, 5, 6] : List ℤ)[1 * 3 + 1]? = some 5 ∧
    floatToInt16 (clampInt16 (binary32.mul (.fin (((4 : ℚ) + (5 : ℚ)) / 2)) (.fin 1))) =
      some 4 := by
  refine ⟨?_, rfl, rfl, ?_⟩
  · rw [downmix_channels_eq binary32 _ _ 3 (by decide),
      stereo_frame binary32 [1, 2, 3, 4, 5, 6] 2 (.fin 1) 1 (by decide) 3 4 rfl rfl,
      stereo_average_exact binary32 binary32_isRounding 3 4 (by decide) (by decide)]
    have e : ((3 : ℤ) : ℚ) + ((4 : ℤ) : ℚ) = ((7 : ℤ) : ℚ) := by norm_num
    rw [e, ofExact_half binary32 binary32_isRounding binary32_maxFinite_32768 7 (by norm_num)
      (by norm_num), floatToInt16_half 7 (by norm_num) (by norm_num)]
    rfl
  · have e : (4 : ℚ) + (5 : ℚ) = ((9 : ℤ) : ℚ) := by norm_num
    rw [e, ofExact_half binary32 binary32_isRounding binary32_maxFinite_32768 9 (by norm_num)
      (by norm_num), floatToInt16_half 9 (by norm_num) (by norm_num)]
    rfl

theorem applyInputVolume_unchanged (F : FloatFormat) (vol : FVal) (samples : List ℤ)
    (h : ¬ (FVal.lt (.fin 0) vol = true ∧ FVal.lt vol (.fin 1) = true)) :
    applyInputVolume F vol samples = samples.map some := by
  unfold applyInputVolume
  rw [if_neg h]

theorem scaled_sample (F : FloatFormat) (hF : IsRounding 24 (-126) F.rnd)
    (hmax : 32768 ≤ F.maxFinite) (s : ℤ) (hs : -32768 ≤ s ∧ s ≤ 32767) (v : ℚ) (h0 : 0 < v)
    (h1 : v < 1) :
    floatToInt16 (F.mul (.fin (s : ℚ)) (.fin v)) = some (truncQ (F.rnd ((s : ℚ) * v))) ∧
    -32768 ≤ truncQ (F.rnd ((s : ℚ) * v)) ∧ truncQ (F.rnd ((s : ℚ) * v)) ≤ 32767 := by
  have he : (-126 : ℤ) - (((24 : ℕ) : ℤ) - 1) ≤ 0 := by norm_num
  have hq1 : (-32768 : ℚ) ≤ (s : ℚ) := by exact_mod_cast hs.1
  have hq2 : (s : ℚ) ≤ 32767 := by exact_mod_cast hs.2
  have hb : (-32768 : ℚ) ≤ F.rnd ((s : ℚ) * v) ∧ F.rnd ((s : ℚ) * v) ≤ 32767 := by
    have := hF.between he (-32768) 32767 (by norm_num) (by norm_num) ((s : ℚ) * v)
      (by push_cast; nlinarith) (by push_cast; nlinarith)
    push_cast at this
    exact this
  have hr := truncQ_range _ hb.1 hb.2
  refine ⟨?_, hr⟩
  simp only [FloatFormat.mul, FloatFormat.ofExact]
  rw [if_neg (by linarith [hb.2]), if_neg (by linarith [hb.1])]
  simp only [floatToInt16]
  rw [if_pos hr]

theorem applyInputVolume_defined (F : FloatFormat) (hF : IsRounding 24 (-126) F.rnd)
    (hmax : 32768 ≤ F.maxFinite) (vol : FVal) (samples : List ℤ)
    (hin : ∀ s ∈ samples, -32768 ≤ s ∧ s ≤ 32767) :
    ∀ o ∈ applyInputVolume F vol samples, ∃ v : ℤ, o = some v ∧ -32768 ≤ v ∧ v ≤ 32767 := by
  intro o ho
  by_cases h : FVal.lt (.fin 0) vol = true ∧ FVal.lt vol (.fin 1) = true
  · cases vol with
    | fin q =>
      have h0 : 0 < q := by simpa [FVal.lt] using h.1
      have h1 : q < 1 := by simpa [FVal.lt] using h.2
      unfold applyInputVolume at ho
      rw [if_pos h] at ho
      obtain ⟨s, hs, rfl⟩ := List.mem_map.mp ho
      obtain ⟨e, r⟩ := scaled_sample F hF hmax s (hin s hs) q h0 h1
      exact ⟨_, e, r⟩
    | pinf => simp [FVal.lt] at h
    | ninf => simp [FVal.lt] at h
    | nan => simp [FVal.lt] at h
  · rw [applyInputVolume_unchanged F vol samples h] at ho
    obtain ⟨s, hs, rfl⟩ := List.mem_map.mp ho
    exact ⟨s, rfl, hin s hs⟩

theorem convertFloatSample_defined (F : FloatFormat) (hF : IsRounding 24 (-126) F.rnd)
    (hmax : 32767 ≤ F.maxFinite) (x : FVal) :
    ∃ v : ℤ, convertFloatSample F x = some v ∧ -32768 ≤ v ∧ v ≤ 32767 := by
  have he : (-126 : ℤ) - (((24 : ℕ) : ℤ) - 1) ≤ 0 := by norm_num
  have hcl : ∃ q : ℚ, stdMin (.fin 1) (stdMax (.fin (-1)) x) = .fin q ∧ -1 ≤ q ∧ q ≤ 1 := by
    cases x with
    | fin q =>
      by_cases h1 : (-1 : ℚ) < q
      · by_cases h2 : q < 1
        · exact ⟨q, by simp [stdMin, stdMax, FVal.lt, h1, h2], h1.le, h2.le⟩
        · exact ⟨1, by simp [stdMin, stdMax, FVal.lt, h1, h2], by norm_num, le_refl _⟩
      · exact ⟨-1, by simp [stdMin, stdMax, FVal.lt, h1], le_refl _, by norm_num⟩
    | pinf => exact ⟨1, by simp [stdMin, stdMax, FVal.lt], by norm_num, le_refl _⟩
    | ninf => exact ⟨-1, by simp [stdMin, stdMax, FVal.lt], le_refl _, by norm_num⟩
    | nan => exact ⟨-1, by simp [stdMin, stdMax, FVal.lt], le_refl _, by norm_num⟩
  obtain ⟨q, hq, h1, h2⟩ := hcl
  have hb : (-32767 : ℚ) ≤ F.rnd (q * 32767) ∧ F.rnd (q * 32767) ≤ 32767 := by
    have := hF.between he (-32767) 32767 (by norm_num) (by norm_num) (q * 32767)
      (by push_cast; linarith) (by push_cast; linarith)
    push_cast at this
    exact this
  have hr := truncQ_range _ (by linarith [hb.1]) hb.2
  refine ⟨truncQ (F.rnd (q * 32767)), ?_, hr⟩
  unfold convertFloatSample
  dsimp only
  rw [hq]
  simp only [FloatFormat.mul, FloatFormat.ofExact]
  rw [if_neg (by linarith [hb.2]), if_neg (by linarith [hb.1])]
  simp only [floatToInt16]
  rw [if_pos hr]

/-! ### Bluetooth classification -/

theorem toLower_toUpper (c : Char) : c.toUpper.toLower = c.toLower := by
  by_cases h : 97 ≤ c.toNat ∧ c.toNat ≤ 122
  · have hc : c = Char.ofNat c.toNat := (Char.ofNat_toNat c).symm
    obtain ⟨n, hn⟩ : ∃ n, n = c.toNat := ⟨_, rfl⟩
    rw [← hn] at h hc
    obtain ⟨h1, h2⟩ := h
    rw [hc]
    interval_cases n <;> rfl
  · have e : c.toUpper = c := by
      unfold Char.toUpper
      simp only [ge_iff_le]
      rw [if_neg h]
    rw [e]

theorem toLower_toLower (c : Char) : c.toLower.toLower = c.toLower := by
  by_cases h : 65 ≤ c.toNat ∧ c.toNat ≤ 90
  · have hc : c = Char.ofNat c.toNat := (Char.ofNat_toNat c).symm
    obtain ⟨n, hn⟩ : ∃ n, n = c.toNat := ⟨_, rfl⟩
    rw [← hn] at h hc
    obtain ⟨h1, h2⟩ := h
    rw [hc]
    interval_cases n <;> rfl
  · have e : c.toLower = c := by
      unfold Char.toLower
      simp only [ge_iff_le]
      rw [if_neg h]
    rw [e, e]

theorem map_toLower_of_same_letters (l1 l2 : List Char)
    (h : List.Forall₂ (fun a b => b = a ∨ b = a.toUpper ∨ b = a.toLower) l1 l2) :
    l2.map Char.toLower = l1.map Char.toLower := by
  induction h with
  | nil => rfl
  | cons hab _ ih =>
    rw [List.map_cons, List.map_cons, ih]
    rcases hab with h | h | h
    · rw [h]
    · rw [h, toLower_toUpper]
    · rw [h, toLower_toLower]

theorem isBluetoothName_iff (name : String) :
    isBluetoothName name = true ↔
      ∃ kw ∈ ["bluetooth", "airpods", "beats", "jabra", "sony", "bose", "jbl"],
        kw.toList <:+: name.toList.map Char.toLower := by
  unfold isBluetoothName bluetooth_keywords lowercased
  rw [List.any_eq_true]
  constructor
  · rintro ⟨kw, hkw, h⟩
    exact ⟨kw, hkw, of_decide_eq_true h⟩
  · rintro ⟨kw, hkw, h⟩
    exact ⟨kw, hkw, decide_eq_true h⟩

theorem isBluetoothName_same_letters (name other : String)
    (h : List.Forall₂ (fun a b => b = a ∨ b = a.toUpper ∨ b = a.toLower)
      name.toList other.toList) :
    isBluetoothName other = isBluetoothName name := by
  unfold isBluetoothName lowercased
  rw [map_toLower_of_same_letters _ _ h]

/-- C14. For every device display name, `IsBluetoothDevice` (with a device
whose friendly name can be read) returns true if and only if the name,
lowercased, contains at least one of the keywords bluetooth, airpods, beats,
jabra, sony, bose, jbl as a substring; and the result is the same for every
other name obtained by keeping each character or replacing it by its upper
or lower case form. -/
theorem C14_bluetooth_classification (P : Platform) (p : Plugin) (d : ℕ) (name : String)
    (hd : p.device_ = some d) (hn : P.friendlyName d = some name) :
    (IsBluetoothDevice P p = true ↔
      ∃ kw ∈ ["bluetooth", "airpods", "beats", "jabra", "sony", "bose", "jbl"],
        kw.toList <:+: name.toList.map Char.toLower) ∧
    (∀ (P2 : Platform) (other : String), P2.friendlyName d = some other →
      List.Forall₂ (fun a b => b = a ∨ b = a.toUpper ∨ b = a.toLower)
        name.toList other.toList →
      IsBluetoothDevice P2 p = IsBluetoothDevice P p) := by
  have e : GetCurrentDeviceName P p = name := by
    unfold GetCurrentDeviceName
    rw [hd]
    dsimp only
    rw [hn]
  constructor
  · unfold IsBluetoothDevice
    rw [e]
    exact isBluetoothName_iff name
  · intro P2 other ho hsame
    have e2 : GetCurrentDeviceName P2 p = other := by
      unfold GetCurrentDeviceName
      rw [hd]
      dsimp only
      rw [ho]
    unfold IsBluetoothDevice
    rw [e, e2]
    exact isBluetoothName_same_letters name other hsame

/-- Witness of C14: a headset whose name holds `Sony` is classified Bluetooth,
and so is the same name in capitals. -/
theorem C14_bluetooth_classification_witness :
    IsBluetoothDevice (examplePlatform "Sony WH" 1 .start)
      { Plugin.init with device_ := some 7 } = true ∧
    IsBluetoothDevice (examplePlatform "SONY WH" 1 .start)
      { Plugin.init with device_ := some 7 } =
      IsBluetoothDevice (examplePlatform "Sony WH" 1 .start)
        { Plugin.init with device_ := some 7 } := by
  have h := C14_bluetooth_classification (examplePlatform "Sony WH" 1 .start)
    { Plugin.init with device_ := some 7 } 7 "Sony WH" rfl rfl
  constructor
  · rw [h.1]
    exact ⟨"sony", by decide, by decide⟩
  · exact h.2 (examplePlatform "SONY WH" 1 .start) "SONY WH" rfl (by
      show List.Forall₂ _ ['S', 'o', 'n', 'y', ' ', 'W', 'H'] ['S', 'O', 'N', 'Y', ' ', 'W', 'H']
      refine List.Forall₂.cons (Or.inl rfl) (List.Forall₂.cons (Or.inr (Or.inl rfl))
        (List.Forall₂.cons (Or.inr (Or.inl rfl)) (List.Forall₂.cons (Or.inr (Or.inl rfl))
        (List.Forall₂.cons (Or.inl rfl) (List.Forall₂.cons (Or.inl rfl)
        (List.Forall₂.cons (Or.inl rfl) List.Forall₂.nil)))))))

/-! ### Configuration clamp -/

theorem int_log_eq (x : ℚ) (e : ℤ) (hx : 0 < x) (h1 : (2 : ℚ) ^ e ≤ x)
    (h2 : x < (2 : ℚ) ^ (e + 1)) : Int.log 2 x = e := by
  have a : e ≤ Int.log 2 x :=
    (Int.zpow_le_iff_le_log (R := ℚ) (b := 2) (by norm_num) hx).mp (by simpa using h1)
  have b : Int.log 2 x < e + 1 :=
    (Int.lt_zpow_iff_log_lt (R := ℚ) (b := 2) (by norm_num) hx).mp (by simpa using h2)
  omega

theorem binary32_tenth : binary32.rnd (1 / 10) = 13421773 / 134217728 := by
  have hlog : Int.log 2 |(1 / 10 : ℚ)| = -4 := by
    rw [abs_of_pos (by norm_num)]
    apply int_log_eq
    · norm_num
    · norm_num
    · norm_num
  have hfl : ⌊(1 / 10 : ℚ) / (2 : ℚ) ^ (-27 : ℤ)⌋ = 13421772 := by
    rw [Int.floor_eq_iff]
    norm_num
  show roundNE 24 (-126) (1 / 10) = 13421773 / 134217728
  unfold roundNE
  rw [if_neg (by norm_num), hlog]
  have hmax : max (-4 : ℤ) (-126) - (((24 : ℕ) : ℤ) - 1) = -27 := by norm_num
  simp only [hmax]
  unfold roundEven
  simp only [hfl]
  norm_num

theorem binary32_tenth_ge : (1 / 10 : ℚ) ≤ binary32.rnd (1 / 10) := by
  rw [binary32_tenth]
  norm_num

theorem stdClamp_fin (lo hi : ℚ) (hlh : lo ≤ hi) (x : FVal) :
    ∃ q : ℚ, stdMax (.fin lo) (stdMin (.fin hi) x) = .fin q ∧ lo ≤ q ∧ q ≤ hi ∧
      (∀ y : ℚ, x = .fin y → lo ≤ y → y ≤ hi → q = y) := by
  cases x with
  | fin y =>
    by_cases h1 : y < hi
    · by_cases h2 : lo < y
      · refine ⟨y, by simp [stdMax, stdMin, FVal.lt, h1, h2], h2.le, h1.le, ?_⟩
        intro z hz _ _
        injection hz
      · refine ⟨lo, by simp [stdMax, stdMin, FVal.lt, h1, h2], le_refl _, hlh, ?_⟩
        intro z hz hl _
        injection hz with hz
        subst hz
        exact le_antisymm hl (not_lt.mp h2)
    · by_cases h3 : lo < hi
      · refine ⟨hi, by simp [stdMax, stdMin, FVal.lt, h1, h3], hlh, le_refl _, ?_⟩
        intro z hz _ hu
        injection hz with hz
        subst hz
        exact le_antisymm (not_lt.mp h1) hu
      · refine ⟨lo, by simp [stdMax, stdMin, FVal.lt, h1, h3], le_refl _, hlh, ?_⟩
        intro z hz hl hu
        injection hz with hz
        subst hz
        have : hi = lo := le_antisymm (not_lt.mp h3) hlh
        linarith [not_lt.mp h1]
  | pinf =>
    by_cases h3 : lo < hi
    · exact ⟨hi, by simp [stdMax, stdMin, FVal.lt, h3], hlh, le_refl _,
        fun _ h _ _ => by simp at h⟩
    · exact ⟨lo, by simp [stdMax, stdMin, FVal.lt, h3], le_refl _, hlh,
        fun _ h _ _ => by simp at h⟩
  | ninf =>
    exact ⟨lo, by simp [stdMax, stdMin, FVal.lt], le_refl _, hlh, fun _ h _ _ => by simp at h⟩
  | nan =>
    by_cases h3 : lo < hi
    · exact ⟨hi, by simp [stdMax, stdMin, FVal.lt, h3], hlh, le_refl _,
        fun _ h _ _ => by simp at h⟩
    · exact ⟨lo, by simp [stdMax, stdMin, FVal.lt, h3], le_refl _, hlh,
        fun _ h _ _ => by simp at h⟩

theorem StartCapture_at_open (F : FloatFormat) (P : Platform) (args : Option StartArgs)
    (p : Plugin) :
    (StartCapture F P args p).at_open =
      clampConfig F (parseArgs F args (CleanupExistingCapture p)) := by
  unfold StartCapture
  dsimp only
  split_ifs <;> rfl

/-- C12. For every combination of supplied start arguments and every prior
field value (an infinity or NaN included), at the point where `StartCapture`
calls the stream open the configuration satisfies `sampleRate ≥ 8000`,
`channels` in {1, 2}, `bitsPerSample = 16`, `0.1 ≤ gainBoost ≤ 10.0` (the
lower limit being the float `0.1f`) and `0.0 ≤ inputVolume ≤ 1.0`; a value
that is already in range is left unchanged by the clamp, and clamping a
second time changes nothing. -/
theorem C12_config_clamped (F : FloatFormat) (htenth : 1 / 10 ≤ F.rnd (1 / 10))
    (hten : F.rnd (1 / 10) ≤ 10) (P : Platform) (args : Option StartArgs) (p : Plugin) :
    (8000 ≤ (StartCapture F P args p).at_open.sample_rate_ ∧
      ((StartCapture F P args p).at_open.channels_ = 1 ∨
        (StartCapture F P args p).at_open.channels_ = 2) ∧
      (StartCapture F P args p).at_open.bits_per_sample_ = 16 ∧
      (∃ g : ℚ, (StartCapture F P args p).at_open.gain_boost_ = .fin g ∧
        1 / 10 ≤ g ∧ F.rnd (1 / 10) ≤ g ∧ g ≤ 10) ∧
      (∃ v : ℚ, (StartCapture F P args p).at_open.input_volume_ = .fin v ∧ 0 ≤ v ∧ v ≤ 1)) ∧
    (∀ r : Plugin,
      (8000 ≤ r.sample_rate_ → (clampConfig F r).sample_rate_ = r.sample_rate_) ∧
      (r.channels_ = 1 ∨ r.channels_ = 2 → (clampConfig F r).channels_ = r.channels_) ∧
      (∀ g : ℚ, r.gain_boost_ = .fin g → F.rnd (1 / 10) ≤ g → g ≤ 10 →
        (clampConfig F r).gain_boost_ = r.gain_boost_) ∧
      (∀ v : ℚ, r.input_volume_ = .fin v → 0 ≤ v → v ≤ 1 →
        (clampConfig F r).input_volume_ = r.input_volume_)) ∧
    clampConfig F (StartCapture F P args p).at_open = (StartCapture F P args p).at_open := by
  rw [StartCapture_at_open]
  obtain ⟨q, hq⟩ : ∃ q, q = parseArgs F args (CleanupExistingCapture p) := ⟨_, rfl⟩
  rw [← hq]
  have hgen : ∀ r : Plugin,
      8000 ≤ (clampConfig F r).sample_rate_ ∧
      ((clampConfig F r).channels_ = 1 ∨ (clampConfig F r).channels_ = 2) ∧
      (clampConfig F r).bits_per_sample_ = 16 ∧
      (∃ g : ℚ, (clampConfig F r).gain_boost_ = .fin g ∧ F.rnd (1 / 10) ≤ g ∧ g ≤ 10 ∧
        (∀ y : ℚ, r.gain_boost_ = .fin y → F.rnd (1 / 10) ≤ y → y ≤ 10 → g = y)) ∧
      (∃ v : ℚ, (clampConfig F r).input_volume_ = .fin v ∧ 0 ≤ v ∧ v ≤ 1 ∧
        (∀ y : ℚ, r.input_volume_ = .fin y → 0 ≤ y → y ≤ 1 → v = y)) := by
    intro r
    refine ⟨?_, ?_, rfl, ?_, ?_⟩
    · show 8000 ≤ max r.sample_rate_ 8000
      exact le_max_right _ _
    · show max 1 (min r.channels_ 2) = 1 ∨ max 1 (min r.channels_ 2) = 2
      omega
    · exact stdClamp_fin (F.rnd (1 / 10)) 10 hten r.gain_boost_
    · exact stdClamp_fin 0 1 (by norm_num) r.input_volume_
  have hfix : ∀ r : Plugin,
      (8000 ≤ r.sample_rate_ → (clampConfig F r).sample_rate_ = r.sample_rate_) ∧
      (r.channels_ = 1 ∨ r.channels_ = 2 → (clampConfig F r).channels_ = r.channels_) ∧
      (∀ g : ℚ, r.gain_boost_ = .fin g → F.rnd (1 / 10) ≤ g → g ≤ 10 →
        (clampConfig F r).gain_boost_ = r.gain_boost_) ∧
      (∀ v : ℚ, r.input_volume_ = .fin v → 0 ≤ v → v ≤ 1 →
        (clampConfig F r).input_volume_ = r.input_volume_) := by
    intro r
    obtain ⟨_, _, _, ⟨g, hg, _, _, hg4⟩, ⟨v, hv, _, _, hv4⟩⟩ := hgen r
    refine ⟨?_, ?_, ?_, ?_⟩
    · intro h
      show max r.sample_rate_ 8000 = r.sample_rate_
      exact max_eq_left h
    · intro h
      show max 1 (min r.channels_ 2) = r.channels_
      omega
    · intro y hy h1 h2
      rw [hg, hg4 y hy h1 h2, hy]
    · intro y hy h1 h2
      rw [hv, hv4 y hy h1 h2, hy]
  obtain ⟨h1, h2, h3, ⟨g, hg, hg2, hg3, _⟩, ⟨v, hv, hv2, hv3, _⟩⟩ := hgen q
  refine ⟨⟨h1, h2, h3, ⟨g, hg, le_trans htenth hg2, hg2, hg3⟩, ⟨v, hv, hv2, hv3⟩⟩, hfix, ?_⟩
  obtain ⟨f1, f2, f3, f4⟩ := hfix (clampConfig F q)
  have e1 := f1 h1
  have e2 := f2 h2
  have e3 := f3 g hg hg2 hg3
  have e4 := f4 v hv hv2 hv3
  have e5 : (clampConfig F (clampConfig F q)).bits_per_sample_ =
      (clampConfig F q).bits_per_sample_ := rfl
  cases hc : clampConfig F q with
  | mk a1 a2 a3 a4 a5 a6 a7 a8 a9 a10 a11 a12 a13 a14 a15 =>
    rw [hc] at e1 e2 e3 e4 e5
    cases hcc : clampConfig F (Plugin.mk a1 a2 a3 a4 a5 a6 a7 a8 a9 a10 a11 a12 a13 a14 a15) with
    | mk b1 b2 b3 b4 b5 b6 b7 b8 b9 b10 b11 b12 b13 b14 b15 =>
      rw [hcc] at e1 e2 e3 e4 e5
      have hrest : b1 = a1 ∧ b2 = a2 ∧ b8 = a8 ∧ b9 = a9 ∧ b10 = a10 ∧ b11 = a11 ∧
          b12 = a12 ∧ b13 = a13 ∧ b14 = a14 ∧ b15 = a15 := by
        have := hcc
        unfold clampConfig at this
        simp only [Plugin.mk.injEq] at this
        obtain ⟨c1, c2, _, _, _, _, _, c8, c9, c10, c11, c12, c13, c14, c15⟩ := this
        exact ⟨c1.symm, c2.symm, c8.symm, c9.symm, c10.symm, c11.symm, c12.symm, c13.symm,
          c14.symm, c15.symm⟩
      obtain ⟨r1, r2, r8, r9, r10, r11, r12, r13, r14, r15⟩ := hrest
      simp only at e1 e2 e3 e4 e5
      subst r1 r2 r8 r9 r10 r11 r12 r13 r14 r15 e1 e2 e3 e4 e5
      rfl

/-- Witness of C12 in binary32: a start with out-of-range arguments. -/
theorem C12_config_clamped_witness :
    8000 ≤ (StartCapture binary32 (examplePlatform "Mic" 1 .start)
      (some { sampleRate := some 4000, channels := some 6, bitDepth := some 24,
              gainBoost := some (.fin 50), inputVolume := some .nan })
      Plugin.init).at_open.sample_rate_ :=
  (C12_config_clamped binary32 binary32_tenth_ge (by rw [binary32_tenth]; norm_num)
    (examplePlatform "Mic" 1 .start)
    (some { sampleRate := some 4000, channels := some 6, bitDepth := some 24,
            gainBoost := some (.fin 50), inputVolume := some .nan })
    Plugin.init).1.1

/-! ### Opening the stream -/

theorem attemptOpen_fail (a : Attempt) (p : Plugin) (h : a.failure ≠ none) :
    ∃ (p1 : Plugin) (msg : String), attemptOpen a p = (false, p1, msg) ∧ msg ≠ "" ∧
      p.sameControl p1 ∧ (p.device_ = none → p1.device_ = none) := by
  unfold attemptOpen
  cases hf : a.failure with
  | none => exact absurd hf h
  | some s =>
    cases s <;>
      exact ⟨_, _, rfl, by decide, ⟨rfl, rfl, rfl, rfl, rfl, rfl, rfl, rfl, rfl⟩,
        fun hd => by first | exact hd | rfl⟩

theorem attemptOpen_ok (a : Attempt) (p : Plugin) (h : a.failure = none) :
    attemptOpen a p =
      (true, { p with device_ := some a.device, audio_client_ := some a.client,
                      mix_format_ := some a.format, buffer_frame_count_ := a.frames,
                      capture_client_ := some a.capture, com_initialized_ := a.com_s_ok },
        "") := by
  unfold attemptOpen
  rw [h]

theorem openLoop_retry (P : Platform) (b : Bool) (r a : ℕ) (p p1 : Plugin) (msg : String)
    (w : List ℕ) (h : attemptOpen (P.attempts a) p = (false, p1, msg))
    (hc : a < max_retries b ∧ (retry_delays b).getD (a - 1) 0 > 0) :
    openLoop P b (r + 1) a p w =
      openLoop P b r (a + 1) p1 (w ++ [(retry_delays b).getD (a - 1) 0]) := by
  rw [openLoop, h]
  dsimp only
  rw [if_pos hc]

theorem openLoop_giveup (P : Platform) (b : Bool) (r a : ℕ) (p p1 : Plugin) (msg : String)
    (w : List ℕ) (h : attemptOpen (P.attempts a) p = (false, p1, msg))
    (hc : ¬ (a < max_retries b ∧ (retry_delays b).getD (a - 1) 0 > 0)) :
    openLoop P b (r + 1) a p w =
      { ok := false, plugin := p1, error_message := msg, waits := w, attempts_made := a } := by
  rw [openLoop, h]
  dsimp only
  rw [if_neg hc]

theorem openLoop_success (P : Platform) (b : Bool) (r a : ℕ) (p : Plugin) (w : List ℕ)
    (h : (P.attempts a).failure = none) :
    openLoop P b (r + 1) a p w =
      { ok := true
        plugin := { p with device_ := some (P.attempts a).device,
                           audio_client_ := some (P.attempts a).client,
                           mix_format_ := some (P.attempts a).format,
                           buffer_frame_count_ := (P.attempts a).frames,
                           capture_client_ := some (P.attempts a).capture,
                           com_initialized_ := (P.attempts a).com_s_ok }
        error_message := "", waits := w, attempts_made := a } := by
  rw [openLoop, attemptOpen_ok _ _ h]

/-- C13. When every open attempt fails, `OpenWASAPIStreamWithRetry` makes
exactly 3 attempts for a normal device and exactly 5 for a Bluetooth one and
then returns failure with an error message; it sleeps the initial delay (0.3
s, respectively 1.5 s) before the first attempt and, between consecutive
attempts, the successive steps of the schedule of the class (0.3, 0.6 s
between the three normal attempts; 0.5, 1.0, 1.5, 2.0 s between the five
Bluetooth ones), in total 1.2 s, respectively 6.5 s, below 14 s. -/
theorem C13_retry_policy (P : Platform) (is_bluetooth : Bool) (p : Plugin)
    (hfail : ∀ n, n ≤ max_retries is_bluetooth → (P.attempts n).failure ≠ none) :
    (OpenWASAPIStreamWithRetry P is_bluetooth p).ok = false ∧
    (OpenWASAPIStreamWithRetry P is_bluetooth p).error_message ≠ "" ∧
    (OpenWASAPIStreamWithRetry P is_bluetooth p).attempts_made =
      (if is_bluetooth then 5 else 3) ∧
    (OpenWASAPIStreamWithRetry P is_bluetooth p).waits =
      (if is_bluetooth then [1500, 500, 1000, 1500, 2000] else [300, 300, 600]) ∧
    (OpenWASAPIStreamWithRetry P is_bluetooth p).waits.sum ≤ 14000 := by
  cases is_bluetooth with
  | false =>
    obtain ⟨p1, m1, h1, _, _, _⟩ := attemptOpen_fail (P.attempts 1) p (hfail 1 (by decide))
    obtain ⟨p2, m2, h2, _, _, _⟩ := attemptOpen_fail (P.attempts 2) p1 (hfail 2 (by decide))
    obtain ⟨p3, m3, h3, hm3, _, _⟩ := attemptOpen_fail (P.attempts 3) p2 (hfail 3 (by decide))
    have e : OpenWASAPIStreamWithRetry P false p =
        { ok := false, plugin := p3, error_message := m3, waits := [300, 300, 600],
          attempts_made := 3 } := by
      unfold OpenWASAPIStreamWithRetry
      rw [show max_retries false = 2 + 1 from rfl,
        openLoop_retry P false 2 1 p p1 m1 _ h1 (by decide),
        openLoop_retry P false 1 2 p1 p2 m2 _ h2 (by decide),
        openLoop_giveup P false 0 3 p2 p3 m3 _ h3 (by decide)]
      rfl
    rw [e]
    exact ⟨rfl, hm3, rfl, rfl, by show ([300, 300, 600] : List ℕ).sum ≤ 14000; decide⟩
  | true =>
    obtain ⟨p1, m1, h1, _, _, _⟩ := attemptOpen_fail (P.attempts 1) p (hfail 1 (by decide))
    obtain ⟨p2, m2, h2, _, _, _⟩ := attemptOpen_fail (P.attempts 2) p1 (hfail 2 (by decide))
    obtain ⟨p3, m3, h3, _, _, _⟩ := attemptOpen_fail (P.attempts 3) p2 (hfail 3 (by decide))
    obtain ⟨p4, m4, h4, _, _, _⟩ := attemptOpen_fail (P.attempts 4) p3 (hfail 4 (by decide))
    obtain ⟨p5, m5, h5, hm5, _, _⟩ := attemptOpen_fail (P.attempts 5) p4 (hfail 5 (by decide))
    have e : OpenWASAPIStreamWithRetry P true p =
        { ok := false, plugin := p5, error_message := m5,
          waits := [1500, 500, 1000, 1500, 2000], attempts_made := 5 } := by
      unfold OpenWASAPIStreamWithRetry
      rw [show max_retries true = 4 + 1 from rfl,
        openLoop_retry P true 4 1 p p1 m1 _ h1 (by decide),
        openLoop_retry P true 3 2 p1 p2 m2 _ h2 (by decide),
        openLoop_retry P true 2 3 p2 p3 m3 _ h3 (by decide),
        openLoop_retry P true 1 4 p3 p4 m4 _ h4 (by decide),
        openLoop_giveup P true 0 5 p4 p5 m5 _ h5 (by decide)]
      rfl
    rw [e]
    exact ⟨rfl, hm5, rfl, rfl,
      by show ([1500, 500, 1000, 1500, 2000] : List ℕ).sum ≤ 14000; decide⟩

theorem examplePlatform_fails (name : String) (good : ℕ) (stage : OpenStage) (n : ℕ)
    (h : n < good) : ((examplePlatform name good stage).attempts n).failure ≠ none := by
  show (if n < good then some stage else none) ≠ none
  rw [if_pos h]
  exact Option.some_ne_none _

/-- Witness of C13: a platform on which `GetService` fails at each attempt. -/
theorem C13_retry_policy_witness :
    (OpenWASAPIStreamWithRetry (examplePlatform "Mic" 100 .getService) true
      Plugin.init).attempts_made = 5 ∧
    (OpenWASAPIStreamWithRetry (examplePlatform "Mic" 100 .getService) false
      Plugin.init).waits = [300, 300, 600] :=
  ⟨(C13_retry_policy _ true Plugin.init (fun n hn =>
      examplePlatform_fails _ _ _ n (lt_of_le_of_lt hn (by decide)))).2.2.1,
    (C13_retry_policy _ false Plugin.init (fun n hn =>
      examplePlatform_fails _ _ _ n (lt_of_le_of_lt hn (by decide)))).2.2.2.1⟩

/-! ### Session lifecycle -/

theorem Plugin.sameControl_refl (p : Plugin) : p.sameControl p :=
  ⟨rfl, rfl, rfl, rfl, rfl, rfl, rfl, rfl, rfl⟩

theorem Plugin.sameControl_trans {p q r : Plugin} (h1 : p.sameControl q)
    (h2 : q.sameControl r) : p.sameControl r := by
  obtain ⟨a1, a2, a3, a4, a5, a6, a7, a8, a9⟩ := h1
  obtain ⟨b1, b2, b3, b4, b5, b6, b7, b8, b9⟩ := h2
  exact ⟨b1.trans a1, b2.trans a2, b3.trans a3, b4.trans a4, b5.trans a5, b6.trans a6,
    b7.trans a7, b8.trans a8, b9.trans a9⟩

theorem openLoop_props (P : Platform) (b : Bool) (r : ℕ) :
    ∀ (a : ℕ) (p : Plugin) (w : List ℕ),
      p.sameControl (openLoop P b r a p w).plugin ∧
      (∃ t, (openLoop P b r a p w).waits = w ++ t) ∧
      (openLoop P b r a p w).attempts_made ≤ a + r - 1 ∧
      ((openLoop P b r a p w).ok = false → p.device_ = none →
        (openLoop P b r a p w).plugin.device_ = none) ∧
      ((openLoop P b r a p w).ok = true →
        (P.attempts (openLoop P b r a p w).attempts_made).failure = none ∧
        (openLoop P b r a p w).plugin.device_ =
          some (P.attempts (openLoop P b r a p w).attempts_made).device ∧
        (openLoop P b r a p w).plugin.audio_client_ =
          some (P.attempts (openLoop P b r a p w).attempts_made).client ∧
        (openLoop P b r a p w).plugin.capture_client_ =
          some (P.attempts (openLoop P b r a p w).attempts_made).capture ∧
        (openLoop P b r a p w).plugin.mix_format_ =
          some (P.attempts (openLoop P b r a p w).attempts_made).format) := by
  induction r with
  | zero =>
    intro a p w
    rw [openLoop]
    refine ⟨Plugin.sameControl_refl p, ⟨[], by simp⟩, (by show a - 1 ≤ a + 0 - 1; omega),
      fun _ h => h, fun h => ?_⟩
    exact absurd h (by simp)
  | succ r ih =>
    intro a p w
    cases hf : (P.attempts a).failure with
    | none =>
      rw [openLoop_success P b r a p w hf]
      refine ⟨⟨rfl, rfl, rfl, rfl, rfl, rfl, rfl, rfl, rfl⟩, ⟨[], by simp⟩,
        (by show a ≤ a + (r + 1) - 1; omega),
        fun h => absurd h (by simp), fun _ => ⟨hf, rfl, rfl, rfl, rfl⟩⟩
    | some s =>
      obtain ⟨p1, msg, h1, _, hsc, hdev⟩ :=
        attemptOpen_fail (P.attempts a) p (by rw [hf]; exact Option.some_ne_none _)
      by_cases hc : a < max_retries b ∧ (retry_delays b).getD (a - 1) 0 > 0
      · rw [openLoop_retry P b r a p p1 msg w h1 hc]
        obtain ⟨i1, ⟨t, i2⟩, i3, i4, i5⟩ :=
          ih (a + 1) p1 (w ++ [(retry_delays b).getD (a - 1) 0])
        refine ⟨Plugin.sameControl_trans hsc i1, ⟨(retry_delays b).getD (a - 1) 0 :: t, by rw [i2, List.append_assoc]; rfl⟩, by omega,
          fun h hd => i4 h (hdev hd), i5⟩
      · rw [openLoop_giveup P b r a p p1 msg w h1 hc]
        refine ⟨hsc, ⟨[], by simp⟩, (by show a ≤ a + (r + 1) - 1; omega),
          fun _ hd => hdev hd, fun h => absurd h (by simp)⟩

theorem isBluetoothName_default : isBluetoothName "Default Microphone" = false := by
  decide

theorem GetCurrentDeviceName_null (P : Platform) (p : Plugin) (hd : p.device_ = none) :
    GetCurrentDeviceName P p = "Default Microphone" := by
  unfold GetCurrentDeviceName
  rw [hd]

theorem IsBluetoothDevice_null (P : Platform) (p : Plugin) (hd : p.device_ = none) :
    IsBluetoothDevice P p = false := by
  unfold IsBluetoothDevice
  rw [GetCurrentDeviceName_null P p hd]
  exact isBluetoothName_default

theorem prepared_device (F : FloatFormat) (args : Option StartArgs) (p : Plugin) :
    (clampConfig F (parseArgs F args (CleanupExistingCapture p))).device_ = p.device_ := by
  unfold clampConfig parseArgs CleanupExistingCapture
  cases args <;> (dsimp only; split_ifs <;> rfl)

theorem StartCapture_fields (F : FloatFormat) (P : Platform) (args : Option StartArgs)
    (p : Plugin) :
    (StartCapture F P args p).is_bluetooth =
      IsBluetoothDevice P (clampConfig F (parseArgs F args (CleanupExistingCapture p))) ∧
    (StartCapture F P args p).opened =
      OpenWASAPIStreamWithRetry P
        (IsBluetoothDevice P (clampConfig F (parseArgs F args (CleanupExistingCapture p))))
        (clampConfig F (parseArgs F args (CleanupExistingCapture p))) := by
  unfold StartCapture
  dsimp only
  split_ifs <;> exact ⟨rfl, rfl⟩

theorem prepared_control (F : FloatFormat) (args : Option StartArgs) (p : Plugin)
    (h : p.is_capturing_ = true → p.thread_joinable = true) :
    (clampConfig F (parseArgs F args (CleanupExistingCapture p))).is_capturing_ = false ∧
    (clampConfig F (parseArgs F args (CleanupExistingCapture p))).current_device_name_ = "" ∧
    (p.is_capturing_ = true →
      (clampConfig F (parseArgs F args (CleanupExistingCapture p))).should_stop_ = true) := by
  unfold clampConfig parseArgs CleanupExistingCapture
  by_cases hc : p.is_capturing_ = true
  · have hj := h hc
    cases args <;> (dsimp only; rw [if_pos ⟨hc, hj⟩]; simp)
  · have hc2 : p.is_capturing_ = false := by simpa using hc
    cases args <;> (dsimp only; rw [if_neg (fun hh => hc hh.1)]; simp [hc2])

theorem StartCapture_spec (F : FloatFormat) (P : Platform) (args : Option StartArgs)
    (p : Plugin) (h : p.is_capturing_ = true → p.thread_joinable = true) :
    (StartCapture F P args p).ok = (StartCapture F P args p).opened.ok ∧
    ((StartCapture F P args p).opened.ok = false →
      (StartCapture F P args p).plugin = (StartCapture F P args p).opened.plugin) ∧
    ((StartCapture F P args p).opened.ok = true →
      (StartCapture F P args p).plugin =
        { (StartCapture F P args p).opened.plugin with
          current_device_name_ :=
            GetCurrentDeviceName P (StartCapture F P args p).opened.plugin
          should_stop_ := false
          is_capturing_ := true
          thread_joinable := true }) := by
  obtain ⟨hpre, _, _⟩ := prepared_control F args p h
  obtain ⟨pre, hpredef⟩ : ∃ pre, pre = clampConfig F (parseArgs F args
    (CleanupExistingCapture p)) := ⟨_, rfl⟩
  rw [← hpredef] at hpre
  obtain ⟨hsc, _⟩ := openLoop_props P (IsBluetoothDevice P pre)
    (max_retries (IsBluetoothDevice P pre)) 1 pre [initial_wait (IsBluetoothDevice P pre)]
  have hcap : (OpenWASAPIStreamWithRetry P (IsBluetoothDevice P pre) pre).plugin.is_capturing_ =
      false := by
    unfold OpenWASAPIStreamWithRetry
    rw [hsc.1, hpre]
  unfold StartCapture
  dsimp only
  rw [← hpredef]
  cases hok : (OpenWASAPIStreamWithRetry P (IsBluetoothDevice P pre) pre).ok with
  | false =>
    rw [if_pos rfl]
    exact ⟨hok.symm, fun _ => rfl, fun hc => absurd (hok.symm.trans hc) (by simp)⟩
  | true =>
    rw [if_neg (by simp), if_neg (by rw [hcap]; simp)]
    exact ⟨hok.symm, fun hc => absurd (hok.symm.trans hc) (by simp), fun _ => rfl⟩

theorem Open_first_attempt (P : Platform) (b : Bool) (p : Plugin)
    (h : (P.attempts 1).failure = none) :
    (OpenWASAPIStreamWithRetry P b p).ok = true ∧
    (OpenWASAPIStreamWithRetry P b p).plugin.device_ = some (P.attempts 1).device := by
  unfold OpenWASAPIStreamWithRetry
  cases b with
  | false =>
    rw [show max_retries false = 2 + 1 from rfl, openLoop_success P false 2 1 p _ h]
    exact ⟨rfl, rfl⟩
  | true =>
    rw [show max_retries true = 4 + 1 from rfl, openLoop_success P true 4 1 p _ h]
    exact ⟨rfl, rfl⟩

theorem open_fails_when_all_attempts_fail (P : Platform) (b : Bool) (p : Plugin)
    (hfail : ∀ n, n ≤ max_retries b → (P.attempts n).failure ≠ none) :
    (OpenWASAPIStreamWithRetry P b p).ok = false := by
  have hgen : ∀ (r a : ℕ) (q : Plugin) (w : List ℕ), a + r = max_retries b + 1 →
      (openLoop P b r a q w).ok = false := by
    intro r
    induction r with
    | zero =>
      intro a q w _
      rw [openLoop]
    | succ r ih =>
      intro a q w hsum
      obtain ⟨p1, msg, h1, _, _, _⟩ := attemptOpen_fail (P.attempts a) q (hfail a (by omega))
      by_cases hc : a < max_retries b ∧ (retry_delays b).getD (a - 1) 0 > 0
      · rw [openLoop_retry P b r a q p1 msg w h1 hc]
        exact ih (a + 1) p1 _ (by omega)
      · rw [openLoop_giveup P b r a q p1 msg w h1 hc]
  unfold OpenWASAPIStreamWithRetry
  exact hgen (max_retries b) 1 p _ (by omega)

theorem StopCapture_idle (p : Plugin) (h : p.is_capturing_ = false) :
    StopCapture p = (false, p) := by
  unfold StopCapture
  rw [if_pos h]

theorem StopCapture_active (p : Plugin) (h : p.is_capturing_ = true) :
    (StopCapture p).1 = true ∧ (StopCapture p).2.is_capturing_ = false ∧
    (StopCapture p).2.current_device_name_ = "" ∧ (StopCapture p).2.device_ = none ∧
    (StopCapture p).2.audio_client_ = none ∧ (StopCapture p).2.capture_client_ = none ∧
    (StopCapture p).2.mix_format_ = none := by
  unfold StopCapture
  rw [if_neg (by rw [h]; simp)]
  exact ⟨rfl, rfl, rfl, rfl, rfl, rfl, rfl⟩

theorem StartCapture_first_attempt (F : FloatFormat) (P : Platform) (args : Option StartArgs)
    (p : Plugin) (h : p.is_capturing_ = true → p.thread_joinable = true)
    (hgood : (P.attempts 1).failure = none) :
    (StartCapture F P args p).ok = true ∧
    (StartCapture F P args p).plugin.is_capturing_ = true ∧
    (StartCapture F P args p).plugin.device_ = some (P.attempts 1).device := by
  obtain ⟨s1, _, s3⟩ := StartCapture_spec F P args p h
  obtain ⟨_, f2⟩ := StartCapture_fields F P args p
  obtain ⟨o1, o2⟩ := Open_first_attempt P
    (IsBluetoothDevice P (clampConfig F (parseArgs F args (CleanupExistingCapture p))))
    (clampConfig F (parseArgs F args (CleanupExistingCapture p))) hgood
  have hok : (StartCapture F P args p).opened.ok = true := by rw [f2]; exact o1
  refine ⟨s1.trans hok, ?_, ?_⟩
  · rw [s3 hok]
  · rw [s3 hok]
    show (StartCapture F P args p).opened.plugin.device_ = _
    rw [f2]
    exact o2

theorem IsBluetoothDevice_congr (P : Platform) (p q : Plugin) (h : q.device_ = p.device_) :
    IsBluetoothDevice P q = IsBluetoothDevice P p := by
  unfold IsBluetoothDevice GetCurrentDeviceName
  rw [h]

/-- `StartCapture` classifies the device whose handle is set when it is
called, and opens the stream with the policy of that class. -/
theorem StartCapture_policy (F : FloatFormat) (P : Platform) (args : Option StartArgs)
    (p : Plugin) :
    (StartCapture F P args p).is_bluetooth = IsBluetoothDevice P p ∧
    (StartCapture F P args p).opened =
      OpenWASAPIStreamWithRetry P (IsBluetoothDevice P p)
        (clampConfig F (parseArgs F args (CleanupExistingCapture p))) := by
  obtain ⟨f1, f2⟩ := StartCapture_fields F P args p
  have hc := IsBluetoothDevice_congr P p _ (prepared_device F args p)
  rw [hc] at f1 f2
  exact ⟨f1, f2⟩

theorem Open_first_attempt_waits (P : Platform) (b : Bool) (p : Plugin)
    (h : (P.attempts 1).failure = none) :
    (OpenWASAPIStreamWithRetry P b p).waits = [initial_wait b] ∧
    (OpenWASAPIStreamWithRetry P b p).attempts_made = 1 := by
  unfold OpenWASAPIStreamWithRetry
  cases b with
  | false =>
    rw [show max_retries false = 2 + 1 from rfl, openLoop_success P false 2 1 p _ h]
    exact ⟨rfl, rfl⟩
  | true =>
    rw [show max_retries true = 4 + 1 from rfl, openLoop_success P true 4 1 p _ h]
    exact ⟨rfl, rfl⟩

/-- C19, as the code has it. In every state where the device handle is null,
`GetCurrentDeviceName` returns `Default Microphone` and `IsBluetoothDevice`
returns false; hence a `StartCapture` issued from such a state opens the
stream with the normal policy (the first sleep is 0.3 s, at most 3 attempts),
whatever the platform answers for the name of a device. The handle is null
after construction, after every `StopCapture` that returns true, and after
every failed open that started with a null handle, a failed `StartCapture`
from such a state included. A `StopCapture` that returns false changes
nothing, the device handle included, and from any state `StartCapture`
classifies the device whose handle is set on entry and opens the stream with
the policy of that class: an idle state that still holds a handle gets the
Bluetooth policy when the name of that device holds a keyword. -/
theorem C19_null_device_normal_policy (F : FloatFormat) (P : Platform)
    (args : Option StartArgs) (p : Plugin) (hd : p.device_ = none) :
    GetCurrentDeviceName P p = "Default Microphone" ∧
    IsBluetoothDevice P p = false ∧
    (StartCapture F P args p).is_bluetooth = false ∧
    (StartCapture F P args p).opened = OpenWASAPIStreamWithRetry P false
      (clampConfig F (parseArgs F args (CleanupExistingCapture p))) ∧
    (∃ t, (StartCapture F P args p).opened.waits = 300 :: t) ∧
    (StartCapture F P args p).opened.attempts_made ≤ 3 ∧
    Plugin.init.device_ = none ∧
    (∀ q : Plugin, (StopCapture q).1 = true → (StopCapture q).2.device_ = none) ∧
    (∀ (b : Bool) (q : Plugin), q.device_ = none →
      (OpenWASAPIStreamWithRetry P b q).ok = false →
      (OpenWASAPIStreamWithRetry P b q).plugin.device_ = none) ∧
    ((p.is_capturing_ = true → p.thread_joinable = true) →
      (StartCapture F P args p).ok = false →
      (StartCapture F P args p).plugin.device_ = none) ∧
    (∀ q : Plugin, (StopCapture q).1 = false → (StopCapture q).2 = q) ∧
    (∀ q : Plugin,
      (StartCapture F P args q).is_bluetooth = IsBluetoothDevice P q ∧
      (StartCapture F P args q).opened =
        OpenWASAPIStreamWithRetry P (IsBluetoothDevice P q)
          (clampConfig F (parseArgs F args (CleanupExistingCapture q)))) := by
  have hpre := prepared_device F args p
  rw [hd] at hpre
  have hbt := IsBluetoothDevice_null P _ hpre
  obtain ⟨f1, f2⟩ := StartCapture_fields F P args p
  have hopen : ∀ (b : Bool) (q : Plugin), q.device_ = none →
      (OpenWASAPIStreamWithRetry P b q).ok = false →
      (OpenWASAPIStreamWithRetry P b q).plugin.device_ = none := by
    intro b q hq hok
    exact (openLoop_props P b (max_retries b) 1 q [initial_wait b]).2.2.2.1 hok hq
  refine ⟨GetCurrentDeviceName_null P p hd, IsBluetoothDevice_null P p hd, ?_, ?_, ?_, ?_, rfl,
    ?_, hopen, ?_, ?_, fun q => StartCapture_policy F P args q⟩
  · rw [f1, hbt]
  · rw [f2, hbt]
  · rw [f2, hbt]
    obtain ⟨t, ht⟩ := (openLoop_props P false (max_retries false) 1
      (clampConfig F (parseArgs F args (CleanupExistingCapture p))) [initial_wait false]).2.1
    exact ⟨t, ht⟩
  · rw [f2, hbt]
    exact (openLoop_props P false (max_retries false) 1
      (clampConfig F (parseArgs F args (CleanupExistingCapture p)))
      [initial_wait false]).2.2.1
  · intro q hq
    unfold StopCapture at hq ⊢
    by_cases hc : q.is_capturing_ = false
    · rw [if_pos hc] at hq
      exact absurd hq (by simp)
    · rw [if_neg hc]
  · intro hj hfalse
    obtain ⟨s1, s2, _⟩ := StartCapture_spec F P args p hj
    rw [s1] at hfalse
    rw [s2 hfalse, f2]
    rw [f2] at hfalse
    exact hopen _ _ hpre hfalse
  · intro q hq
    by_cases hc : q.is_capturing_ = false
    · rw [StopCapture_idle q hc]
    · have ht : q.is_capturing_ = true := by simpa using hc
      rw [(StopCapture_active q ht).1] at hq
      exact absurd hq (by simp)

/-- Witness of C19: the first start of a plugin on a platform whose default
device is a Bluetooth headset still uses the normal policy. -/
theorem C19_null_device_normal_policy_witness :
    (StartCapture binary32 (examplePlatform "Sony WH-1000XM4" 1 .start) none
      Plugin.init).is_bluetooth = false :=
  (C19_null_device_normal_policy binary32 (examplePlatform "Sony WH-1000XM4" 1 .start) none
    Plugin.init rfl).2.2.1

/-- Counterexample to C19 as stated: a capture is started on a headset called
`Sony WH-1000XM4`, the capture thread ends in its exception handler, and
`StopCapture` returns false. The plugin is idle and still holds the device
handle, `GetCurrentDeviceName` returns the name of the headset, and the next
`StartCapture` opens the stream with the Bluetooth policy: the first sleep is
1.5 s. -/
theorem C19_counterexample :
    (StartCapture binary32 (examplePlatform "Sony WH-1000XM4" 1 .start) none
      Plugin.init).ok = true ∧
    (StopCapture (captureThreadException (StartCapture binary32
      (examplePlatform "Sony WH-1000XM4" 1 .start) none Plugin.init).plugin)).1 = false ∧
    (StopCapture (captureThreadException (StartCapture binary32
      (examplePlatform "Sony WH-1000XM4" 1 .start) none
      Plugin.init).plugin)).2.is_capturing_ = false ∧
    (StopCapture (captureThreadException (StartCapture binary32
      (examplePlatform "Sony WH-1000XM4" 1 .start) none
      Plugin.init).plugin)).2.device_ = some 101 ∧
    GetCurrentDeviceName (examplePlatform "Sony WH-1000XM4" 1 .start)
      (StopCapture (captureThreadException (StartCapture binary32
        (examplePlatform "Sony WH-1000XM4" 1 .start) none Plugin.init).plugin)).2 =
      "Sony WH-1000XM4" ∧
    IsBluetoothDevice (examplePlatform "Sony WH-1000XM4" 1 .start)
      (StopCapture (captureThreadException (StartCapture binary32
        (examplePlatform "Sony WH-1000XM4" 1 .start) none Plugin.init).plugin)).2 = true ∧
    (StartCapture binary32 (examplePlatform "Sony WH-1000XM4" 1 .start) none
      (StopCapture (captureThreadException (StartCapture binary32
        (examplePlatform "Sony WH-1000XM4" 1 .start) none
        Plugin.init).plugin)).2).is_bluetooth = true ∧
    (StartCapture binary32 (examplePlatform "Sony WH-1000XM4" 1 .start) none
      (StopCapture (captureThreadException (StartCapture binary32
        (examplePlatform "Sony WH-1000XM4" 1 .start) none
        Plugin.init).plugin)).2).opened.waits = [1500] := by
  obtain ⟨h1, _, h3⟩ := StartCapture_first_attempt binary32
    (examplePlatform "Sony WH-1000XM4" 1 .start) none Plugin.init
    (fun h => absurd h (by decide)) rfl
  have hstop := StopCapture_idle (captureThreadException (StartCapture binary32
    (examplePlatform "Sony WH-1000XM4" 1 .start) none Plugin.init).plugin) rfl
  have hdev : (captureThreadException (StartCapture binary32
      (examplePlatform "Sony WH-1000XM4" 1 .start) none Plugin.init).plugin).device_ =
      some 101 := h3
  have hname : GetCurrentDeviceName (examplePlatform "Sony WH-1000XM4" 1 .start)
      (captureThreadException (StartCapture binary32
        (examplePlatform "Sony WH-1000XM4" 1 .start) none Plugin.init).plugin) =
      "Sony WH-1000XM4" := by
    unfold GetCurrentDeviceName
    rw [hdev]
    rfl
  have hbt : IsBluetoothDevice (examplePlatform "Sony WH-1000XM4" 1 .start)
      (captureThreadException (StartCapture binary32
        (examplePlatform "Sony WH-1000XM4" 1 .start) none Plugin.init).plugin) = true := by
    unfold IsBluetoothDevice
    rw [hname]
    decide
  obtain ⟨p1, p2⟩ := StartCapture_policy binary32
    (examplePlatform "Sony WH-1000XM4" 1 .start) none
    (captureThreadException (StartCapture binary32
      (examplePlatform "Sony WH-1000XM4" 1 .start) none Plugin.init).plugin)
  rw [hstop]
  refine ⟨h1, rfl, rfl, hdev, hname, hbt, ?_, ?_⟩
  · rw [p1, hbt]
  · rw [p2, hbt]
    exact (Open_first_attempt_waits _ true _ rfl).1

/-- C3, as the code has it. In every state where a capture is active
(`is_capturing_` true and the capture thread running), `StartCapture` first
stops the existing session (the thread is joined, `is_capturing_` and the
device name are cleared) and then opens a stream again; it returns what the
open returns. When the open fails it returns false with `is_capturing_`
false, `should_stop_` true and the device name empty; when the open succeeds
it returns true with a new session: `is_capturing_` true, `should_stop_`
false, and the device, client and format handles of the successful attempt. -/
theorem C3_start_while_active (F : FloatFormat) (P : Platform) (args : Option StartArgs)
    (p : Plugin) (hcap : p.is_capturing_ = true) (hthread : p.thread_joinable = true) :
    (StartCapture F P args p).ok = (StartCapture F P args p).opened.ok ∧
    ((StartCapture F P args p).ok = false →
      (StartCapture F P args p).plugin.is_capturing_ = false ∧
      (StartCapture F P args p).plugin.should_stop_ = true ∧
      (StartCapture F P args p).plugin.current_device_name_ = "") ∧
    ((StartCapture F P args p).ok = true →
      (StartCapture F P args p).plugin.is_capturing_ = true ∧
      (StartCapture F P args p).plugin.should_stop_ = false ∧
      (StartCapture F P args p).plugin.device_ =
        some (P.attempts (StartCapture F P args p).opened.attempts_made).device ∧
      (StartCapture F P args p).plugin.audio_client_ =
        some (P.attempts (StartCapture F P args p).opened.attempts_made).client ∧
      (StartCapture F P args p).plugin.capture_client_ =
        some (P.attempts (StartCapture F P args p).opened.attempts_made).capture ∧
      (StartCapture F P args p).plugin.mix_format_ =
        some (P.attempts (StartCapture F P args p).opened.attempts_made).format) := by
  obtain ⟨s1, s2, s3⟩ := StartCapture_spec F P args p (fun _ => hthread)
  obtain ⟨c1, c2, c3⟩ := prepared_control F args p (fun _ => hthread)
  obtain ⟨_, f2⟩ := StartCapture_fields F P args p
  obtain ⟨hsc, _, _, _, hok⟩ := openLoop_props P
    (IsBluetoothDevice P (clampConfig F (parseArgs F args (CleanupExistingCapture p))))
    (max_retries (IsBluetoothDevice P (clampConfig F (parseArgs F args
      (CleanupExistingCapture p))))) 1
    (clampConfig F (parseArgs F args (CleanupExistingCapture p)))
    [initial_wait (IsBluetoothDevice P (clampConfig F (parseArgs F args
      (CleanupExistingCapture p))))]
  refine ⟨s1, ?_, ?_⟩
  · intro hfalse
    rw [s1] at hfalse
    rw [s2 hfalse, f2]
    unfold OpenWASAPIStreamWithRetry
    exact ⟨hsc.1.trans c1, hsc.2.1.trans (c3 hcap), hsc.2.2.2.1.trans c2⟩
  · intro htrue
    rw [s1] at htrue
    rw [s3 htrue]
    rw [f2] at htrue ⊢
    obtain ⟨_, h2, h3, h4, h5⟩ := hok htrue
    exact ⟨rfl, rfl, h2, h3, h4, h5⟩

/-- Witness of C3: a running capture, and a platform that opens at once. -/
theorem C3_start_while_active_witness :
    (StartCapture binary32 (examplePlatform "USB Microphone" 1 .start) none
      activeExample).ok =
    (StartCapture binary32 (examplePlatform "USB Microphone" 1 .start) none
      activeExample).opened.ok :=
  (C3_start_while_active binary32 (examplePlatform "USB Microphone" 1 .start) none
    activeExample rfl rfl).1

/-- Counterexample to C3 as stated: with a capture running, `StartCapture`
returns true when the platform opens the stream, and when the platform
refuses it returns false but has stopped the running capture
(`is_capturing_` false, `should_stop_` true, device name cleared). -/
theorem C3_counterexample :
    activeExample.is_capturing_ = true ∧ activeExample.thread_joinable = true ∧
    (StartCapture binary32 (examplePlatform "USB Microphone" 1 .start) none
      activeExample).ok = true ∧
    (StartCapture binary32 (examplePlatform "USB Microphone" 100 .start) none
      activeExample).ok = false ∧
    (StartCapture binary32 (examplePlatform "USB Microphone" 100 .start) none
      activeExample).plugin.is_capturing_ = false ∧
    (StartCapture binary32 (examplePlatform "USB Microphone" 100 .start) none
      activeExample).plugin.current_device_name_ ≠ activeExample.current_device_name_ := by
  have hj : activeExample.is_capturing_ = true → activeExample.thread_joinable = true :=
    fun _ => rfl
  refine ⟨rfl, rfl, ?_, ?_, ?_, ?_⟩
  · obtain ⟨s1, _, _⟩ := StartCapture_spec binary32
      (examplePlatform "USB Microphone" 1 .start) none activeExample hj
    obtain ⟨_, f2⟩ := StartCapture_fields binary32
      (examplePlatform "USB Microphone" 1 .start) none activeExample
    rw [s1, f2]
    exact (Open_first_attempt _ _ _ rfl).1
  all_goals
    obtain ⟨s1, s2, _⟩ := StartCapture_spec binary32
      (examplePlatform "USB Microphone" 100 .start) none activeExample hj
    obtain ⟨_, f2⟩ := StartCapture_fields binary32
      (examplePlatform "USB Microphone" 100 .start) none activeExample
    obtain ⟨c1, c2, _⟩ := prepared_control binary32 none activeExample hj
    obtain ⟨hsc, _⟩ := openLoop_props (examplePlatform "USB Microphone" 100 .start)
      (IsBluetoothDevice (examplePlatform "USB Microphone" 100 .start)
        (clampConfig binary32 (parseArgs binary32 none (CleanupExistingCapture activeExample))))
      (max_retries (IsBluetoothDevice (examplePlatform "USB Microphone" 100 .start)
        (clampConfig binary32 (parseArgs binary32 none (CleanupExistingCapture activeExample)))))
      1 (clampConfig binary32 (parseArgs binary32 none (CleanupExistingCapture activeExample)))
      [initial_wait (IsBluetoothDevice (examplePlatform "USB Microphone" 100 .start)
        (clampConfig binary32 (parseArgs binary32 none (CleanupExistingCapture activeExample))))]
    have hfail := (open_fails_when_all_attempts_fail (examplePlatform "USB Microphone" 100 .start)
      (IsBluetoothDevice (examplePlatform "USB Microphone" 100 .start)
        (clampConfig binary32 (parseArgs binary32 none (CleanupExistingCapture activeExample))))
      (clampConfig binary32 (parseArgs binary32 none (CleanupExistingCapture activeExample)))
      (fun n hn => examplePlatform_fails _ _ _ n (lt_of_le_of_lt hn (by
        cases (IsBluetoothDevice (examplePlatform "USB Microphone" 100 .start)
          (clampConfig binary32 (parseArgs binary32 none
            (CleanupExistingCapture activeExample)))) <;> decide))))
    have hok : (StartCapture binary32 (examplePlatform "USB Microphone" 100 .start) none
        activeExample).opened.ok = false := by rw [f2]; exact hfail
    first
    | (rw [s1]; exact hok)
    | (rw [s2 hok, f2]; unfold OpenWASAPIStreamWithRetry; exact hsc.1.trans c1)
    | (rw [s2 hok, f2]
       have e : (OpenWASAPIStreamWithRetry (examplePlatform "USB Microphone" 100 .start)
           (IsBluetoothDevice (examplePlatform "USB Microphone" 100 .start)
             (clampConfig binary32 (parseArgs binary32 none
               (CleanupExistingCapture activeExample))))
           (clampConfig binary32 (parseArgs binary32 none
             (CleanupExistingCapture activeExample)))).plugin.current_device_name_ = "" := by
         unfold OpenWASAPIStreamWithRetry
         exact hsc.2.2.2.1.trans c2
       rw [e]
       decide)

/-- C4, as the code has it. `StopCapture` returns the value `is_capturing_`
has on entry: called while idle it returns false and changes no field; called
while `is_capturing_` is true it returns true, and on return `is_capturing_`
is false, the device name is empty and the device, audio-client,
capture-client and format handles are null. A successful `StartCapture`
leaves `is_capturing_` true, so that a `StopCapture` that follows it directly
returns true; but once the exception handler of the capture thread has reset
`is_capturing_`, `StopCapture` returns false and releases nothing. -/
theorem C4_stop_capture (F : FloatFormat) (P : Platform) (args : Option StartArgs)
    (p : Plugin) (hthread : p.is_capturing_ = true → p.thread_joinable = true)
    (hok : (StartCapture F P args p).ok = true) :
    (∀ q : Plugin, (StopCapture q).1 = q.is_capturing_) ∧
    (∀ q : Plugin, q.is_capturing_ = false → StopCapture q = (false, q)) ∧
    (∀ q : Plugin, q.is_capturing_ = true →
      (StopCapture q).1 = true ∧ (StopCapture q).2.is_capturing_ = false ∧
      (StopCapture q).2.current_device_name_ = "" ∧ (StopCapture q).2.device_ = none ∧
      (StopCapture q).2.audio_client_ = none ∧ (StopCapture q).2.capture_client_ = none ∧
      (StopCapture q).2.mix_format_ = none) ∧
    ((StopCapture (StartCapture F P args p).plugin).1 = true ∧
      (StopCapture (StartCapture F P args p).plugin).2.is_capturing_ = false ∧
      (StopCapture (StartCapture F P args p).plugin).2.current_device_name_ = "" ∧
      (StopCapture (StartCapture F P args p).plugin).2.device_ = none ∧
      (StopCapture (StartCapture F P args p).plugin).2.audio_client_ = none ∧
      (StopCapture (StartCapture F P args p).plugin).2.capture_client_ = none ∧
      (StopCapture (StartCapture F P args p).plugin).2.mix_format_ = none) ∧
    StopCapture (captureThreadException (StartCapture F P args p).plugin) =
      (false, captureThreadException (StartCapture F P args p).plugin) := by
  have hcap : (StartCapture F P args p).plugin.is_capturing_ = true := by
    obtain ⟨s1, _, s3⟩ := StartCapture_spec F P args p hthread
    rw [s3 (s1.symm.trans hok)]
  refine ⟨?_, StopCapture_idle, StopCapture_active, StopCapture_active _ hcap,
    StopCapture_idle _ rfl⟩
  intro q
  cases hq : q.is_capturing_ with
  | false => rw [StopCapture_idle q hq]
  | true => exact (StopCapture_active q hq).1

/-- Witness of C4: the first start of a plugin, on a platform that opens at
once. -/
theorem C4_stop_capture_witness :
    (StartCapture binary32 (examplePlatform "USB Microphone" 1 .start) none
      Plugin.init).ok = true ∧
    (StopCapture (StartCapture binary32 (examplePlatform "USB Microphone" 1 .start) none
      Plugin.init).plugin).1 = true :=
  ⟨(StartCapture_first_attempt binary32 (examplePlatform "USB Microphone" 1 .start) none
      Plugin.init (fun h => absurd h (by decide)) rfl).1,
   (C4_stop_capture binary32 (examplePlatform "USB Microphone" 1 .start) none Plugin.init
      (fun h => absurd h (by decide))
      (StartCapture_first_attempt binary32 (examplePlatform "USB Microphone" 1 .start) none
        Plugin.init (fun h => absurd h (by decide)) rfl).1).2.2.2.1.1⟩

/-- Counterexample to C4 as stated: `StartCapture` succeeds, the capture
thread ends in its exception handler, and the `StopCapture` that follows
returns false and leaves the device handle in place. -/
theorem C4_counterexample :
    (StartCapture binary32 (examplePlatform "USB Microphone" 1 .start) none
      Plugin.init).ok = true ∧
    (StopCapture (captureThreadException (StartCapture binary32
      (examplePlatform "USB Microphone" 1 .start) none Plugin.init).plugin)).1 = false ∧
    (StopCapture (captureThreadException (StartCapture binary32
      (examplePlatform "USB Microphone" 1 .start) none Plugin.init).plugin)).2.device_ ≠
      none := by
  obtain ⟨h1, _, h3⟩ := StartCapture_first_attempt binary32
    (examplePlatform "USB Microphone" 1 .start) none Plugin.init (fun h => absurd h (by decide)) rfl
  refine ⟨h1, ?_, ?_⟩
  · rw [StopCapture_idle _ rfl]
  · rw [StopCapture_idle _ rfl]
    show (StartCapture binary32 (examplePlatform "USB Microphone" 1 .start) none
      Plugin.init).plugin.device_ ≠ none
    rw [h3]
    simp

/-! ### Bounds of the carry-over buffer -/

/-- The loop is the iteration of its body. -/
theorem copyLoop_succ (env : CaptureEnv) (stop : Bool) (data : List ℕ)
    (data_size fuel off : ℕ) (st : CaptureState) :
    copyLoop env stop data data_size (fuel + 1) off st =
      if off < data_size ∧ stop = false then
        copyLoop env stop data data_size fuel (copyStep env data data_size off st).data_offset
          (copyStep env data data_size off st).at_end
      else some st := by
  rw [copyLoop]
  by_cases hc : off < data_size ∧ stop = false
  · rw [if_pos hc, if_pos hc]
    unfold copyStep
    dsimp only
    by_cases h0 : min (st.raw_buffer.length - st.raw_buffer_pos) (data_size - off) > 0
    · simp only [if_pos h0]
      split
      · split
        · rfl
        · split <;> rfl
      · rfl
    · simp only [if_neg h0]
      split
      · split
        · rfl
        · split <;> rfl
      · rfl
  · rw [if_neg hc, if_neg hc]

/-- One iteration entered with at most one chunk in the carry-over buffer: it
copies at least one byte, inside the buffer and inside the device buffer, and
ends with at most one chunk in the carry-over buffer. -/
theorem copyStep_bounds (env : CaptureEnv) (data : List ℕ) (data_size off : ℕ)
    (st : CaptureState) (hC : 0 < chunkSizeBytes env)
    (hlen : st.raw_buffer.length = 2 * chunkSizeBytes env)
    (hpos : st.raw_buffer_pos ≤ chunkSizeBytes env) (hd : data_size ≤ data.length)
    (hoff : off < data_size) :
    (copyStep env data data_size off st).copy_size =
      min (2 * chunkSizeBytes env - st.raw_buffer_pos) (data_size - off) ∧
    0 < (copyStep env data data_size off st).copy_size ∧
    st.raw_buffer_pos + (copyStep env data data_size off st).copy_size ≤
      2 * chunkSizeBytes env ∧
    off + (copyStep env data data_size off st).copy_size ≤ data_size ∧
    (copyStep env data data_size off st).after_copy.raw_buffer_pos =
      st.raw_buffer_pos + (copyStep env data data_size off st).copy_size ∧
    (copyStep env data data_size off st).after_copy.raw_buffer.length =
      2 * chunkSizeBytes env ∧
    (copyStep env data data_size off st).data_offset =
      off + (copyStep env data data_size off st).copy_size ∧
    ((copyStep env data data_size off st).processed = true ↔
      chunkSizeBytes env ≤ (copyStep env data data_size off st).after_copy.raw_buffer_pos) ∧
    (copyStep env data data_size off st).at_end.raw_buffer.length = 2 * chunkSizeBytes env ∧
    (copyStep env data data_size off st).at_end.raw_buffer_pos ≤ chunkSizeBytes env := by
  obtain ⟨C, hCdef⟩ : ∃ C, C = chunkSizeBytes env := ⟨_, rfl⟩
  rw [← hCdef] at hC hlen hpos ⊢
  obtain ⟨copy, hcopy⟩ : ∃ copy, copy = min (st.raw_buffer.length - st.raw_buffer_pos)
      (data_size - off) := ⟨_, rfl⟩
  have hcpos : 0 < copy := by
    rw [hcopy]
    apply lt_min <;> omega
  have hcle : off + copy ≤ data_size := by
    have := Nat.min_le_right (st.raw_buffer.length - st.raw_buffer_pos) (data_size - off)
    omega
  have hcsp : st.raw_buffer_pos + copy ≤ 2 * C := by
    have := Nat.min_le_left (st.raw_buffer.length - st.raw_buffer_pos) (data_size - off)
    omega
  have hcopy2 : copy = min (2 * C - st.raw_buffer_pos) (data_size - off) := by
    rw [hcopy, hlen]
  obtain ⟨slice, hslice⟩ : ∃ slice, slice = (data.drop off).take copy := ⟨_, rfl⟩
  have hsl : slice.length = copy := by
    rw [hslice, List.length_take, List.length_drop]
    omega
  obtain ⟨raw1, hraw1⟩ : ∃ raw1, raw1 = writeAt st.raw_buffer st.raw_buffer_pos slice :=
    ⟨_, rfl⟩
  have hraw1len : raw1.length = 2 * C := by
    rw [hraw1, writeAt_length _ _ _ (by omega), hlen]
  have hunf : copyStep env data data_size off st =
      (if st.raw_buffer_pos + copy ≥ C then
        match processChunk env raw1 st.output_buffer with
        | none =>
          { copy_size := copy
            after_copy :=
              { st with raw_buffer := raw1, raw_buffer_pos := st.raw_buffer_pos + copy }
            data_offset := off + copy
            processed := true
            at_end := { st with raw_buffer := raw1, raw_buffer_pos := 0 } }
        | some (new_output_buffer, audio_data, decibel) =>
          if st.raw_buffer_pos + copy > C then
            { copy_size := copy
              after_copy :=
                { st with raw_buffer := raw1, raw_buffer_pos := st.raw_buffer_pos + copy }
              data_offset := off + copy
              processed := true
              at_end :=
                { raw_buffer := writeAt raw1 0
                    ((raw1.drop C).take (st.raw_buffer_pos + copy - C))
                  raw_buffer_pos := st.raw_buffer_pos + copy - C
                  output_buffer := new_output_buffer
                  queued := st.queued ++ [(audio_data, decibel)]
                  chunks := st.chunks ++ [raw1.take C] } }
          else
            { copy_size := copy
              after_copy :=
                { st with raw_buffer := raw1, raw_buffer_pos := st.raw_buffer_pos + copy }
              data_offset := off + copy
              processed := true
              at_end :=
                { raw_buffer := raw1
                  raw_buffer_pos := 0
                  output_buffer := new_output_buffer
                  queued := st.queued ++ [(audio_data, decibel)]
                  chunks := st.chunks ++ [raw1.take C] } }
      else
        { copy_size := copy
          after_copy :=
            { st with raw_buffer := raw1, raw_buffer_pos := st.raw_buffer_pos + copy }
          data_offset := off + copy
          processed := false
          at_end :=
            { st with raw_buffer := raw1, raw_buffer_pos := st.raw_buffer_pos + copy } }) := by
    unfold copyStep
    simp only [← hcopy, ← hCdef, hcpos, if_true, ← hslice, ← hraw1, gt_iff_lt, ge_iff_le]
  rw [hunf]
  by_cases hge : st.raw_buffer_pos + copy ≥ C
  · rw [if_pos hge]
    cases hp : processChunk env raw1 st.output_buffer with
    | none =>
      exact ⟨hcopy2, hcpos, hcsp, hcle, rfl, hraw1len, rfl, ⟨fun _ => hge, fun _ => rfl⟩,
        hraw1len, Nat.zero_le _⟩
    | some r =>
      obtain ⟨o, a, d⟩ := r
      dsimp only
      by_cases hgt : st.raw_buffer_pos + copy > C
      · rw [if_pos hgt]
        refine ⟨hcopy2, hcpos, hcsp, hcle, rfl, hraw1len, rfl, ⟨fun _ => hge, fun _ => rfl⟩,
          ?_, ?_⟩
        · show (writeAt raw1 0 _).length = 2 * C
          rw [writeAt_length _ _ _ (by
            rw [List.length_take, List.length_drop]; omega), hraw1len]
        · show st.raw_buffer_pos + copy - C ≤ C
          omega
      · rw [if_neg hgt]
        exact ⟨hcopy2, hcpos, hcsp, hcle, rfl, hraw1len, rfl, ⟨fun _ => hge, fun _ => rfl⟩,
          hraw1len, Nat.zero_le _⟩
  · rw [if_neg hge]
    refine ⟨hcopy2, hcpos, hcsp, hcle, rfl, hraw1len, rfl,
      ⟨fun h => absurd h (by simp), fun h => absurd h hge⟩, hraw1len, ?_⟩
    show st.raw_buffer_pos + copy ≤ C
    omega

/-- Every iteration in the trace is entered before the end of the device
buffer with a buffer of two chunks holding at most one, and is the body of the
loop at that offset and state; the trace has at most as many iterations as
bytes are left. -/
theorem copyTrace_entries (env : CaptureEnv) (stop : Bool) (data : List ℕ) (data_size : ℕ)
    (hC : 0 < chunkSizeBytes env) (hd : data_size ≤ data.length) (fuel : ℕ) :
    ∀ (off : ℕ) (st : CaptureState),
      st.raw_buffer.length = 2 * chunkSizeBytes env →
      st.raw_buffer_pos ≤ chunkSizeBytes env →
      (copyTrace env stop data data_size fuel off st).length ≤ data_size - off ∧
      ∀ e ∈ copyTrace env stop data data_size fuel off st,
        e.1 < data_size ∧ e.2.2 = copyStep env data data_size e.1 e.2.1 ∧
        e.2.1.raw_buffer.length = 2 * chunkSizeBytes env ∧
        e.2.1.raw_buffer_pos ≤ chunkSizeBytes env := by
  induction fuel with
  | zero =>
    intro off st _ _
    rw [copyTrace]
    exact ⟨Nat.zero_le _, fun e he => absurd he (List.not_mem_nil e)⟩
  | succ fuel ih =>
    intro off st hlen hpos
    rw [copyTrace]
    by_cases hc : off < data_size ∧ stop = false
    · rw [if_pos hc]
      obtain ⟨_, hcpos, _, hcle, _, _, hoff1, _, hlen1, hpos1⟩ :=
        copyStep_bounds env data data_size off st hC hlen hpos hd hc.1
      obtain ⟨ihl, ihe⟩ := ih (copyStep env data data_size off st).data_offset
        (copyStep env data data_size off st).at_end hlen1 hpos1
      refine ⟨?_, ?_⟩
      · rw [List.length_cons]
        omega
      · intro e he
        rcases List.mem_cons.mp he with h | h
        · rw [h]
          exact ⟨hc.1, rfl, hlen, hpos⟩
        · exact ihe e h
    · rw [if_neg hc]
      exact ⟨Nat.zero_le _, fun e he => absurd he (List.not_mem_nil e)⟩

/-- The loop returns once it has as much fuel as bytes are left, whatever the
format and the stop flag, with a buffer of two chunks holding at most one. -/
theorem copyLoop_returns (env : CaptureEnv) (stop : Bool) (data : List ℕ) (data_size : ℕ)
    (hC : 0 < chunkSizeBytes env) (hd : data_size ≤ data.length) (fuel : ℕ) :
    ∀ (off : ℕ) (st : CaptureState), data_size - off ≤ fuel →
      st.raw_buffer.length = 2 * chunkSizeBytes env →
      st.raw_buffer_pos ≤ chunkSizeBytes env →
      ∃ st2 : CaptureState, copyLoop env stop data data_size fuel off st = some st2 ∧
        st2.raw_buffer.length = 2 * chunkSizeBytes env ∧
        st2.raw_buffer_pos ≤ chunkSizeBytes env := by
  induction fuel with
  | zero =>
    intro off st hfuel hlen hpos
    exact ⟨st, copyLoop_done env stop data data_size 0 off st (by omega), hlen, hpos⟩
  | succ fuel ih =>
    intro off st hfuel hlen hpos
    rw [copyLoop_succ]
    by_cases hc : off < data_size ∧ stop = false
    · rw [if_pos hc]
      obtain ⟨_, hcpos, _, hcle, _, _, hoff1, _, hlen1, hpos1⟩ :=
        copyStep_bounds env data data_size off st hC hlen hpos hd hc.1
      exact ih _ _ (by rw [hoff1]; omega) hlen1 hpos1
    · rw [if_neg hc]
      exact ⟨st, rfl, hlen, hpos⟩

/-- C21. For `chunk_size_bytes > 0`, take the loop over one device buffer
entered with the carry-over buffer of `2 * chunk_size_bytes` bytes holding at
most `chunk_size_bytes` (as it is when the thread starts, and as every such
loop leaves it). Every iteration the loop makes is entered with
`raw_buffer_pos <= chunk_size_bytes`, copies at least one byte, the copy
ending inside the buffer (`raw_buffer_pos + copy_size <= 2 * chunk_size_bytes`)
and inside the device buffer, leaves the fill position at most
`2 * chunk_size_bytes` after the copy, processes a chunk exactly when that
position has reached `chunk_size_bytes`, and ends with
`raw_buffer_pos <= chunk_size_bytes`. The loop makes at most `data_size`
iterations, and with that much fuel it returns. -/
theorem C21_carry_over_bounds (env : CaptureEnv) (stop : Bool) (data : List ℕ)
    (data_size : ℕ) (st : CaptureState) (hC : 0 < chunkSizeBytes env)
    (hd : data_size ≤ data.length)
    (hlen : st.raw_buffer.length = 2 * chunkSizeBytes env)
    (hpos : st.raw_buffer_pos ≤ chunkSizeBytes env) :
    (∀ (fuel : ℕ) (e : ℕ × CaptureState × CopyIteration),
      e ∈ copyTrace env stop data data_size fuel 0 st →
        e.2.2 = copyStep env data data_size e.1 e.2.1 ∧
        e.2.1.raw_buffer.length = 2 * chunkSizeBytes env ∧
        e.2.1.raw_buffer_pos ≤ chunkSizeBytes env ∧
        0 < e.2.2.copy_size ∧
        e.2.1.raw_buffer_pos + e.2.2.copy_size ≤ 2 * chunkSizeBytes env ∧
        e.1 + e.2.2.copy_size ≤ data_size ∧
        e.2.2.after_copy.raw_buffer_pos = e.2.1.raw_buffer_pos + e.2.2.copy_size ∧
        e.2.2.after_copy.raw_buffer_pos ≤ 2 * chunkSizeBytes env ∧
        e.2.2.after_copy.raw_buffer.length = 2 * chunkSizeBytes env ∧
        (e.2.2.processed = true ↔ chunkSizeBytes env ≤ e.2.2.after_copy.raw_buffer_pos) ∧
        e.2.2.at_end.raw_buffer.length = 2 * chunkSizeBytes env ∧
        e.2.2.at_end.raw_buffer_pos ≤ chunkSizeBytes env ∧
        (0 < e.2.2.copy_size ∨ e.2.2.processed = true)) ∧
    (∀ fuel : ℕ, (copyTrace env stop data data_size fuel 0 st).length ≤ data_size) ∧
    (∀ fuel : ℕ, data_size ≤ fuel →
      ∃ st2 : CaptureState, copyLoop env stop data data_size fuel 0 st = some st2 ∧
        st2.raw_buffer.length = 2 * chunkSizeBytes env ∧
        st2.raw_buffer_pos ≤ chunkSizeBytes env) ∧
    (∀ (fuel off : ℕ) (s : CaptureState),
      copyLoop env stop data data_size (fuel + 1) off s =
        if off < data_size ∧ stop = false then
          copyLoop env stop data data_size fuel (copyStep env data data_size off s).data_offset
            (copyStep env data data_size off s).at_end
        else some s) ∧
    (initialCaptureState env).raw_buffer.length = 2 * chunkSizeBytes env ∧
    (initialCaptureState env).raw_buffer_pos = 0 := by
  refine ⟨?_, ?_, ?_, fun fuel off s => copyLoop_succ env stop data data_size fuel off s,
    initialCaptureState_length env, rfl⟩
  · intro fuel e he
    obtain ⟨hlt, hstep, hl, hp⟩ :=
      (copyTrace_entries env stop data data_size hC hd fuel 0 st hlen hpos).2 e he
    obtain ⟨_, b2, b3, b4, b5, b6, _, b8, b9, b10⟩ :=
      copyStep_bounds env data data_size e.1 e.2.1 hC hl hp hd hlt
    rw [← hstep] at b2 b3 b4 b5 b6 b8 b9 b10
    exact ⟨hstep, hl, hp, b2, b3, b4, b5, by rw [b5]; exact b3, b6, b8, b9, b10, Or.inl b2⟩
  · intro fuel
    exact (copyTrace_entries env stop data data_size hC hd fuel 0 st hlen hpos).1
  · intro fuel hfuel
    exact copyLoop_returns env stop data data_size hC hd fuel 0 st (by omega) hlen hpos

/-- Witness of C21: a mono PCM16 device at 48000 Hz (chunks of 2880 bytes), the
initial state, and a device buffer of 960 bytes. -/
theorem C21_carry_over_bounds_witness :
    ∃ st2 : CaptureState,
      copyLoop (exampleEnv 48000) false (List.replicate 960 7) 960 960 0
        (initialCaptureState (exampleEnv 48000)) = some st2 ∧
      st2.raw_buffer.length = 2 * chunkSizeBytes (exampleEnv 48000) ∧
      st2.raw_buffer_pos ≤ chunkSizeBytes (exampleEnv 48000) :=
  (C21_carry_over_bounds (exampleEnv 48000) false (List.replicate 960 7) 960
    (initialCaptureState (exampleEnv 48000))
    (by rw [exampleEnv_chunkSizeBytes]; norm_num)
    (by rw [List.length_replicate])
    (initialCaptureState_length _) (Nat.zero_le _)).2.2.1 960 (Nat.le_refl _)

end AudioCapture
